import Mathlib

/-!
Verification of `aem_to_normalized.py`: a script that normalizes an AEM
content export (a flat list of records with `name`, `path` and a `data`
object) into four tables: `content`, `content_to_text`, `content_to_content`
and `content_to_attribute`.

The embedding below translates the script's `transform` function (and the
structural input check of `main`) into executable Lean definitions.  Python
values appearing inside a record's `data` object are modelled by the JSON
value type `JVal`; per §6 of the input contract each record is an object
with an optional string `name`, a string `path` and an object `data`
(non-object `data` values crash the script and are outside the model).
Dates (`created_date` / `deleted_date`) are a run-constant timestamp and the
constant `''`; they are omitted from the row types since no behaviour
depends on them.  The external metadata fetch (`http_get` + `json.loads`)
is modelled by an oracle `String → Option JVal` mapping the request URL to
the parsed body (`none` = any network/parse failure).  The state carries
three ghost trace fields (`roleTrace`, `urlTrace`, `fetchTrace`) that record
events for specification purposes only; they never influence the tables.
-/

/-- JSON-like values as parsed by `json.loads` (numbers restricted to
integers; the source only ever converts them with `str`/`int`). -/
inductive JVal where
  | null
  | bool (b : Bool)
  | num (n : Int)
  | str (s : String)
  | list (xs : List JVal)
  | obj (fields : List (String × JVal))

/-- Python truthiness of a JSON value (`if v:`). -/
def pyTruthy : JVal → Bool
  | .null => false
  | .bool b => b
  | .num n => n != 0
  | .str s => s != ""
  | .list xs => !xs.isEmpty
  | .obj fs => !fs.isEmpty

/-- Python `str()` of a JSON value.  `str` on composite values (lists and
objects) is abstracted to a fixed placeholder: the script only applies it to
scalar field values and no claim depends on the composite rendering. -/
def pyStr : JVal → String
  | .null => "None"
  | .bool true => "True"
  | .bool false => "False"
  | .num n => toString n
  | .str s => s
  | .list _ => "[composite]"
  | .obj _ => "\x7bcomposite\x7d"

/-- A `text_value` as actually stored by the script: either the result of a
`str(...)` call or a raw integer (the enrichment width/height rows). -/
inductive TVal where
  | s (v : String)
  | i (v : Int)
deriving DecidableEq, Repr

/-- `str()` of a stored text value (used by the de-duplication key). -/
def TVal.toStr : TVal → String
  | .s v => v
  | .i v => toString v

/-- Association-list lookup (Python `dict.get` / JSON object field access;
JSON objects have unique keys, so first-match lookup is adequate). -/
def lookupA {β : Type} : List (String × β) → String → Option β
  | [], _ => none
  | (k, v) :: rest, x => if k = x then some v else lookupA rest x

/-- Lookup in a dictionary keyed by `Option String` (the script keys
`type_cache` / `include_mask` by the raw `name`, which may be `None`). -/
def lookupO {β : Type} : List (Option String × β) → Option String → Option β
  | [], _ => none
  | (k, v) :: rest, x => if k = x then some v else lookupO rest x

/-- Python `d[k] = v` on an insertion-ordered dict: update in place when the
key exists, else append. -/
def dictSet {β : Type} (m : List (String × β)) (k : String) (v : β) :
    List (String × β) :=
  if (lookupA m k).isSome then
    m.map (fun p => if p.1 = k then (k, v) else p)
  else m ++ [(k, v)]

/-- `dictSet` for `Option String` keys. -/
def dictSetO {β : Type} (m : List (Option String × β)) (k : Option String)
    (v : β) : List (Option String × β) :=
  if (lookupO m k).isSome then
    m.map (fun p => if p.1 = k then (k, v) else p)
  else m ++ [(k, v)]

/-- An input record: `{'name': ..., 'path': ..., 'data': {...}}`.
`name` is `none` when the key is missing or null; `path` models
`it.get('path', '')`; `data` models `it.get('data', {}) or {}` (absent and
null collapse to the empty object, exactly as at every use site). -/
structure Item where
  name : Option String
  path : String
  data : List (String × JVal)

/-- Truthiness of a record's `name` (`if not name: ...`). -/
def itemNameOk (it : Item) : Bool :=
  match it.name with
  | none => false
  | some s => s != ""

-- --- IDs & Maps (the script's constant tables) ---

/-- `CONTENT_TYPE_ID` (only the values the transform reads). -/
def typeCurriculum : Nat := 1
def typeUnit : Nat := 2
def typeLesson : Nat := 3
def typePage : Nat := 4
def typeAnswer : Nat := 5
def typeAsset : Nat := 6
def typeTerm : Nat := 7

/-- `PATH_TOKEN_TO_TYPE_ID`. -/
def PATH_TOKEN_TO_TYPE_ID : String → Option Nat
  | "curriculum" => some 1
  | "unit" => some 2
  | "lesson" => some 3
  | "question-answer" => some 5
  | "term" => some 7
  | "tag" => some 8
  | _ => none

/-- `LABEL_MAP`. -/
def LABEL_MAP : String → Option Nat
  | "iconPage" => some 303
  | "tipPage" => some 304
  | "imagePage" => some 305
  | "questionPage" => some 310
  | "lessonTableOfContentsPage" => some 311
  | "lessonIntroPage" => some 313
  | "curriculumIntroPage" => some 314
  | _ => none

/-- `IMAGE_ROLE_LABEL`. -/
def IMAGE_ROLE_LABEL : String → Option Nat
  | "icon" => some 401
  | "iconImage" => some 401
  | "posterImage" => some 402
  | "thumbnailImage" => some 403
  | "heroImage" => some 404
  | "titleImage" => some 405
  | "title_image" => some 405
  | "titleimage" => some 405
  | _ => none

/-- `ROLE_PRIORITY.get(r, 0)`. -/
def ROLE_PRIORITY : Option Nat → Nat
  | some 405 => 5
  | some 404 => 4
  | some 403 => 3
  | some 401 => 2
  | some 402 => 1
  | _ => 0

/-- `ATTR_ID_MAP`. -/
def ATTR_ID_MAP : String → Option Nat
  | "DM" => some 1
  | "HTN" => some 2
  | "DPP" => some 3
  | "WL" => some 4
  | "None" => some 5
  | "Daily" => some 6
  | "Weekly" => some 7
  | "Monthly" => some 8
  | "AWM" => some 9
  | "CWC" => some 10
  | _ => none

/-- `TAG_TO_ATTR`. -/
def TAG_TO_ATTR : String → Option Nat
  | "dm" => some 1
  | "htn" => some 2
  | "dpp" => some 3
  | "wl" => some 4
  | "awm" => some 9
  | "cwc" => some 10
  | _ => none

/-- `TEXT_FIELDS`, as an insertion-ordered list (the script iterates
`TEXT_FIELDS.items()` and row order follows it). -/
def TEXT_FIELDS : List (String × Nat) :=
  [("title", 1), ("subtitle", 2), ("description", 3), ("beginCaption", 4),
   ("finishCaption", 5), ("completedMessage", 6), ("body", 7),
   ("tipText", 8), ("questionId", 9), ("question", 10),
   ("otherCaption", 13), ("otherPlaceholder", 14), ("acknowledgement", 15),
   ("name", 16), ("definition", 17), ("tipType", 22), ("includeOther", 23),
   ("cadenceSkip", 24), ("lastRequiredPageIndex", 25), ("answerText", 26)]

/-- `SPECIAL_TO_TEXT`. -/
def SPECIAL_TO_TEXT : List (String × Nat) :=
  [("titleRequiredEnglish", 1), ("descriptionRequiredEnglish", 7)]

/-- `IMAGE_URL_KEYS`. -/
def IMAGE_URL_KEYS : List String :=
  ["heroImage", "thumbnailImage", "posterImage", "titleImage", "icon",
   "iconImage", "title_image", "titleimage"]

/-- The prefix matched by `REL_DAM_RE` (`^/content/dam/teladoc-headless/image/`). -/
def REL_DAM_PREFIX : String := "/content/dam/teladoc-headless/image/"

/-- `DEFAULT_DAM_BASE`. -/
def DEFAULT_DAM_BASE : String :=
  "https://publish-p151554-e1560130.adobeaemcloud.com"

-- --- String helpers mirroring the Python operations ---
-- (implemented over `List Char` so that every definition reduces in the
-- kernel; the semantics are those of the corresponding `str` methods)

/-- Is the first list a prefix of the second? -/
def isPrefixL : List Char → List Char → Bool
  | [], _ => true
  | _ :: _, [] => false
  | a :: as, b :: bs => a == b && isPrefixL as bs

/-- Python `needle in hay` (substring containment). -/
def containsSubL (needle : List Char) : List Char → Bool
  | [] => isPrefixL needle []
  | c :: cs => isPrefixL needle (c :: cs) || containsSubL needle cs

/-- Python `needle in hay` on strings. -/
def strContainsSub (hay needle : String) : Bool :=
  containsSubL needle.data hay.data

/-- Python `s.startswith(pre)`. -/
def startsWithS (s pre : String) : Bool := isPrefixL pre.data s.data

/-- The splitting scan of `str.split(sep)` for a non-empty separator
(`fuel` bounds the recursion; it is called with more fuel than characters,
so the fuel branch is never reached). -/
def splitGo (sep : List Char) : Nat → List Char → List Char → List (List Char)
  | _, acc, [] => [acc.reverse]
  | 0, acc, rest => [acc.reverse ++ rest]
  | fuel + 1, acc, c :: cs =>
    if isPrefixL sep (c :: cs) then
      acc.reverse :: splitGo sep fuel [] ((c :: cs).drop sep.length)
    else splitGo sep fuel (c :: acc) cs

/-- Python `s.split(sep)` (the script never splits on an empty separator;
mirroring `String.splitOn`, that case returns `[s]`). -/
def splitOnS (s sep : String) : List String :=
  match sep.data with
  | [] => [s]
  | l => (splitGo l (s.data.length + 1) [] s.data).map String.mk

/-- Drop matching characters from the right end. -/
def dropWhileEnd (p : Char → Bool) (cs : List Char) : List Char :=
  (cs.reverse.dropWhile p).reverse

/-- Python `s.rstrip('/')`. -/
def rstripSlash (s : String) : String :=
  String.mk (dropWhileEnd (· == '/') s.data)

/-- Python `s.strip('/')`. -/
def stripSlash (s : String) : String :=
  String.mk (dropWhileEnd (· == '/') (s.data.dropWhile (· == '/')))

/-- Python `s.lower()` (ASCII; the script's inputs are ASCII keys/urls). -/
def toLowerS (s : String) : String := String.mk (s.data.map Char.toLower)

/-- Python `s.upper()`. -/
def toUpperS (s : String) : String := String.mk (s.data.map Char.toUpper)

/-- Python `s.strip()` (whitespace). -/
def trimS (s : String) : String :=
  String.mk (dropWhileEnd Char.isWhitespace (s.data.dropWhile Char.isWhitespace))

/-- The script's `_basename`: `(p or '').rstrip('/').split('/')[-1]`. -/
def pyBasename (p : String) : String :=
  (splitOnS (rstripSlash p) "/").getLastD ""

/-- `os.path.basename(url or '')`: everything after the last `/`. -/
def osBasename (url : String) : String := (splitOnS url "/").getLastD ""

/-- Python `str.capitalize()`: first character upper-cased, rest lower-cased. -/
def pyCapitalize (s : String) : String :=
  match s.data with
  | [] => ""
  | c :: rest => String.mk (c.toUpper :: (rest.map Char.toLower))

/-- Value of a digit string (`none` on any non-digit). -/
def digitsVal (acc : Nat) : List Char → Option Nat
  | [] => some acc
  | c :: cs => if c.isDigit then digitsVal (acc * 10 + (c.toNat - 48)) cs else none

/-- `int(...)` on a digit run (at least one digit required). -/
def strToNatL : List Char → Option Nat
  | [] => none
  | cs => digitsVal 0 cs

/-- `int(str(v).strip())` on a string: optional sign followed by digits
(Python's underscore-digit grouping is not modelled; no input uses it). -/
def parseIntStr (s : String) : Option Int :=
  match (trimS s).data with
  | '-' :: rest => (strToNatL rest).map (fun n => -(n : Int))
  | '+' :: rest => (strToNatL rest).map (fun n => (n : Int))
  | cs => (strToNatL cs).map (fun n => (n : Int))

/-- `_to_int`: `None` stays `None`; otherwise parse `str(v).strip()`. -/
def _to_int : Option JVal → Option Int
  | none => none
  | some v => parseIntStr (pyStr v)

-- --- URL helpers ---

/-- `str.join` / `String.intercalate`. -/
def intercalateS (sep : String) : List String → String
  | [] => ""
  | [x] => x
  | x :: xs => x ++ sep ++ intercalateS sep xs

/-- `f"{urlparse(url).scheme}://{urlparse(url).netloc}"` for the URLs probed
by `_pick_base_url` (strings starting with `"http"`): scheme is the part
before the first `"://"` and netloc runs to the next `/`.  A URL without
`"://"` yields an empty netloc, and an empty scheme unless the part before
the first `:` is purely alphanumeric. -/
def urlSchemeNetloc (url : String) : String :=
  match splitOnS url "://" with
  | [u] =>
      let sch := (splitOnS u ":").headD u
      if u.data.contains ':' ∧ sch ≠ "" ∧ sch.data.all Char.isAlphanum
      then sch ++ "://" else "://"
  | scheme :: rest =>
      scheme ++ "://" ++ ((splitOnS (intercalateS "://" rest) "/").headD "")
  | [] => "://"

/-- One record's contribution to `_pick_base_url`: probe `IMAGE_URL_KEYS`
in order, then each entry of an `images` list, for a string starting with
`"http"`. -/
def pickBaseFromItem (it : Item) : Option String :=
  let fromKeys := IMAGE_URL_KEYS.foldl
    (fun acc k =>
      match acc with
      | some b => some b
      | none =>
        match lookupA it.data k with
        | some (.str u) => if startsWithS u "http" then some (urlSchemeNetloc u) else none
        | _ => none)
    none
  match fromKeys with
  | some b => some b
  | none =>
    match lookupA it.data "images" with
    | some (.list xs) =>
      xs.foldl
        (fun acc v =>
          match acc with
          | some b => some b
          | none =>
            match v with
            | .str u => if startsWithS u "http" then some (urlSchemeNetloc u) else none
            | _ => none)
        none
    | _ => none

/-- `_pick_base_url`: first absolute image URL found anywhere in the input. -/
def _pick_base_url : List Item → Option String
  | [] => none
  | it :: rest =>
    match pickBaseFromItem it with
    | some b => some b
    | none => _pick_base_url rest

/-- `_normalize_url`. -/
def _normalize_url (url : String) (base : Option String) : String :=
  if url = "" then url
  else if startsWithS url "http://" ∨ startsWithS url "https://" then url
  else if startsWithS url "/" ∧ startsWithS url REL_DAM_PREFIX then
    rstripSlash (base.getD DEFAULT_DAM_BASE) ++ url
  else url

/-- `derive_asset_id`: basename of the URL, up to the first dot. -/
def derive_asset_id (url : String) : Option String :=
  let b := osBasename url
  if b = "" then none else some ((splitOnS b ".").headD b)

/-- `derive_asset_ext`: part of the basename after the last dot, cut at `?`,
lower-cased and stripped; `''` when the basename has no dot. -/
def derive_asset_ext (url : String) : String :=
  let b := osBasename url
  if b.data.contains '.' then
    let afterDot := (splitOnS b ".").getLastD ""
    trimS (toLowerS ((splitOnS afterDot "?").headD afterDot))
  else ""

/-- `_extract_image_url`: a non-empty string, or the first non-empty string
among the keys `src`, `url`, `fileReference`, `fileRef`, `path`, `href` of
an object. -/
def _extract_image_url : JVal → Option String
  | .str s => if s ≠ "" then some s else none
  | .obj fs =>
    ["src", "url", "fileReference", "fileRef", "path", "href"].foldl
      (fun acc k =>
        match acc with
        | some v => some v
        | none =>
          match lookupA fs k with
          | some (.str v) => if v ≠ "" then some v else none
          | _ => none)
      none
  | _ => none

-- --- Classifier ---

/-- The scanning loop of `infer_type_label`. -/
def inferGo : List String → Option Nat → Option Nat × Option Nat
  | [], ctype => (ctype, none)
  | seg :: rest, ctype =>
    match LABEL_MAP seg with
    | some l => (some typePage, some l)
    | none =>
      match PATH_TOKEN_TO_TYPE_ID seg with
      | some t => inferGo rest (some t)
      | none => inferGo rest ctype

/-- `infer_type_label`. -/
def infer_type_label (path : String) : Option Nat × Option Nat :=
  if path = "" then (none, none)
  else inferGo (splitOnS (stripSlash path) "/") none

-- --- Row types (dates omitted: run-constant) ---

/-- A row of the `content` table. -/
structure ContentRow where
  cms_id : String
  content_version : Nat
  content_type_id : Option Nat
  content_label_id : Option Nat
deriving DecidableEq, Repr

/-- A row of the `content_to_text` table. -/
structure CttRow where
  content_cms_id : String
  locale_id : Nat
  text_index : Nat
  text_type_id : Nat
  text_value : TVal
deriving DecidableEq, Repr

/-- A row of the `content_to_content` table. -/
structure CtcRow where
  parent_cms_id : String
  child_cms_id : String
  child_content_label_id : Option Nat
  child_index : Nat
deriving DecidableEq, Repr

/-- A row of the `content_to_attribute` table. -/
structure CtaRow where
  content_cms_id : String
  attribute_id : Nat
deriving DecidableEq, Repr

/-- The post-processed result of `fetch_asset_metadata`. -/
structure AssetMeta where
  title : String
  width : Int
  height : Int
  mime : String
deriving DecidableEq, Repr

/-- Python `set.add` / first-insertion into an insertion-ordered set. -/
def setAdd {α : Type} [DecidableEq α] (s : List α) (x : α) : List α :=
  if x ∈ s then s else s ++ [x]

-- --- Inclusion pass (`items_index`, `type_cache`, `include_mask`) ---

/-- The read-only lookup structures built by the first loop of `transform`. -/
structure InclCtx where
  items_index : List (String × Item)
  type_cache : List (Option String × (Option Nat × Option Nat))
  include_mask : List (Option String × Bool)

/-- One iteration of the inclusion loop.  `include_mask[name]` is
`ctype is not None`, then forced `True` when the type is Page (redundant,
mirrored literally). -/
def inclStep (c : InclCtx) (it : Item) : InclCtx :=
  let c := if itemNameOk it then
      { c with items_index := dictSet c.items_index (it.name.getD "") it }
    else c
  let tl := infer_type_label it.path
  let inc0 := tl.1.isSome
  let inc := if tl.1 = some typePage then true else inc0
  { c with type_cache := dictSetO c.type_cache it.name tl,
           include_mask := dictSetO c.include_mask it.name inc }

/-- The inclusion loop over all items. -/
def inclPass (items : List Item) : InclCtx :=
  items.foldl inclStep ⟨[], [], []⟩

/-- `type_cache.get(name, (None, None))`. -/
def typeOf (c : InclCtx) (n : Option String) : Option Nat × Option Nat :=
  (lookupO c.type_cache n).getD (none, none)

/-- `include_mask.get(name, False)`. -/
def maskOf (c : InclCtx) (n : Option String) : Bool :=
  (lookupO c.include_mask n).getD false

-- --- Transform state ---

/-- The mutable collections of `transform`.  The last three fields are ghost
traces for specification only (roles and URLs passed to `_record_asset`, and
the asset ids for which a metadata fetch was issued); no table depends on
them. -/
structure TState where
  content : List ContentRow
  ctt : List CttRow
  ctc : List CtcRow
  cta : List CtaRow
  curricula : List (String × Item)
  units : List (String × Item)
  lessons : List (String × Item)
  terms : List (String × Item)
  pages : List (String × Item)
  known_ids : List String
  url_row_written : List String
  asset_ext_hint : List (String × String)
  asset_url_map : List (String × String)
  asset_meta_cache : List (String × Option AssetMeta)
  roleTrace : List (String × Option Nat)
  urlTrace : List (String × JVal)
  fetchTrace : List String

/-- The empty initial state. -/
def initState : TState :=
  ⟨[], [], [], [], [], [], [], [], [], [], [], [], [], [], [], [], []⟩

-- --- Content rows & type buckets ---

/-- One iteration of the `content rows` loop: register an included record
and bucket it by resolved type. -/
def contentStep (c : InclCtx) (st : TState) (it : Item) : TState :=
  if itemNameOk it && maskOf c it.name then
    let name := it.name.getD ""
    let tl := typeOf c it.name
    let st := { st with content := st.content ++ [⟨name, 1, tl.1, tl.2⟩],
                        known_ids := setAdd st.known_ids name }
    if tl.1 = some typeCurriculum then
      { st with curricula := dictSet st.curricula name it }
    else if tl.1 = some typeUnit then { st with units := dictSet st.units name it }
    else if tl.1 = some typeLesson then { st with lessons := dictSet st.lessons name it }
    else if tl.1 = some typeTerm then { st with terms := dictSet st.terms name it }
    else if tl.1 = some typePage then { st with pages := dictSet st.pages name it }
    else st
  else st

-- --- Text rows ---

/-- `data[k] not in (None, '')`. -/
def notNoneOrEmpty : JVal → Bool
  | .null => false
  | .str s => s != ""
  | _ => true

/-- One iteration of the `text fields → ctt` loop. -/
def textStep (c : InclCtx) (st : TState) (it : Item) : TState :=
  if itemNameOk it && maskOf c it.name then
    let name := it.name.getD ""
    let st := TEXT_FIELDS.foldl
      (fun st kv =>
        match lookupA it.data kv.1 with
        | some v =>
          if notNoneOrEmpty v then
            { st with ctt := st.ctt ++ [⟨name, 1, 0, kv.2, .s (pyStr v)⟩] }
          else st
        | none => st) st
    SPECIAL_TO_TEXT.foldl
      (fun st kv =>
        match lookupA it.data kv.1 with
        | some v =>
          if pyTruthy v then
            { st with ctt := st.ctt ++ [⟨name, 1, 0, kv.2, .s (pyStr v)⟩] }
          else st
        | none => st) st
  else st

/-- The `answer_text_index` map built from the accumulated text rows (rows
with `text_type_id == 26`, keyed by id, last occurrence winning). -/
def answerTextIndex (ctt : List CttRow) : List (String × String) :=
  ctt.foldl
    (fun m row =>
      if row.text_type_id = 26 ∧ row.content_cms_id ≠ "" then
        dictSet m row.content_cms_id row.text_value.toStr
      else m) []

-- --- Attribute rows ---

/-- The `categories` block of the attribute loop. -/
def ctaCatBlock (name : String) (data : List (String × JVal)) (st : TState) :
    TState :=
  match lookupA data "categories" with
  | some (.list cats) =>
    cats.foldl
      (fun st cv =>
        match (ATTR_ID_MAP (pyStr cv)).orElse
            (fun _ => ATTR_ID_MAP (toUpperS (pyStr cv))) with
        | some aid => { st with cta := st.cta ++ [⟨name, aid⟩] }
        | none => st) st
  | _ => st

/-- The `cadence` block of the attribute loop. -/
def ctaCadBlock (name : String) (data : List (String × JVal)) (st : TState) :
    TState :=
  match lookupA data "cadence" with
  | some cad =>
    if pyTruthy cad then
      match (ATTR_ID_MAP (pyStr cad)).orElse
          (fun _ => ATTR_ID_MAP (pyCapitalize (pyStr cad))) with
      | some aid => { st with cta := st.cta ++ [⟨name, aid⟩] }
      | none => st
    else st
  | none => st

/-- The `tags` block of the attribute loop. -/
def ctaTagBlock (name : String) (data : List (String × JVal)) (st : TState) :
    TState :=
  match lookupA data "tags" with
  | some (.list tags) =>
    tags.foldl
      (fun st tv =>
        match TAG_TO_ATTR (toLowerS (pyStr tv)) with
        | some aid => { st with cta := st.cta ++ [⟨name, aid⟩] }
        | none => st) st
  | _ => st

/-- One iteration of the `attributes → cta` loop: the three blocks run in
source order. -/
def ctaStep (c : InclCtx) (st : TState) (it : Item) : TState :=
  if itemNameOk it && maskOf c it.name then
    let name := it.name.getD ""
    ctaTagBlock name it.data (ctaCadBlock name it.data (ctaCatBlock name it.data st))
  else st

-- --- Relationship passes ---

/-- `ref.get('path', '') if isinstance(ref, dict) else ''` (a non-string
`path` value crashes the script and is outside the modelled contract). -/
def refPathOf : JVal → String
  | .obj fs =>
    (match lookupA fs "path" with
     | some (.str s) => s
     | _ => "")
  | _ => ""

/-- One iteration of the `Curriculum → Unit` loop: explicit ordered `units`
reference list when present and non-empty, else path-marker fallback over the
unit bucket with a dense per-curriculum counter. -/
def currUnitStep (st : TState) (kv : String × Item) : TState :=
  let cid := kv.1
  let explicit : Option (List JVal) :=
    match lookupA kv.2.data "units" with
    | some (.list arr) => if !arr.isEmpty then some arr else none
    | _ => none
  match explicit with
  | some arr =>
    arr.enum.foldl
      (fun st p =>
        let rpath := refPathOf p.2
        if rpath ≠ "" then
          let child := pyBasename rpath
          if child ≠ "" ∧ child ∈ st.known_ids then
            { st with ctc := st.ctc ++ [⟨cid, child, none, p.1⟩] }
          else st
        else st) st
  | none =>
    let marker := "/curriculum/" ++ cid ++ "/"
    (st.units.foldl
      (fun acc ukv =>
        if strContainsSub ukv.2.path marker ∧ ukv.1 ∈ acc.1.known_ids then
          ({ acc.1 with ctc := acc.1.ctc ++ [⟨cid, ukv.1, none, acc.2⟩] },
           acc.2 + 1)
        else acc) (st, 0)).1

/-- One iteration of the `Unit → Lesson (explicit)` loop. -/
def unitLessonStep (c : InclCtx) (st : TState) (it : Item) : TState :=
  if itemNameOk it && maskOf c it.name then
    let pname := it.name.getD ""
    match lookupA it.data "lessons" with
    | some (.list refs) =>
      refs.enum.foldl
        (fun st p =>
          let rpath := refPathOf p.2
          if rpath ≠ "" then
            let child := pyBasename rpath
            if child ≠ "" ∧ child ∈ st.known_ids then
              { st with ctc := st.ctc ++ [⟨pname, child, none, p.1⟩] }
            else st
          else st) st
    | _ => st
  else st

/-- First `LABEL_MAP` hit among the segments of a reference path. -/
def findFirstLabel : List String → Option Nat
  | [] => none
  | seg :: rest =>
    match LABEL_MAP seg with
    | some l => some l
    | none => findFirstLabel rest

/-- One iteration of the `Lesson → Page` loop (the dead `lesson_to_pages`
scratch map is not modelled: nothing reads it). -/
def lessonPageStep (c : InclCtx) (st : TState) (it : Item) : TState :=
  if itemNameOk it && maskOf c it.name then
    let pname := it.name.getD ""
    match lookupA it.data "pages" with
    | some (.list refs) =>
      refs.enum.foldl
        (fun st p =>
          let rpath := refPathOf p.2
          let child := if rpath ≠ "" then pyBasename rpath else ""
          if child ≠ "" ∧ child ∈ st.known_ids then
            { st with ctc := st.ctc ++
                [⟨pname, child, findFirstLabel (splitOnS (stripSlash rpath) "/"), p.1⟩] }
          else st) st
    | _ => st
  else st

/-- `refs = tdata.get('contentReference') or tdata.get('contentReferences')`,
normalized to a list (`None` = skip this term). -/
def termRefsOf (tdata : List (String × JVal)) : Option (List JVal) :=
  let refs := match lookupA tdata "contentReference" with
    | some v => if pyTruthy v then some v else lookupA tdata "contentReferences"
    | none => lookupA tdata "contentReferences"
  match refs with
  | none => none
  | some v =>
    if pyTruthy v then
      match v with
      | .obj _ => some [v]
      | .str _ => some [v]
      | .list xs => some xs
      | _ => none
    else none

/-- A term reference's path: object `path` field, bare string, else `''`. -/
def termRefPath : JVal → String
  | .obj fs =>
    (match lookupA fs "path" with
     | some (.str s) => s
     | _ => "")
  | .str s => s
  | _ => ""

/-- One iteration of the `Term.contentReference[] → (ImagePage → Term)` loop.
The accumulator carries the `per_page_term_index` counters. -/
def termStep (c : InclCtx) (acc : TState × List (String × Nat))
    (kv : String × Item) : TState × List (String × Nat) :=
  match termRefsOf kv.2.data with
  | none => acc
  | some refs =>
    refs.foldl
      (fun acc ref =>
        let rpath := termRefPath ref
        let parent_page_id := if rpath ≠ "" then pyBasename rpath else ""
        if parent_page_id ≠ "" ∧ (lookupA acc.1.pages parent_page_id).isSome then
          if (typeOf c (some parent_page_id)).2 = some 305 then
            let idx := (lookupA acc.2 parent_page_id).getD 0
            ({ acc.1 with ctc := acc.1.ctc ++ [⟨parent_page_id, kv.1, none, idx⟩] },
             dictSet acc.2 parent_page_id (idx + 1))
          else acc
        else acc) acc

-- --- Asset recording (`_record_asset`) ---

/-- The per-parent scratch of the asset scans: `encounter_order` and
`roles_per_asset` (role sets kept in insertion order). -/
structure PerParent where
  order : List String
  roles : List (String × List (Option Nat))

/-- `_normalize_url` applied to a possibly non-string URL value: the Python
function returns a non-string argument unchanged (its `isinstance` guard). -/
def normalizeJ (url : JVal) (base : Option String) : JVal :=
  match url with
  | .str s => .str (_normalize_url s base)
  | v => v

/-- The `content_label_id` upgrade of `_record_asset` on one row: upgrade
when the current label is unset or the new role has strictly higher
priority, and only to a non-`None` role. -/
def upgradeRow (role : Option Nat) (row : ContentRow) : ContentRow :=
  if row.content_label_id = none ∨
      ROLE_PRIORITY role > ROLE_PRIORITY row.content_label_id then
    (if role ≠ none then { row with content_label_id := role } else row)
  else row

/-- The label upgrade of `_record_asset` applied to the first matching row
of a reversed content list (`content_index[aid]` aliases the most recently
registered row with that id, hence "last occurrence" in table order). -/
def upgradeFirstLabel : List ContentRow → String → Option Nat → List ContentRow
  | [], _, _ => []
  | row :: rest, aid, role =>
    if row.cms_id = aid then upgradeRow role row :: rest
    else row :: upgradeFirstLabel rest aid role

/-- Apply the label upgrade to the last row of `content` carrying `aid`. -/
def content_index_update (content : List ContentRow) (aid : String)
    (role : Option Nat) : List ContentRow :=
  (upgradeFirstLabel content.reverse aid role).reverse

/-- Insert a role into a role set (Python `set.add`). -/
def roleAdd (rs : List (Option Nat)) (r : Option Nat) : List (Option Nat) :=
  if r ∈ rs then rs else rs ++ [r]

/-- Stage 1 of `_record_asset`: register the asset on first sight. -/
def recordRegister (aid : String) (st : TState) : TState :=
  if aid ∈ st.known_ids then st
  else { st with content := st.content ++ [⟨aid, 1, some typeAsset, none⟩],
                 known_ids := setAdd st.known_ids aid }

/-- Stage 2 of `_record_asset`: write the single URL text row. -/
def recordUrlRow (aid normStr : String) (st : TState) : TState :=
  if aid ∈ st.url_row_written then st
  else { st with ctt := st.ctt ++ [⟨aid, 1, 0, 18, .s normStr⟩],
                 url_row_written := setAdd st.url_row_written aid }

/-- Stage 3 of `_record_asset`: remember the normalized URL (last wins) and
ghost-trace the raw URL. -/
def recordUrlMap (aid : String) (normStr : String) (url : JVal) (st : TState) :
    TState :=
  { st with asset_url_map := dictSet st.asset_url_map aid normStr,
            urlTrace := st.urlTrace ++ [(aid, url)] }

/-- Stage 4 of `_record_asset`: remember the extension hint (first wins). -/
def recordExtHint (aid ext : String) (st : TState) : TState :=
  if ext ≠ "" ∧ (lookupA st.asset_ext_hint aid).isNone then
    { st with asset_ext_hint := dictSet st.asset_ext_hint aid ext }
  else st

/-- Stage 5 of `_record_asset`: encounter order and per-parent role set. -/
def recordRoles (aid : String) (role : Option Nat) (pp : PerParent) :
    PerParent :=
  { order := pp.order ++ [aid],
    roles :=
      if (lookupA pp.roles aid).isSome then
        pp.roles.map (fun p => if p.1 = aid then (aid, roleAdd p.2 role) else p)
      else pp.roles ++ [(aid, [role])] }

/-- Stage 6 of `_record_asset`: upgrade the asset's `content_label_id` when
the new role has strictly higher priority, ghost-tracing the (id, role)
event. -/
def recordLabel (aid : String) (role : Option Nat) (st : TState) : TState :=
  { st with content := content_index_update st.content aid role,
            roleTrace := st.roleTrace ++ [(aid, role)] }

/-- `_record_asset`: register the asset on first sight, write its single URL
text row, remember normalized URL / extension hint, accumulate
(encounter order, role set) for the current parent, and upgrade the asset's
`content_label_id` when the new role has strictly higher priority (ghost
traces record the (id, role) and (id, url) events). -/
def _record_asset (base_url : String) (st : TState) (pp : PerParent)
    (aid : String) (url : JVal) (role : Option Nat) : TState × PerParent :=
  let st := recordRegister aid st
  let norm := normalizeJ url (some base_url)
  let st := recordUrlRow aid (pyStr norm) st
  let st := recordUrlMap aid (pyStr norm) url st
  let st := recordExtHint aid (derive_asset_ext (pyStr url)) st
  let pp := recordRoles aid role pp
  let st := recordLabel aid role st
  (st, pp)

/-- The generic single `image` field of a parent scan (role 404). -/
def scanGenericImage (base_url : String) (pdata : List (String × JVal))
    (stpp : TState × PerParent) : TState × PerParent :=
  match lookupA pdata "image" with
  | some v =>
    match _extract_image_url v with
    | some gen_url =>
      (match derive_asset_id gen_url with
       | some aid =>
         if aid ≠ "" then
           _record_asset base_url stpp.1 stpp.2 aid (.str gen_url) (some 404)
         else stpp
       | none => stpp)
    | none => stpp
  | none => stpp

/-- The named single-image keys of a parent scan. -/
def scanImageKeys (base_url : String) (pdata : List (String × JVal))
    (stpp : TState × PerParent) : TState × PerParent :=
  IMAGE_URL_KEYS.foldl
    (fun stpp key =>
      match lookupA pdata key with
      | some v =>
        match _extract_image_url v with
        | some url =>
          (match derive_asset_id url with
           | some aid =>
             if aid ≠ "" then
               _record_asset base_url stpp.1 stpp.2 aid (.str url)
                 (IMAGE_ROLE_LABEL key)
             else stpp
           | none => stpp)
        | none => stpp
      | none => stpp) stpp

/-- The `images` list of a parent scan (role 404 per truthy entry; entries
are passed raw, `str()` only for id/extension derivation, as in the source). -/
def scanImagesList (base_url : String) (pdata : List (String × JVal))
    (stpp : TState × PerParent) : TState × PerParent :=
  match lookupA pdata "images" with
  | some (.list imgs) =>
    imgs.foldl
      (fun stpp v =>
        if pyTruthy v then
          match derive_asset_id (pyStr v) with
          | some aid =>
            if aid ≠ "" then _record_asset base_url stpp.1 stpp.2 aid v (some 404)
            else stpp
          | none => stpp
        else stpp) stpp
  | _ => stpp

/-- Scan one parent's `data` for the three asset-bearing shapes, in source
order. -/
def scanParentImages (base_url : String) (pdata : List (String × JVal))
    (stpp : TState × PerParent) : TState × PerParent :=
  scanImagesList base_url pdata
    (scanImageKeys base_url pdata (scanGenericImage base_url pdata stpp))

/-- Stable insertion of a role into a priority-descending list
(`sorted(..., key=priority, reverse=True)`). -/
def sortRolesInsert (r : Option Nat) : List (Option Nat) → List (Option Nat)
  | [] => [r]
  | x :: xs =>
    if ROLE_PRIORITY r ≥ ROLE_PRIORITY x then r :: x :: xs
    else x :: sortRolesInsert r xs

/-- `sorted(list(roles), key=lambda r: ROLE_PRIORITY.get(r, 0), reverse=True)`
(the recorded roles have pairwise-distinct priorities, so the result does not
depend on the set's iteration order). -/
def sortRolesDesc (rs : List (Option Nat)) : List (Option Nat) :=
  rs.foldr sortRolesInsert []

/-- Edge emission after a parent scan: one edge per (occurrence of the asset
in encounter order) × (distinct role, priority-descending); `child_index` is
`len(ctc)` at the moment of the append.  `defaultRoles` is `{None}` for the
non-Page pass and the empty set for the Page pass. -/
def emitAssetEdges (pid : String) (defaultRoles : List (Option Nat))
    (pp : PerParent) (st : TState) : TState :=
  pp.order.foldl
    (fun st aid =>
      (sortRolesDesc ((lookupA pp.roles aid).getD defaultRoles)).foldl
        (fun st role =>
          { st with ctc := st.ctc ++ [⟨pid, aid, role, st.ctc.length⟩] }) st) st

/-- One iteration of the non-Page `Entity → Asset` loop. -/
def nonPageAssetStep (c : InclCtx) (base_url : String) (st : TState)
    (it : Item) : TState :=
  if itemNameOk it && maskOf c it.name then
    let ctype := (typeOf c it.name).1
    if ctype = some typePage ∨ ctype = none then st
    else
      let stpp := scanParentImages base_url it.data (st, ⟨[], []⟩)
      emitAssetEdges (it.name.getD "") [none] stpp.2 stpp.1
  else st

/-- One iteration of the `Page → Asset` loop (the dead `page_to_assets`
listing is not modelled: nothing reads it). -/
def pageAssetStep (c : InclCtx) (base_url : String) (st : TState)
    (kv : String × Item) : TState :=
  if maskOf c (some kv.1) then
    let stpp := scanParentImages base_url kv.2.data (st, ⟨[], []⟩)
    emitAssetEdges kv.1 [] stpp.2 stpp.1
  else st

-- --- Question Page → Answer ---

/-- `_extract_answer_id`: basename of a reference path (bare string or
object `path` field). -/
def _extract_answer_id (ref : JVal) : String :=
  let ref_path := match ref with
    | .str s => s
    | .obj fs =>
      (match lookupA fs "path" with
       | some (.str s) => s
       | _ => "")
    | _ => ""
  if ref_path ≠ "" then pyBasename ref_path else ""

/-- `_ensure_answer_content`: auto-register an Answer entity if unknown. -/
def _ensure_answer_content (st : TState) (answer_id : String) : TState :=
  if answer_id ≠ "" ∧ answer_id ∉ st.known_ids then
    { st with content := st.content ++ [⟨answer_id, 1, some typeAnswer, none⟩],
              known_ids := setAdd st.known_ids answer_id }
  else st

/-- The answer text used for the question's extra text row: preferentially
`items_index[answer_id].data['answerText']`, falling back to the
`answer_text_index` entry. -/
def answerTextFor (itemsIndex : List (String × Item))
    (ansIdx : List (String × String)) (answer_id : String) : String :=
  let fromItem := match lookupA itemsIndex answer_id with
    | some ait =>
      (match lookupA ait.data "answerText" with
       | some v => if pyTruthy v then pyStr v else ""
       | none => "")
    | none => ""
  if fromItem ≠ "" then fromItem else (lookupA ansIdx answer_id).getD ""

/-- One iteration of the `Question Page → Answer` loop: potential answers
(label 501) then correct answers (label 502 plus a text row with
`text_type_id = 26` on the question itself), dense per-list counters. -/
def answersPotBlock (qid : String) (data : List (String × JVal))
    (st : TState) : TState :=
  match lookupA data "potentialAnswers" with
  | some (.list pot) =>
    if !pot.isEmpty then
      (pot.foldl
        (fun acc ref =>
          let answer_id := _extract_answer_id ref
          if answer_id = "" then acc
          else
            let st := _ensure_answer_content acc.1 answer_id
            ({ st with ctc := st.ctc ++ [⟨qid, answer_id, some 501, acc.2⟩] },
             acc.2 + 1)) (st, 0)).1
    else st
  | _ => st

def answersCorrBlock (qid : String) (data : List (String × JVal))
    (itemsIndex : List (String × Item)) (ansIdx : List (String × String))
    (st : TState) : TState :=
  match lookupA data "correctAnswers" with
  | some (.list corr) =>
    if !corr.isEmpty then
      (corr.foldl
        (fun acc ref =>
          let answer_id := _extract_answer_id ref
          if answer_id = "" then acc
          else
            let st := _ensure_answer_content acc.1 answer_id
            let st := { st with ctc := st.ctc ++ [⟨qid, answer_id, some 502, acc.2⟩] }
            let ans_text := answerTextFor itemsIndex ansIdx answer_id
            let st :=
              if ans_text ≠ "" then
                { st with ctt := st.ctt ++ [⟨qid, 1, acc.2, 26, .s ans_text⟩] }
              else st
            (st, acc.2 + 1)) (st, 0)).1
    else st
  | _ => st

def answersStep (c : InclCtx) (itemsIndex : List (String × Item))
    (ansIdx : List (String × String)) (st : TState) (it : Item) : TState :=
  if itemNameOk it && maskOf c it.name then
    let qid := it.name.getD ""
    let tl := typeOf c it.name
    if tl.1 = some typePage ∧ tl.2 = some 310 then
      answersCorrBlock qid it.data itemsIndex ansIdx
        (answersPotBlock qid it.data st)
    else st
  else st

-- --- Asset metadata enrichment ---

/-- `_dig` along string keys (the script only digs with string keys). -/
def digJ : JVal → List String → Option JVal
  | j, [] => some j
  | .obj fs, k :: rest =>
    (match lookupA fs k with
     | some v => digJ v rest
     | none => none)
  | _, _ :: _ => none

/-- `fetch_asset_metadata`, with the HTTP GET + JSON parse of the metadata
resource modelled by `oracle : String → Option JVal` (request URL ↦ parsed
body; `none` = any exception in the `try` block). -/
def fetch_asset_metadata (oracle : String → Option JVal) (asset_id : String)
    (base : Option String) (ext_hint : Option String) : Option AssetMeta :=
  match ext_hint with
  | none => none
  | some eh =>
    if asset_id = "" ∨ eh = "" then none
    else
      let hb := rstripSlash (base.getD DEFAULT_DAM_BASE)
      let ext := trimS (toLowerS eh)
      let url := hb ++ "/content/dam/teladoc-headless/image/" ++ asset_id ++
        "." ++ ext ++ ".-1.json"
      match oracle url with
      | none => none
      | some meta =>
        let titleRaw := digJ meta ["jcr:content", "metadata", "dc:title"]
        let title : String :=
          match titleRaw with
          | some (.list []) => asset_id
          | some (.list (x :: _)) =>
            (match x with
             | .null => asset_id
             | v => pyStr v)
          | some .null => asset_id
          | some (.str "") => asset_id
          | some v => pyStr v
          | none => asset_id
        let mime := digJ meta ["jcr:content", "metadata", "dc:format"]
        let width := _to_int (digJ meta ["jcr:content", "metadata", "tiff:ImageWidth"])
        let height := _to_int (digJ meta ["jcr:content", "metadata", "tiff:ImageLength"])
        some { title := title,
               width := width.getD 0,
               height := height.getD 0,
               mime :=
                 match mime with
                 | some v => if pyTruthy v then pyStr v else "image/jpeg"
                 | none => "image/jpeg" }

/-- The set of `text_type_id`s already present for an id among the text rows. -/
def existingTypesFor (aid : String) (ctt : List CttRow) : List Nat :=
  ctt.foldl
    (fun acc row =>
      if row.content_cms_id = aid then setAdd acc row.text_type_id else acc) []

/-- The fetch stage of the enricher: namespace check on the (last) recorded
URL, extension hint with fallback derivation, memoized fetch (ghost-traced
in `fetchTrace`). -/
def enrichFetch (oracle : String → Option JVal) (base_url : Option String)
    (aid : String) (st : TState) : TState × Option AssetMeta :=
  let url := (lookupA st.asset_url_map aid).getD ""
  let should_fetch := strContainsSub url "/content/dam/teladoc-headless/image/"
  let ext := match lookupA st.asset_ext_hint aid with
    | some e => if e ≠ "" then e else derive_asset_ext url
    | none => derive_asset_ext url
  if should_fetch ∧ ext ≠ "" then
    if (lookupA st.asset_meta_cache aid).isNone then
      let m := fetch_asset_metadata oracle aid base_url (some ext)
      ({ st with asset_meta_cache := dictSet st.asset_meta_cache aid m,
                 fetchTrace := st.fetchTrace ++ [aid] }, m)
    else (st, (lookupA st.asset_meta_cache aid).getD none)
  else (st, none)

/-- The append stage of the enricher: the four enrichment rows, fetched or
placeholder values, skipping kinds already present. -/
def enrichAppend (aid : String) (existing : List Nat)
    (meta : Option AssetMeta) (st : TState) : TState :=
  let title := match meta with
    | some m => if m.title ≠ "" then m.title else aid
    | none => aid
  let width : Int := match meta with
    | some m => m.width
    | none => 0
  let height : Int := match meta with
    | some m => m.height
    | none => 0
  let mime := match meta with
    | some m => if m.mime ≠ "" then m.mime else "image/jpeg"
    | none => "image/jpeg"
  let st := if 1 ∉ existing then
      { st with ctt := st.ctt ++ [⟨aid, 1, 0, 1, .s title⟩] } else st
  let st := if 19 ∉ existing then
      { st with ctt := st.ctt ++ [⟨aid, 1, 0, 19, .i width⟩] } else st
  let st := if 20 ∉ existing then
      { st with ctt := st.ctt ++ [⟨aid, 1, 0, 20, .i height⟩] } else st
  if 21 ∉ existing then
    { st with ctt := st.ctt ++ [⟨aid, 1, 0, 21, .s mime⟩] } else st

/-- `_enrich_asset_ctt_rows_for`: skip when all four enrichment kinds exist;
fetch at most once per id (memoized in `asset_meta_cache`); always append
the missing kinds with fetched or placeholder values. -/
def _enrich_asset_ctt_rows_for (oracle : String → Option JVal)
    (base_url : Option String) (st : TState) (aid : String) : TState :=
  if aid = "" then st
  else
    let existing := existingTypesFor aid st.ctt
    if 1 ∈ existing ∧ 19 ∈ existing ∧ 20 ∈ existing ∧ 21 ∈ existing then st
    else
      let stm := enrichFetch oracle base_url aid st
      enrichAppend aid existing stm.2 stm.1

/-- `url_assets`: ids with a URL text row (`text_type_id == 18`), as an
insertion-ordered set. -/
def urlAssets (ctt : List CttRow) : List String :=
  ctt.foldl
    (fun acc row =>
      if row.text_type_id = 18 ∧ row.content_cms_id ≠ "" then
        setAdd acc row.content_cms_id
      else acc) []

/-- Lexicographic `≤` by code point (the order `sorted` uses on these
ASCII ids). -/
def lexLe : List Char → List Char → Bool
  | [], _ => true
  | _ :: _, [] => false
  | a :: as, b :: bs => if a < b then true else if b < a then false else lexLe as bs

/-- Insertion into a lexicographically sorted string list. -/
def insertStr (x : String) : List String → List String
  | [] => [x]
  | y :: ys => if lexLe x.data y.data then x :: y :: ys else y :: insertStr x ys

/-- `sorted(...)` on strings. -/
def sortStr (l : List String) : List String := l.foldr insertStr []

/-- The post-pass enrichment loop (`for aid in sorted(url_assets): ...`). -/
def enrichPass (oracle : String → Option JVal) (base_url : Option String)
    (st : TState) : TState :=
  (sortStr (urlAssets st.ctt)).foldl
    (fun st aid => _enrich_asset_ctt_rows_for oracle base_url st aid) st

-- --- De-duplication ---

/-- The de-duplication key:
`(content_cms_id, locale_id, text_type_id, text_index, str(text_value))`. -/
def dedupKey (r : CttRow) : String × Nat × Nat × Nat × String :=
  (r.content_cms_id, r.locale_id, r.text_type_id, r.text_index, r.text_value.toStr)

/-- The de-duplication scan with its `seen` set. -/
def dedupGo (seen : List (String × Nat × Nat × Nat × String)) :
    List CttRow → List CttRow
  | [] => []
  | r :: rest =>
    if dedupKey r ∈ seen then dedupGo seen rest
    else r :: dedupGo (dedupKey r :: seen) rest

/-- The Deduplicator: keep the first occurrence of each key. -/
def dedupCtt (l : List CttRow) : List CttRow := dedupGo [] l

-- --- The transform ---

/-- The resolved asset base URL: an explicit override wins; otherwise the
first absolute image URL's scheme+host, else `DEFAULT_DAM_BASE`. -/
def resolvedBase (items : List Item) (base_url : Option String) : String :=
  match base_url with
  | some b => b
  | none =>
    match _pick_base_url items with
    | some b => if b ≠ "" then b else DEFAULT_DAM_BASE
    | none => DEFAULT_DAM_BASE

/-- The output of `transform`: the four tables. -/
structure Output where
  content : List ContentRow
  content_to_text : List CttRow
  content_to_content : List CtcRow
  content_to_attribute : List CtaRow
deriving DecidableEq, Repr

/-- The state after the `content rows` pass. -/
def stContent (c : InclCtx) (items : List Item) : TState :=
  items.foldl (contentStep c) initState

/-- The state after the `text fields → ctt` pass. -/
def stText (c : InclCtx) (items : List Item) : TState :=
  items.foldl (textStep c) (stContent c items)

/-- The `answer_text_index` snapshot taken right after the text pass. -/
def ansIdxOf (c : InclCtx) (items : List Item) : List (String × String) :=
  answerTextIndex (stText c items).ctt

/-- The state after the `attributes → cta` pass. -/
def stCta (c : InclCtx) (items : List Item) : TState :=
  items.foldl (ctaStep c) (stText c items)

/-- The state after the `Curriculum → Unit` pass. -/
def stCurr (c : InclCtx) (items : List Item) : TState :=
  (stCta c items).curricula.foldl currUnitStep (stCta c items)

/-- The state after the `Unit → Lesson` pass. -/
def stUL (c : InclCtx) (items : List Item) : TState :=
  items.foldl (unitLessonStep c) (stCurr c items)

/-- The state after the `Lesson → Page` pass. -/
def stLP (c : InclCtx) (items : List Item) : TState :=
  items.foldl (lessonPageStep c) (stUL c items)

/-- The state after the `ImagePage → Term` pass. -/
def stTerm (c : InclCtx) (items : List Item) : TState :=
  ((stLP c items).terms.foldl (termStep c) (stLP c items, [])).1

/-- The state after the non-Page `Entity → Asset` pass. -/
def stNPA (c : InclCtx) (base' : String) (items : List Item) : TState :=
  items.foldl (nonPageAssetStep c base') (stTerm c items)

/-- The state after the `Page → Asset` pass. -/
def stPA (c : InclCtx) (base' : String) (items : List Item) : TState :=
  (stNPA c base' items).pages.foldl (pageAssetStep c base')
    (stNPA c base' items)

/-- The state after the `Question Page → Answer` pass. -/
def stAns (c : InclCtx) (base' : String) (items : List Item) : TState :=
  items.foldl (answersStep c c.items_index (ansIdxOf c items))
    (stPA c base' items)

/-- The state after the enrichment pass. -/
def stEnrich (oracle : String → Option JVal) (c : InclCtx) (base' : String)
    (items : List Item) : TState :=
  enrichPass oracle (some base') (stAns c base' items)

/-- `transform`, with all intermediate state exposed.  The passes run in
source order; fold lists (`items` and the type buckets) are captured at pass
entry exactly as Python's `for ... in d.items()` captures an unmutated dict.
The unused `link_lessons_to_assets` flag of the source signature is the
`_lla` parameter. -/
def transformFull (oracle : String → Option JVal) (_lla : Bool)
    (base_url : Option String) (items : List Item) : TState :=
  let base' := resolvedBase items base_url
  let c := inclPass items
  let st := stEnrich oracle c base' items
  { st with ctt := dedupCtt st.ctt }

/-- `transform`: the four output tables. -/
def transform (oracle : String → Option JVal) (lla : Bool)
    (base_url : Option String) (items : List Item) : Output :=
  let st := transformFull oracle lla base_url items
  ⟨st.content, st.ctt, st.ctc, st.cta⟩

-- --- The structural input check of `main` ---

/-- `main`'s extraction of the record list from the parsed input:
`items = src.get('data', [])`, then `isinstance(items, list)` check (a
non-object top level makes `src.get` itself raise). -/
def mainItems (src : JVal) : Except String (List JVal) :=
  match src with
  | .obj fs =>
    (match lookupA fs "data" with
     | none => .ok []
     | some (.list xs) => .ok xs
     | some _ =>
       .error "Input JSON does not contain a top-level 'data' array.")
  | _ => .error "AttributeError"

-- ==================== Generic lemmas ====================

/-- Fold preservation: a property stable under every step is stable under
the fold. -/
theorem foldl_induct {σ α : Type} {P : σ → Prop} (f : σ → α → σ) :
    ∀ (l : List α) (s : σ), P s → (∀ s a, a ∈ l → P s → P (f s a)) →
      P (l.foldl f s) := by
  intro l
  induction l with
  | nil => intro s hs _; simpa using hs
  | cons a rest ih =>
    intro s hs hstep
    simp only [List.foldl_cons]
    exact ih (f s a) (hstep s a (by simp) hs)
      (fun s' b hb hs' => hstep s' b (by simp [hb]) hs')

/-- Fold congruence: two folds agree when their steps agree on the list's
elements. -/
theorem foldl_congr {σ α : Type} (f g : σ → α → σ) :
    ∀ (l : List α) (s : σ), (∀ s a, a ∈ l → f s a = g s a) →
      l.foldl f s = l.foldl g s := by
  intro l
  induction l with
  | nil => intro s _; rfl
  | cons a rest ih =>
    intro s h
    simp only [List.foldl_cons]
    rw [h s a (by simp)]
    exact ih (g s a) (fun s' b hb => h s' b (by simp [hb]))

/-- Folding over a filtered list equals folding over the list when the
dropped elements are no-ops. -/
theorem foldl_filter_id {σ α : Type} (f : σ → α → σ) (p : α → Bool) :
    ∀ (l : List α) (s : σ), (∀ s a, a ∈ l → p a = false → f s a = s) →
      (l.filter p).foldl f s = l.foldl f s := by
  intro l
  induction l with
  | nil => intro s _; rfl
  | cons a rest ih =>
    intro s h
    by_cases hp : p a = true
    · rw [List.filter_cons_of_pos hp]
      simp only [List.foldl_cons]
      exact ih (f s a) (fun s' b hb hbf => h s' b (by simp [hb]) hbf)
    · have hpf : p a = false := by simpa using hp
      rw [List.filter_cons_of_neg (by simp [hpf])]
      simp only [List.foldl_cons, h s a (by simp) hpf]
      exact ih s (fun s' b hb hbf => h s' b (by simp [hb]) hbf)

-- ==================== Deduplicator lemmas ====================

theorem dedupGo_sublist (l : List CttRow) :
    ∀ seen, (dedupGo seen l).Sublist l := by
  induction l with
  | nil => intro seen; simp [dedupGo]
  | cons r rest ih =>
    intro seen
    by_cases h : dedupKey r ∈ seen
    · simp only [dedupGo, if_pos h]
      exact (ih seen).trans (List.sublist_cons_self r rest)
    · simp only [dedupGo, if_neg h]
      exact (ih (dedupKey r :: seen)).cons₂ r

theorem mem_of_mem_dedupGo {l : List CttRow} {seen} {r : CttRow}
    (h : r ∈ dedupGo seen l) : r ∈ l :=
  (dedupGo_sublist l seen).mem h

theorem key_not_seen_of_mem_dedupGo {l : List CttRow} :
    ∀ {seen} {r : CttRow}, r ∈ dedupGo seen l → dedupKey r ∉ seen := by
  induction l with
  | nil => intro seen r h; simp [dedupGo] at h
  | cons x rest ih =>
    intro seen r h
    by_cases hx : dedupKey x ∈ seen
    · simp only [dedupGo, if_pos hx] at h
      exact ih h
    · simp only [dedupGo, if_neg hx] at h
      rcases List.mem_cons.mp h with h1 | h1
      · subst h1; exact hx
      · have h2 := ih h1
        intro hc
        exact h2 (by simp [hc])

theorem dedupGo_find? (l : List CttRow) :
    ∀ seen (r : CttRow), r ∈ dedupGo seen l →
      l.find? (fun x => decide (dedupKey x = dedupKey r)) = some r := by
  induction l with
  | nil => intro seen r h; simp [dedupGo] at h
  | cons x rest ih =>
    intro seen r h
    by_cases hx : dedupKey x ∈ seen
    · simp only [dedupGo, if_pos hx] at h
      have hne : dedupKey x ≠ dedupKey r := by
        intro heq
        exact key_not_seen_of_mem_dedupGo h (heq ▸ hx)
      rw [List.find?_cons_of_neg _ (by simpa using hne)]
      exact ih seen r h
    · simp only [dedupGo, if_neg hx] at h
      rcases List.mem_cons.mp h with h1 | h1
      · subst h1
        exact List.find?_cons_of_pos _ (by simp)
      · have hr := key_not_seen_of_mem_dedupGo h1
        have hne : dedupKey x ≠ dedupKey r := by
          intro hc; exact hr (by simp [hc])
        rw [List.find?_cons_of_neg _ (by simpa using hne)]
        exact ih _ r h1

theorem dedupGo_complete (l : List CttRow) :
    ∀ seen (r : CttRow), r ∈ l → dedupKey r ∉ seen →
      ∃ r2 ∈ dedupGo seen l, dedupKey r2 = dedupKey r := by
  induction l with
  | nil => intro seen r h; simp at h
  | cons x rest ih =>
    intro seen r h hns
    by_cases hx : dedupKey x ∈ seen
    · simp only [dedupGo, if_pos hx]
      rcases List.mem_cons.mp h with h1 | h1
      · exact absurd hx (h1 ▸ hns)
      · exact ih seen r h1 hns
    · simp only [dedupGo, if_neg hx]
      by_cases hk : dedupKey r = dedupKey x
      · exact ⟨x, by simp, hk.symm⟩
      · rcases List.mem_cons.mp h with h1 | h1
        · exact absurd (congrArg dedupKey h1) hk
        · have hns2 : dedupKey r ∉ dedupKey x :: seen := by
            simp [hk, hns]
          rcases ih (dedupKey x :: seen) r h1 hns2 with ⟨r2, hm, hk2⟩
          exact ⟨r2, by simp [hm], hk2⟩

theorem dedupGo_keys_nodup (l : List CttRow) :
    ∀ seen, ((dedupGo seen l).map dedupKey).Nodup := by
  induction l with
  | nil => intro seen; simp [dedupGo]
  | cons x rest ih =>
    intro seen
    by_cases hx : dedupKey x ∈ seen
    · simp only [dedupGo, if_pos hx]; exact ih seen
    · simp only [dedupGo, if_neg hx, List.map_cons, List.nodup_cons]
      refine ⟨?_, ih _⟩
      intro hc
      rcases List.mem_map.mp hc with ⟨r, hr, hk⟩
      exact key_not_seen_of_mem_dedupGo hr (by simp [hk])

theorem dedupGo_of_keys_nodup (l : List CttRow) :
    ∀ seen, ((l.map dedupKey).Nodup) →
      (∀ k ∈ l.map dedupKey, k ∉ seen) → dedupGo seen l = l := by
  induction l with
  | nil => intro seen _ _; rfl
  | cons x rest ih =>
    intro seen hnd hdisj
    have hx : dedupKey x ∉ seen := hdisj _ (by simp)
    simp only [dedupGo, if_neg hx]
    congr 1
    have hnd2 : dedupKey x ∉ rest.map dedupKey ∧ (rest.map dedupKey).Nodup := by
      rw [List.map_cons] at hnd
      exact List.nodup_cons.mp hnd
    apply ih _ hnd2.2
    intro k hk hmem
    rcases List.mem_cons.mp hmem with h1 | h1
    · subst h1
      exact hnd2.1 hk
    · exact hdisj k (by rw [List.map_cons]; exact List.mem_cons_of_mem _ hk) h1

-- ==================== Shared concrete fixtures ====================

/-- The always-failing metadata oracle (every fetch raises / fails). -/
def oracleNone : String → Option JVal := fun _ => none

/-- Text rows for exercising the Deduplicator. -/
def wRow1 : CttRow := ⟨"x", 1, 0, 1, .s "v"⟩
def wRow2 : CttRow := ⟨"x", 1, 0, 2, .s "w"⟩

-- ==================== C7: the Deduplicator ====================

/-- C7: the Deduplicator keeps the first occurrence of each
(content identifier, locale, text-kind, text-index, text-value) key, drops
later exact duplicates, preserves the relative order of kept rows (the
output is a sublist of the input covering every key), and is idempotent. -/
theorem claim_C7_dedup (l : List CttRow) :
    (dedupCtt l).Sublist l ∧
    (∀ r ∈ l, ∃ r2 ∈ dedupCtt l, dedupKey r2 = dedupKey r) ∧
    (∀ r ∈ dedupCtt l,
       l.find? (fun x => decide (dedupKey x = dedupKey r)) = some r) ∧
    ((dedupCtt l).map dedupKey).Nodup ∧
    dedupCtt (dedupCtt l) = dedupCtt l := by
  refine ⟨dedupGo_sublist l [], ?_, ?_, dedupGo_keys_nodup l [], ?_⟩
  · intro r hr
    exact dedupGo_complete l [] r hr (by simp)
  · intro r hr
    exact dedupGo_find? l [] r hr
  · exact dedupGo_of_keys_nodup (dedupCtt l) [] (dedupGo_keys_nodup l [])
      (by simp)

/-- Witness for C7 at a concrete list with an exact duplicate. -/
theorem claim_C7_dedup_witness :
    dedupCtt [wRow1, wRow2, wRow1] = [wRow1, wRow2] ∧
    dedupCtt (dedupCtt [wRow1, wRow2, wRow1]) = dedupCtt [wRow1, wRow2, wRow1] :=
  ⟨by rfl, (claim_C7_dedup [wRow1, wRow2, wRow1]).2.2.2.2⟩

-- ==================== C8: structural input errors ====================

/-- Counterexample to C8: a top level with the record array MISSING is not
fatal — `src.get('data', [])` defaults to the empty list, the `isinstance`
check passes, and the transformation proceeds, producing (empty) output.
The claim requires this case to be fatal with no output produced. -/
theorem claim_C8_counterexample :
    mainItems (JVal.obj []) = Except.ok [] ∧
    transform oracleNone true none [] = ⟨[], [], [], []⟩ :=
  ⟨rfl, rfl⟩

/-- C8 (amended): a `data` key present with a non-list value is fatal (the
run errors before producing output), as is a non-object top level; but a
MISSING `data` key is not fatal: it defaults to the empty record list and
the transformation proceeds.  Within the modelled input contract (records
are objects) no single record makes the transform fail: `transform` is a
total function. -/
theorem claim_C8_amended :
    (∀ fs, lookupA fs "data" = none → mainItems (.obj fs) = .ok []) ∧
    (∀ fs xs, lookupA fs "data" = some (.list xs) →
       mainItems (.obj fs) = .ok xs) ∧
    (∀ fs v, lookupA fs "data" = some v → (∀ xs, v ≠ JVal.list xs) →
       mainItems (.obj fs) =
         .error "Input JSON does not contain a top-level 'data' array.") ∧
    (∀ j, (∀ fs, j ≠ JVal.obj fs) → mainItems j = .error "AttributeError") := by
  refine ⟨?_, ?_, ?_, ?_⟩
  · intro fs h
    simp [mainItems, h]
  · intro fs xs h
    simp [mainItems, h]
  · intro fs v h hnl
    cases v with
    | list xs => exact absurd rfl (hnl xs)
    | null => simp [mainItems, h]
    | bool b => simp [mainItems, h]
    | num n => simp [mainItems, h]
    | str s => simp [mainItems, h]
    | obj o => simp [mainItems, h]
  · intro j hno
    cases j with
    | obj fs => exact absurd rfl (hno fs)
    | null => rfl
    | bool b => rfl
    | num n => rfl
    | str s => rfl
    | list xs => rfl

/-- Witness for C8 (amended) at concrete inputs. -/
theorem claim_C8_amended_witness :
    mainItems (JVal.obj [("data", JVal.num 3)]) =
      .error "Input JSON does not contain a top-level 'data' array." ∧
    mainItems (JVal.obj []) = .ok [] ∧
    mainItems (JVal.list []) = .error "AttributeError" :=
  ⟨claim_C8_amended.2.2.1 _ _ rfl (fun xs h => by cases h),
   claim_C8_amended.1 _ rfl,
   claim_C8_amended.2.2.2 _ (fun fs h => by cases h)⟩

-- ==================== Counterexample fixtures ====================

/-- Two records carrying the same `name` and a classifying path. -/
def itDupA : Item := ⟨some "a", "/x/curriculum/a", []⟩

/-- A lesson referencing one asset under two distinct roles
(`icon` and `heroImage`). -/
def itLessonTwoRoles : Item :=
  ⟨some "l2", "/x/lesson/l2",
   [("icon", .str "/content/dam/teladoc-headless/image/u.png"),
    ("heroImage", .str "/content/dam/teladoc-headless/image/u.png")]⟩

/-- A page referencing the same image URL under `heroImage` and the generic
`image` key. -/
def itPageHeroGeneric : Item :=
  ⟨some "p1", "/x/lesson/l/imagePage/p1",
   [("heroImage", .str "/content/dam/teladoc-headless/image/img1.png"),
    ("image", .str "/content/dam/teladoc-headless/image/img1.png")]⟩

/-- A curriculum with an explicit one-unit reference list. -/
def itCurr : Item :=
  ⟨some "c", "/edu/curriculum/c",
   [("units", .list [.obj [("path", .str "/x/unit/u")]])]⟩

/-- The unit referenced by `itCurr`. -/
def itUnit : Item := ⟨some "u", "/edu/curriculum/c/unit/u", []⟩

/-- A lesson with a single generic image. -/
def itLessonImg : Item :=
  ⟨some "l", "/edu/lesson/l",
   [("image", .str "/content/dam/teladoc-headless/image/a.png")]⟩

/-- A record with no `name` at all, carrying an absolute image URL. -/
def itNameless : Item :=
  ⟨none, "", [("heroImage", .str "http://evil.example/i.png")]⟩

/-- A page whose only asset reference is the generic `image` field. -/
def itPageOnlyGeneric : Item :=
  ⟨some "p2", "/x/lesson/l/imagePage/p2",
   [("image", .str "/content/dam/teladoc-headless/image/img2.png")]⟩

/-- A lesson whose only asset references are a generic `images` list with
two entries. -/
def itLessonImagesList : Item :=
  ⟨some "l3", "/x/lesson/l3",
   [("images", .list [.str "/content/dam/teladoc-headless/image/i1.png",
                      .str "/content/dam/teladoc-headless/image/i2.png"])]⟩

-- ==================== C2 counterexample ====================

/-- Counterexample to C2: two input records carrying the same name `"a"`
each append a content row, so `cms_id` is NOT unique in the output content
table — the entity is registered once per record carrying the name, not
"exactly once ... no matter how many input records carry that name". -/
theorem claim_C2_counterexample :
    (transform oracleNone true none [itDupA, itDupA]).content.map
      ContentRow.cms_id = ["a", "a"] ∧
    ¬ ((transform oracleNone true none [itDupA, itDupA]).content.map
      ContentRow.cms_id).Nodup :=
  ⟨by rfl, by decide⟩

-- ==================== C3 counterexample ====================

/-- Counterexample to C3: a lesson referencing one asset under the two
distinct roles `icon` (401) and `heroImage` (404) yields FOUR
parent→asset edges, not "exactly N = 2": the emission loop iterates the
encounter order (which records one entry per reference, here two) and
emits the full role set each time. -/
theorem claim_C3_counterexample :
    ((transform oracleNone true none [itLessonTwoRoles]).content_to_content.map
      (fun e => (e.parent_cms_id, e.child_cms_id, e.child_content_label_id))) =
      [("l2", "u", some 404), ("l2", "u", some 401),
       ("l2", "u", some 404), ("l2", "u", some 401)] ∧
    ((transform oracleNone true none [itLessonTwoRoles]).content_to_content.filterMap
      (fun e => e.child_content_label_id)).dedup = [404, 401] ∧
    ((transform oracleNone true none [itLessonTwoRoles]).content_to_content.length = 4 ∧
     (4 : Nat) ≠ 2) :=
  ⟨by rfl, by rfl, by rfl, by decide⟩

-- ==================== C4 counterexample ====================

/-- Counterexample to C4: (i) the generic `image` field is assigned role
404 (`heroImage`), which is NOT the highest-priority image role — 405
(`titleImage`) has strictly higher priority; (ii) in the claimed scenario
(same URL under `heroImage` and `image`), the two emitted edges BOTH carry
label 404 — there is no distinct generic-image role, so the edges are not
"one per role (hero image, generic image)". -/
theorem claim_C4_counterexample :
    ((transform oracleNone true none [itPageOnlyGeneric]).content_to_content.map
      (fun e => (e.parent_cms_id, e.child_cms_id, e.child_content_label_id))) =
      [("p2", "img2", some 404)] ∧
    ROLE_PRIORITY (some 404) < ROLE_PRIORITY (IMAGE_ROLE_LABEL "titleImage") ∧
    ((transform oracleNone true none [itPageHeroGeneric]).content_to_content.map
      (fun e => (e.parent_cms_id, e.child_cms_id, e.child_content_label_id))) =
      [("p1", "img1", some 404), ("p1", "img1", some 404)] ∧
    ¬ (((transform oracleNone true none [itPageHeroGeneric]).content_to_content.map
        (fun e => e.child_content_label_id)).Nodup) :=
  ⟨by rfl, by decide, by rfl, by decide⟩

-- ==================== C5 counterexample ====================

/-- Counterexample to C5: with one curriculum→unit edge already in the
table, a lesson's FIRST asset edge is emitted with `child_index = 1` (the
current length of the whole edge table), not the per-parent ordinal 0. -/
theorem claim_C5_counterexample :
    (transform oracleNone true none [itCurr, itUnit, itLessonImg]).content_to_content =
      [⟨"c", "u", none, 0⟩, ⟨"l", "a", some 404, 1⟩] ∧
    (((transform oracleNone true none
        [itCurr, itUnit, itLessonImg]).content_to_content.filter
       (fun e => e.parent_cms_id == "l")).map (fun e => e.child_index)) = [1] ∧
    ([1] : List Nat) ≠ [0] :=
  ⟨by rfl, by rfl, by decide⟩

-- ==================== C10 counterexample ====================

/-- Counterexample to C10: a record whose `name` is missing produces no row
(the content tables agree), but the rest of the run is NOT unaffected: the
record participates in base-URL inference, so the URL text row of another
record's asset changes when it is present. -/
theorem claim_C10_counterexample :
    (transform oracleNone true none [itNameless, itLessonImg]).content =
      (transform oracleNone true none [itLessonImg]).content ∧
    ((transform oracleNone true none
        [itNameless, itLessonImg]).content_to_text.map (fun r => r.text_value)).head? =
      some (.s "http://evil.example/content/dam/teladoc-headless/image/a.png") ∧
    ((transform oracleNone true none
        [itLessonImg]).content_to_text.map (fun r => r.text_value)).head? =
      some (.s "https://publish-p151554-e1560130.adobeaemcloud.com/content/dam/teladoc-headless/image/a.png") ∧
    (transform oracleNone true none [itNameless, itLessonImg]).content_to_text ≠
      (transform oracleNone true none [itLessonImg]).content_to_text :=
  ⟨by rfl, by rfl, by rfl, by decide⟩

-- ==================== C1 machinery: foreign-key invariant ====================

/-- The identifiers registered in the content table. -/
def idsOf (st : TState) : List String := st.content.map ContentRow.cms_id

/-- The foreign-key invariant maintained by every pass: all table references
point into the content registry, the known-id set tracks the registry, and
every bucket key is known. -/
structure InvFK (st : TState) : Prop where
  known : ∀ x ∈ st.known_ids, x ∈ idsOf st
  cttFK : ∀ r ∈ st.ctt, r.content_cms_id ∈ idsOf st
  ctcFK : ∀ r ∈ st.ctc, r.parent_cms_id ∈ idsOf st ∧ r.child_cms_id ∈ idsOf st
  ctaFK : ∀ r ∈ st.cta, r.content_cms_id ∈ idsOf st
  currB : ∀ p ∈ st.curricula, p.1 ∈ st.known_ids
  unitsB : ∀ p ∈ st.units, p.1 ∈ st.known_ids
  pagesB : ∀ p ∈ st.pages, p.1 ∈ st.known_ids
  termsB : ∀ p ∈ st.terms, p.1 ∈ st.known_ids

theorem mem_setAdd_self {α : Type} [DecidableEq α] (s : List α) (x : α) :
    x ∈ setAdd s x := by
  by_cases h : x ∈ s <;> simp [setAdd, h]

theorem mem_setAdd_of_mem {α : Type} [DecidableEq α] {s : List α} {y : α}
    (x : α) (h : y ∈ s) : y ∈ setAdd s x := by
  by_cases hx : x ∈ s <;> simp [setAdd, hx, h]

theorem mem_setAdd_iff {α : Type} [DecidableEq α] {s : List α} {x y : α} :
    y ∈ setAdd s x ↔ y ∈ s ∨ y = x := by
  by_cases hx : x ∈ s
  · simp only [setAdd, if_pos hx]
    constructor
    · exact fun h => Or.inl h
    · rintro (h | h)
      · exact h
      · exact h ▸ hx
  · simp [setAdd, if_neg hx]

theorem lookupA_isSome_mem {β : Type} {m : List (String × β)} {k : String} :
    (lookupA m k).isSome → k ∈ m.map Prod.fst := by
  induction m with
  | nil => intro h; simp [lookupA] at h
  | cons p rest ih =>
    intro h
    by_cases hk : p.1 = k
    · simp [hk]
    · simp only [lookupA] at h
      rw [if_neg hk] at h
      simp [ih h]

theorem dictSet_keys_sub {β : Type} {m : List (String × β)} {k : String}
    {v : β} {y : String} :
    y ∈ (dictSet m k v).map Prod.fst → y ∈ m.map Prod.fst ∨ y = k := by
  intro h
  by_cases hk : (lookupA m k).isSome
  · simp only [dictSet, if_pos hk, List.map_map] at h
    rcases List.mem_map.mp h with ⟨p, hp, hy⟩
    by_cases hpk : p.1 = k
    · simp only [Function.comp, if_pos hpk] at hy
      exact Or.inr hy.symm
    · simp only [Function.comp, if_neg hpk] at hy
      exact Or.inl (hy ▸ List.mem_map_of_mem Prod.fst hp)
  · simp only [dictSet, if_neg hk, List.map_append] at h
    rcases List.mem_append.mp h with h | h
    · exact Or.inl h
    · simp at h
      exact Or.inr h

theorem mem_of_mem_dictSet {β : Type} {m : List (String × β)} {k : String}
    {v : β} {p : String × β} (h : p ∈ dictSet m k v) :
    p ∈ m ∨ p.1 = k := by
  by_cases hk : (lookupA m k).isSome
  · simp only [dictSet, if_pos hk] at h
    rcases List.mem_map.mp h with ⟨q, hq, hp⟩
    by_cases hqk : q.1 = k
    · rw [if_pos hqk] at hp
      exact Or.inr (by rw [← hp])
    · rw [if_neg hqk] at hp
      exact Or.inl (hp ▸ hq)
  · simp only [dictSet, if_neg hk] at h
    rcases List.mem_append.mp h with h | h
    · exact Or.inl h
    · simp at h
      exact Or.inr (by rw [h])

theorem upgradeFirstLabel_map_cms (aid : String) (role : Option Nat) :
    ∀ (l : List ContentRow),
      (upgradeFirstLabel l aid role).map ContentRow.cms_id =
        l.map ContentRow.cms_id := by
  intro l
  induction l with
  | nil => rfl
  | cons row rest ih =>
    by_cases h : row.cms_id = aid
    · simp only [upgradeFirstLabel, if_pos h, List.map_cons]
      congr 1
      simp only [upgradeRow]
      split
      · split
        · simp [h]
        · simp [h]
      · simp [h]
    · simp only [upgradeFirstLabel, if_neg h, List.map_cons, ih]

theorem content_index_update_map_cms (content : List ContentRow)
    (aid : String) (role : Option Nat) :
    (content_index_update content aid role).map ContentRow.cms_id =
      content.map ContentRow.cms_id := by
  unfold content_index_update
  rw [List.map_reverse, upgradeFirstLabel_map_cms, ← List.map_reverse,
    List.reverse_reverse]

/-- `InvFK` only depends on these eight projections. -/
theorem invFK_of_projections {st st' : TState}
    (hc : st'.content = st.content) (ht : st'.ctt = st.ctt)
    (he : st'.ctc = st.ctc) (ha : st'.cta = st.cta)
    (hk : st'.known_ids = st.known_ids) (b1 : st'.curricula = st.curricula)
    (b2 : st'.units = st.units) (b3 : st'.pages = st.pages)
    (b4 : st'.terms = st.terms) (h : InvFK st) : InvFK st' := by
  have hid : idsOf st' = idsOf st := by unfold idsOf; rw [hc]
  exact ⟨by rw [hk, hid]; exact h.known, by rw [ht, hid]; exact h.cttFK,
         by rw [he, hid]; exact h.ctcFK, by rw [ha, hid]; exact h.ctaFK,
         by rw [b1, hk]; exact h.currB, by rw [b2, hk]; exact h.unitsB,
         by rw [b3, hk]; exact h.pagesB, by rw [b4, hk]; exact h.termsB⟩

theorem invFK_addCtt {st : TState} (h : InvFK st) (row : CttRow)
    (hr : row.content_cms_id ∈ idsOf st) :
    InvFK { st with ctt := st.ctt ++ [row] } := by
  refine ⟨h.known, ?_, h.ctcFK, h.ctaFK, h.currB, h.unitsB, h.pagesB, h.termsB⟩
  intro r hmem
  rcases List.mem_append.mp hmem with hm | hm
  · exact h.cttFK r hm
  · rw [List.mem_singleton.mp hm]
    exact hr

theorem invFK_addCtc {st : TState} (h : InvFK st) (row : CtcRow)
    (hp : row.parent_cms_id ∈ idsOf st) (hq : row.child_cms_id ∈ idsOf st) :
    InvFK { st with ctc := st.ctc ++ [row] } := by
  refine ⟨h.known, h.cttFK, ?_, h.ctaFK, h.currB, h.unitsB, h.pagesB, h.termsB⟩
  intro r hmem
  rcases List.mem_append.mp hmem with hm | hm
  · exact h.ctcFK r hm
  · rw [List.mem_singleton.mp hm]
    exact ⟨hp, hq⟩

theorem invFK_addCta {st : TState} (h : InvFK st) (row : CtaRow)
    (hr : row.content_cms_id ∈ idsOf st) :
    InvFK { st with cta := st.cta ++ [row] } := by
  refine ⟨h.known, h.cttFK, h.ctcFK, ?_, h.currB, h.unitsB, h.pagesB, h.termsB⟩
  intro r hmem
  rcases List.mem_append.mp hmem with hm | hm
  · exact h.ctaFK r hm
  · rw [List.mem_singleton.mp hm]
    exact hr

theorem invFK_register {st : TState} (h : InvFK st) (row : ContentRow) :
    InvFK { st with content := st.content ++ [row],
                    known_ids := setAdd st.known_ids row.cms_id } := by
  have hids :
      idsOf { st with content := st.content ++ [row],
                      known_ids := setAdd st.known_ids row.cms_id } =
        idsOf st ++ [row.cms_id] := by
    simp [idsOf]
  refine ⟨?_, ?_, ?_, ?_, ?_, ?_, ?_, ?_⟩
  · intro x hx
    rw [hids]
    rcases mem_setAdd_iff.mp hx with hm | hm
    · exact List.mem_append_left _ (h.known x hm)
    · exact hm ▸ List.mem_append_right _ (by simp)
  · intro r hr
    rw [hids]
    exact List.mem_append_left _ (h.cttFK r hr)
  · intro r hr
    rw [hids]
    exact ⟨List.mem_append_left _ (h.ctcFK r hr).1,
           List.mem_append_left _ (h.ctcFK r hr).2⟩
  · intro r hr
    rw [hids]
    exact List.mem_append_left _ (h.ctaFK r hr)
  · intro p hp
    exact mem_setAdd_of_mem _ (h.currB p hp)
  · intro p hp
    exact mem_setAdd_of_mem _ (h.unitsB p hp)
  · intro p hp
    exact mem_setAdd_of_mem _ (h.pagesB p hp)
  · intro p hp
    exact mem_setAdd_of_mem _ (h.termsB p hp)

theorem invFK_labelUpd {st : TState} (h : InvFK st) (aid : String)
    (role : Option Nat) :
    InvFK { st with content := content_index_update st.content aid role } := by
  have hids : idsOf { st with content := content_index_update st.content aid role } =
      idsOf st := by
    simp only [idsOf]
    exact content_index_update_map_cms st.content aid role
  exact ⟨by rw [hids]; exact h.known, by rw [hids]; exact h.cttFK,
         by rw [hids]; exact h.ctcFK, by rw [hids]; exact h.ctaFK,
         h.currB, h.unitsB, h.pagesB, h.termsB⟩

theorem invFK_setCurr {st : TState} (h : InvFK st) {name : String} (it : Item)
    (hn : name ∈ st.known_ids) :
    InvFK { st with curricula := dictSet st.curricula name it } := by
  refine ⟨h.known, h.cttFK, h.ctcFK, h.ctaFK, ?_, h.unitsB, h.pagesB, h.termsB⟩
  intro p hp
  rcases mem_of_mem_dictSet hp with hm | hm
  · exact h.currB p hm
  · exact hm ▸ hn

theorem invFK_setUnits {st : TState} (h : InvFK st) {name : String} (it : Item)
    (hn : name ∈ st.known_ids) :
    InvFK { st with units := dictSet st.units name it } := by
  refine ⟨h.known, h.cttFK, h.ctcFK, h.ctaFK, h.currB, ?_, h.pagesB, h.termsB⟩
  intro p hp
  rcases mem_of_mem_dictSet hp with hm | hm
  · exact h.unitsB p hm
  · exact hm ▸ hn

theorem invFK_setLessons {st : TState} (h : InvFK st) (name : String)
    (it : Item) :
    InvFK { st with lessons := dictSet st.lessons name it } := by
  refine invFK_of_projections ?_ ?_ ?_ ?_ ?_ ?_ ?_ ?_ ?_ h <;> rfl

theorem invFK_setPages {st : TState} (h : InvFK st) {name : String} (it : Item)
    (hn : name ∈ st.known_ids) :
    InvFK { st with pages := dictSet st.pages name it } := by
  refine ⟨h.known, h.cttFK, h.ctcFK, h.ctaFK, h.currB, h.unitsB, ?_, h.termsB⟩
  intro p hp
  rcases mem_of_mem_dictSet hp with hm | hm
  · exact h.pagesB p hm
  · exact hm ▸ hn

theorem invFK_setTerms {st : TState} (h : InvFK st) {name : String} (it : Item)
    (hn : name ∈ st.known_ids) :
    InvFK { st with terms := dictSet st.terms name it } := by
  refine ⟨h.known, h.cttFK, h.ctcFK, h.ctaFK, h.currB, h.unitsB, h.pagesB, ?_⟩
  intro p hp
  rcases mem_of_mem_dictSet hp with hm | hm
  · exact h.termsB p hm
  · exact hm ▸ hn

theorem contentStep_invFK (c : InclCtx) {st : TState} (h : InvFK st)
    (it : Item) : InvFK (contentStep c st it) := by
  simp only [contentStep]
  split
  · split
    · exact invFK_setCurr (invFK_register h _) _ (mem_setAdd_self _ _)
    · split
      · exact invFK_setUnits (invFK_register h _) _ (mem_setAdd_self _ _)
      · split
        · exact invFK_setLessons (invFK_register h _) _ _
        · split
          · exact invFK_setTerms (invFK_register h _) _ (mem_setAdd_self _ _)
          · split
            · exact invFK_setPages (invFK_register h _) _ (mem_setAdd_self _ _)
            · exact invFK_register h _
  · exact h

theorem contentStep_known_mono (c : InclCtx) (st : TState) (it : Item) :
    ∀ x ∈ st.known_ids, x ∈ (contentStep c st it).known_ids := by
  intro x hx
  simp only [contentStep]
  split
  · split
    · exact mem_setAdd_of_mem _ hx
    · split
      · exact mem_setAdd_of_mem _ hx
      · split
        · exact mem_setAdd_of_mem _ hx
        · split
          · exact mem_setAdd_of_mem _ hx
          · split
            · exact mem_setAdd_of_mem _ hx
            · exact mem_setAdd_of_mem _ hx
  · exact hx

theorem contentStep_name_mem (c : InclCtx) (st : TState) (it : Item)
    (hc : (itemNameOk it && maskOf c it.name) = true) :
    it.name.getD "" ∈ (contentStep c st it).known_ids := by
  simp only [contentStep]
  rw [if_pos hc]
  split
  · exact mem_setAdd_self _ _
  · split
    · exact mem_setAdd_self _ _
    · split
      · exact mem_setAdd_self _ _
      · split
        · exact mem_setAdd_self _ _
        · split
          · exact mem_setAdd_self _ _
          · exact mem_setAdd_self _ _

/-- Every included, truthy-named input record's name is known. -/
def NamesIn (c : InclCtx) (items : List Item) (st : TState) : Prop :=
  ∀ it ∈ items, (itemNameOk it && maskOf c it.name) = true →
    it.name.getD "" ∈ st.known_ids

theorem contentPass_invFK (c : InclCtx) (items : List Item) {st0 : TState}
    (h : InvFK st0) : InvFK (items.foldl (contentStep c) st0) :=
  foldl_induct _ items st0 h (fun s a _ hs => contentStep_invFK c hs a)

theorem contentPass_known_mono (c : InclCtx) (items : List Item) (st0 : TState) :
    ∀ x ∈ st0.known_ids, x ∈ (items.foldl (contentStep c) st0).known_ids := by
  intro x hx
  exact foldl_induct _ items st0 hx
    (fun s a _ hs => contentStep_known_mono c s a x hs)

theorem contentPass_names (c : InclCtx) :
    ∀ (items : List Item) (st0 : TState),
      NamesIn c items (items.foldl (contentStep c) st0) := by
  intro items
  induction items with
  | nil => intro st0 it hmem; simp at hmem
  | cons a rest ih =>
    intro st0 it hmem hc
    rcases List.mem_cons.mp hmem with hm | hm
    · subst hm
      simp only [List.foldl_cons]
      exact contentPass_known_mono c rest _ _
        (contentStep_name_mem c st0 it hc)
    · simp only [List.foldl_cons]
      exact ih (contentStep c st0 a) it hm hc

/-- Uniqueness invariant: registered ids are pairwise distinct and every
registered id is known (so that register-if-new checks are sound). -/
def InvUniq (st : TState) : Prop :=
  (idsOf st).Nodup ∧ (∀ x ∈ idsOf st, x ∈ st.known_ids)

/-- What every pass (after the content pass) does to the state: it preserves
the foreign-key invariant, only grows the known-id set and the registry,
leaves the type buckets untouched, and preserves uniqueness. -/
def GrowOK (s s' : TState) : Prop :=
  (InvFK s → InvFK s') ∧ (∀ x ∈ s.known_ids, x ∈ s'.known_ids) ∧
  (∀ x ∈ idsOf s, x ∈ idsOf s') ∧
  s'.curricula = s.curricula ∧ s'.units = s.units ∧
  s'.pages = s.pages ∧ s'.terms = s.terms ∧ (InvUniq s → InvUniq s')

theorem growOK_refl (s : TState) : GrowOK s s :=
  ⟨id, fun _ h => h, fun _ h => h, rfl, rfl, rfl, rfl, id⟩

theorem growOK_trans {a b c : TState} (h1 : GrowOK a b) (h2 : GrowOK b c) :
    GrowOK a c :=
  ⟨fun h => h2.1 (h1.1 h), fun x hx => h2.2.1 x (h1.2.1 x hx),
   fun x hx => h2.2.2.1 x (h1.2.2.1 x hx),
   h2.2.2.2.1.trans h1.2.2.2.1, h2.2.2.2.2.1.trans h1.2.2.2.2.1,
   h2.2.2.2.2.2.1.trans h1.2.2.2.2.2.1,
   h2.2.2.2.2.2.2.1.trans h1.2.2.2.2.2.2.1,
   fun h => h2.2.2.2.2.2.2.2 (h1.2.2.2.2.2.2.2 h)⟩

theorem growOK_of_projections {s s' : TState}
    (hc : s'.content = s.content) (ht : s'.ctt = s.ctt)
    (he : s'.ctc = s.ctc) (ha : s'.cta = s.cta)
    (hk : s'.known_ids = s.known_ids) (b1 : s'.curricula = s.curricula)
    (b2 : s'.units = s.units) (b3 : s'.pages = s.pages)
    (b4 : s'.terms = s.terms) : GrowOK s s' :=
  ⟨invFK_of_projections hc ht he ha hk b1 b2 b3 b4,
   by rw [hk]; exact fun _ h => h,
   by unfold idsOf; rw [hc]; exact fun _ h => h, b1, b2, b3, b4,
   by unfold InvUniq idsOf; rw [hc, hk]; exact id⟩

theorem growOK_addCtt {s : TState} (row : CttRow)
    (hr : InvFK s → row.content_cms_id ∈ idsOf s) :
    GrowOK s { s with ctt := s.ctt ++ [row] } :=
  ⟨fun h => invFK_addCtt h row (hr h), fun _ h => h, fun _ h => h,
   rfl, rfl, rfl, rfl, id⟩

theorem growOK_addCtc {s : TState} (row : CtcRow)
    (hp : InvFK s → row.parent_cms_id ∈ idsOf s)
    (hq : InvFK s → row.child_cms_id ∈ idsOf s) :
    GrowOK s { s with ctc := s.ctc ++ [row] } :=
  ⟨fun h => invFK_addCtc h row (hp h) (hq h), fun _ h => h, fun _ h => h,
   rfl, rfl, rfl, rfl, id⟩

theorem growOK_addCta {s : TState} (row : CtaRow)
    (hr : InvFK s → row.content_cms_id ∈ idsOf s) :
    GrowOK s { s with cta := s.cta ++ [row] } :=
  ⟨fun h => invFK_addCta h row (hr h), fun _ h => h, fun _ h => h,
   rfl, rfl, rfl, rfl, id⟩

theorem growOK_register {s : TState} (row : ContentRow)
    (hnew : row.cms_id ∉ s.known_ids) :
    GrowOK s { s with content := s.content ++ [row],
                      known_ids := setAdd s.known_ids row.cms_id } := by
  have hids :
      idsOf { s with content := s.content ++ [row],
                     known_ids := setAdd s.known_ids row.cms_id } =
        idsOf s ++ [row.cms_id] := by simp [idsOf]
  refine ⟨fun h => invFK_register h row, fun _ h => mem_setAdd_of_mem _ h,
   fun x hx => by rw [hids]; exact List.mem_append_left _ hx,
   rfl, rfl, rfl, rfl, ?_⟩
  intro hu
  constructor
  · rw [hids]
    refine List.Nodup.append hu.1 (by simp) ?_
    intro x hx hx2
    rw [List.mem_singleton.mp hx2] at hx
    exact hnew (hu.2 _ hx)
  · intro x hx
    rw [hids] at hx
    rcases List.mem_append.mp hx with hm | hm
    · exact mem_setAdd_of_mem _ (hu.2 _ hm)
    · rw [List.mem_singleton.mp hm]
      exact mem_setAdd_self _ _

theorem growOK_labelUpd {s : TState} (aid : String) (role : Option Nat) :
    GrowOK s { s with content := content_index_update s.content aid role } := by
  have hid : idsOf { s with content := content_index_update s.content aid role } =
      idsOf s := by
    simp only [idsOf]
    exact content_index_update_map_cms s.content aid role
  exact ⟨fun h => invFK_labelUpd h aid role, fun _ h => h,
         by rw [hid]; exact fun _ h => h, rfl, rfl, rfl, rfl,
         by unfold InvUniq; rw [hid]; exact id⟩

/-- Fold a pass whose steps are all `GrowOK` relative to the pass entry. -/
theorem growOK_foldl {α : Type} (f : TState → α → TState) (l : List α)
    (s0 : TState) (h : ∀ s a, a ∈ l → GrowOK s0 s → GrowOK s (f s a)) :
    GrowOK s0 (l.foldl f s0) :=
  foldl_induct f l s0 (growOK_refl s0)
    (fun s a ha hs => growOK_trans hs (h s a ha hs))

/-- Fold a pass over a pair accumulator (state plus counters). -/
theorem growOK_foldl_fst {α β : Type} (f : TState × β → α → TState × β)
    (l : List α) (s0 : TState) (b0 : β)
    (h : ∀ sb a, a ∈ l → GrowOK s0 sb.1 → GrowOK sb.1 (f sb a).1) :
    GrowOK s0 (l.foldl f (s0, b0)).1 := by
  have hmain : ∀ (l' : List α),
      (∀ sb a, a ∈ l' → GrowOK s0 sb.1 → GrowOK sb.1 (f sb a).1) →
      ∀ (sb : TState × β), GrowOK s0 sb.1 → GrowOK s0 (l'.foldl f sb).1 := by
    intro l'
    induction l' with
    | nil => intro _ sb hh; exact hh
    | cons a rest ih =>
      intro hstep sb hh
      simp only [List.foldl_cons]
      exact ih
        (fun sb' a' ha' h' => hstep sb' a' (List.mem_cons_of_mem _ ha') h')
        (f sb a) (growOK_trans hh (hstep sb a (by simp) hh))
  exact hmain l h (s0, b0) (growOK_refl s0)

/-- General pair-accumulator fold for `GrowOK`. -/
theorem growOK_foldl_pair {α β : Type} (f : TState × β → α → TState × β)
    (l : List α) (sb0 : TState × β)
    (h : ∀ sb a, a ∈ l → GrowOK sb0.1 sb.1 → GrowOK sb.1 (f sb a).1) :
    GrowOK sb0.1 (l.foldl f sb0).1 := by
  have hmain : ∀ (l' : List α),
      (∀ sb a, a ∈ l' → GrowOK sb0.1 sb.1 → GrowOK sb.1 (f sb a).1) →
      ∀ (sb : TState × β), GrowOK sb0.1 sb.1 →
        GrowOK sb0.1 (l'.foldl f sb).1 := by
    intro l'
    induction l' with
    | nil => intro _ sb hh; exact hh
    | cons a rest ih =>
      intro hstep sb hh
      simp only [List.foldl_cons]
      exact ih
        (fun sb' a' ha' h' => hstep sb' a' (List.mem_cons_of_mem _ ha') h')
        (f sb a) (growOK_trans hh (hstep sb a (by simp) hh))
  exact hmain l h sb0 (growOK_refl sb0.1)

theorem textStep_growOK (c : InclCtx) (s : TState) (it : Item)
    (hn : (itemNameOk it && maskOf c it.name) = true →
      it.name.getD "" ∈ s.known_ids) :
    GrowOK s (textStep c s it) := by
  simp only [textStep]
  split
  case isTrue hc =>
    have hname : it.name.getD "" ∈ s.known_ids := hn hc
    refine growOK_trans (growOK_foldl _ TEXT_FIELDS s ?_) (growOK_foldl _ SPECIAL_TO_TEXT _ ?_)
    · intro sI kv _ hgrow
      split
      · split
        · exact growOK_addCtt _ (fun hi => hi.known _ (hgrow.2.1 _ hname))
        · exact growOK_refl sI
      · exact growOK_refl sI
    · intro sI kv _ hgrow
      split
      · split
        · refine growOK_addCtt _ (fun hi => hi.known _ (hgrow.2.1 _ ?_))
          exact growOK_foldl _ TEXT_FIELDS s (fun sJ kv2 _ hg2 => by
            split
            · split
              · exact growOK_addCtt _ (fun hi2 => hi2.known _ (hg2.2.1 _ hname))
              · exact growOK_refl sJ
            · exact growOK_refl sJ) |>.2.1 _ hname
        · exact growOK_refl sI
      · exact growOK_refl sI
  case isFalse => exact growOK_refl s

theorem growOK_cta_fold {s sI : TState} (name : String) {α : Type}
    (g : α → Option Nat) (l : List α)
    (hname : name ∈ s.known_ids) (hgrow : GrowOK s sI) :
    GrowOK s (l.foldl (fun st cv =>
      match g cv with
      | some aid => { st with cta := st.cta ++ [⟨name, aid⟩] }
      | none => st) sI) := by
  refine growOK_trans hgrow (growOK_foldl _ l sI ?_)
  intro sJ cv _ hg2
  split
  · exact growOK_addCta _
      (fun hi => hi.known _ ((growOK_trans hgrow hg2).2.1 _ hname))
  · exact growOK_refl sJ


theorem ctaCatBlock_growOK {s sI : TState} (name : String)
    (data : List (String × JVal)) (hname : name ∈ s.known_ids)
    (hgrow : GrowOK s sI) : GrowOK s (ctaCatBlock name data sI) := by
  unfold ctaCatBlock
  split
  · exact growOK_cta_fold name _ _ hname hgrow
  · exact hgrow

theorem ctaCadBlock_growOK {s sI : TState} (name : String)
    (data : List (String × JVal)) (hname : name ∈ s.known_ids)
    (hgrow : GrowOK s sI) : GrowOK s (ctaCadBlock name data sI) := by
  unfold ctaCadBlock
  split
  · split
    · split
      · exact growOK_trans hgrow
          (growOK_addCta _ (fun hi => hi.known _ (hgrow.2.1 _ hname)))
      · exact hgrow
    · exact hgrow
  · exact hgrow

theorem ctaTagBlock_growOK {s sI : TState} (name : String)
    (data : List (String × JVal)) (hname : name ∈ s.known_ids)
    (hgrow : GrowOK s sI) : GrowOK s (ctaTagBlock name data sI) := by
  unfold ctaTagBlock
  split
  · exact growOK_cta_fold name _ _ hname hgrow
  · exact hgrow

theorem ctaStep_growOK (c : InclCtx) (s : TState) (it : Item)
    (hn : (itemNameOk it && maskOf c it.name) = true →
      it.name.getD "" ∈ s.known_ids) :
    GrowOK s (ctaStep c s it) := by
  simp only [ctaStep]
  split
  case isTrue hc =>
    have hname : it.name.getD "" ∈ s.known_ids := hn hc
    exact ctaTagBlock_growOK _ _ hname
      (ctaCadBlock_growOK _ _ hname (ctaCatBlock_growOK _ _ hname (growOK_refl s)))
  case isFalse => exact growOK_refl s

theorem lookupA_eq_some_mem {β : Type} {m : List (String × β)} {k : String}
    {v : β} (h : lookupA m k = some v) : (k, v) ∈ m := by
  induction m with
  | nil => simp [lookupA] at h
  | cons p rest ih =>
    by_cases hk : p.1 = k
    · simp only [lookupA, if_pos hk] at h
      have : p = (k, v) := by
        cases p
        simp only [Option.some.injEq] at h
        simp_all
      simp [this]
    · simp only [lookupA, if_neg hk] at h
      exact List.mem_cons_of_mem _ (ih h)

theorem currUnitStep_growOK {s0 s : TState} (kv : String × Item)
    (hkv : kv ∈ s0.curricula) (hgrow : GrowOK s0 s) :
    GrowOK s (currUnitStep s kv) := by
  simp only [currUnitStep]
  split
  · refine growOK_foldl _ _ s ?_
    intro sJ p _ hg2
    have hAll : GrowOK s0 sJ := growOK_trans hgrow hg2
    split
    · split
      case isTrue hcond =>
        refine growOK_addCtc _ ?_ (fun hi => hi.known _ hcond.2)
        intro hi
        exact hi.known _ (hi.currB kv (hAll.2.2.2.1.symm ▸ hkv))
      case isFalse => exact growOK_refl sJ
    · exact growOK_refl sJ
  · refine growOK_foldl_pair _ _ (s, 0) ?_
    intro sb ukv _ hg2
    have hAll : GrowOK s0 sb.1 := growOK_trans hgrow hg2
    split
    case isTrue hcond =>
      refine growOK_addCtc _ ?_ (fun hi => hi.known _ hcond.2)
      intro hi
      exact hi.known _ (hi.currB kv (hAll.2.2.2.1.symm ▸ hkv))
    case isFalse => exact growOK_refl sb.1

theorem unitLessonStep_growOK (c : InclCtx) {s : TState} (it : Item)
    (hn : (itemNameOk it && maskOf c it.name) = true →
      it.name.getD "" ∈ s.known_ids) :
    GrowOK s (unitLessonStep c s it) := by
  simp only [unitLessonStep]
  split
  case isTrue hc =>
    have hname : it.name.getD "" ∈ s.known_ids := hn hc
    split
    · refine growOK_foldl _ _ s ?_
      intro sJ p _ hg2
      split
      · split
        case isTrue hcond =>
          exact growOK_addCtc _ (fun hi => hi.known _ (hg2.2.1 _ hname))
            (fun hi => hi.known _ hcond.2)
        case isFalse => exact growOK_refl sJ
      · exact growOK_refl sJ
    · exact growOK_refl s
  case isFalse => exact growOK_refl s

theorem lessonPageStep_growOK (c : InclCtx) {s : TState} (it : Item)
    (hn : (itemNameOk it && maskOf c it.name) = true →
      it.name.getD "" ∈ s.known_ids) :
    GrowOK s (lessonPageStep c s it) := by
  simp only [lessonPageStep]
  split
  case isTrue hc =>
    have hname : it.name.getD "" ∈ s.known_ids := hn hc
    split
    · refine growOK_foldl _ _ s ?_
      intro sJ p _ hg2
      split
      · split
        case isTrue hcond =>
          exact growOK_addCtc _ (fun hi => hi.known _ (hg2.2.1 _ hname))
            (fun hi => hi.known _ hcond.2)
        case isFalse => exact growOK_refl sJ
      · split
        case isTrue hcond =>
          exact growOK_addCtc _ (fun hi => hi.known _ (hg2.2.1 _ hname))
            (fun hi => hi.known _ hcond.2)
        case isFalse => exact growOK_refl sJ
    · exact growOK_refl s
  case isFalse => exact growOK_refl s

theorem termStep_growOK (c : InclCtx) {s0 : TState}
    (sb : TState × List (String × Nat)) (kv : String × Item)
    (hkv : kv ∈ s0.terms) (hgrow : GrowOK s0 sb.1) :
    GrowOK sb.1 (termStep c sb kv).1 := by
  simp only [termStep]
  split
  · exact growOK_refl sb.1
  · refine growOK_foldl_pair _ _ sb ?_
    intro sb2 ref _ hg2
    have hAll : GrowOK s0 sb2.1 := growOK_trans hgrow hg2
    have main : ∀ (pid : String), GrowOK sb2.1
        ((if pid ≠ "" ∧ (lookupA sb2.1.pages pid).isSome then
            if (typeOf c (some pid)).2 = some 305 then
              ({ sb2.1 with ctc := sb2.1.ctc ++
                  [⟨pid, kv.1, none, (lookupA sb2.2 pid).getD 0⟩] },
               dictSet sb2.2 pid ((lookupA sb2.2 pid).getD 0 + 1))
            else sb2
          else sb2).1) := by
      intro pid
      split
      case isTrue hcond =>
        split
        · refine growOK_addCtc _ ?_ ?_
          · intro hi
            rcases Option.isSome_iff_exists.mp hcond.2 with ⟨itp, hit⟩
            exact hi.known _ (hi.pagesB ⟨_, itp⟩ (lookupA_eq_some_mem hit))
          · intro hi
            exact hi.known _ (hi.termsB kv (hAll.2.2.2.2.2.2.1.symm ▸ hkv))
        · exact growOK_refl sb2.1
      case isFalse => exact growOK_refl sb2.1
    exact main _

theorem recordRegister_growOK (aid : String) (s : TState) :
    GrowOK s (recordRegister aid s) ∧ aid ∈ (recordRegister aid s).known_ids := by
  unfold recordRegister
  split
  case isTrue h => exact ⟨growOK_refl s, h⟩
  case isFalse h => exact ⟨growOK_register _ h, mem_setAdd_self _ _⟩

theorem recordUrlRow_growOK (aid normStr : String) (s : TState)
    (ha : aid ∈ s.known_ids) : GrowOK s (recordUrlRow aid normStr s) := by
  unfold recordUrlRow
  split
  · exact growOK_refl s
  · refine growOK_trans (growOK_addCtt ⟨aid, 1, 0, 18, .s normStr⟩
      (fun hi => hi.known _ ha)) ?_
    exact growOK_of_projections rfl rfl rfl rfl rfl rfl rfl rfl rfl

theorem recordUrlMap_growOK (aid normStr : String) (url : JVal) (s : TState) :
    GrowOK s (recordUrlMap aid normStr url s) :=
  growOK_of_projections rfl rfl rfl rfl rfl rfl rfl rfl rfl

theorem recordExtHint_growOK (aid ext : String) (s : TState) :
    GrowOK s (recordExtHint aid ext s) := by
  unfold recordExtHint
  split
  · exact growOK_of_projections rfl rfl rfl rfl rfl rfl rfl rfl rfl
  · exact growOK_refl s

theorem recordLabel_growOK (aid : String) (role : Option Nat) (s : TState) :
    GrowOK s (recordLabel aid role s) :=
  growOK_trans (growOK_labelUpd aid role)
    (growOK_of_projections rfl rfl rfl rfl rfl rfl rfl rfl rfl)

theorem record_asset_growOK (base : String) (s : TState) (pp : PerParent)
    (aid : String) (url : JVal) (role : Option Nat) :
    GrowOK s (_record_asset base s pp aid url role).1 ∧
    aid ∈ (_record_asset base s pp aid url role).1.known_ids ∧
    (_record_asset base s pp aid url role).2.order = pp.order ++ [aid] := by
  have h1 := recordRegister_growOK aid s
  have h2 := recordUrlRow_growOK aid (pyStr (normalizeJ url (some base)))
    (recordRegister aid s) h1.2
  have hmem2 : aid ∈ (recordUrlRow aid (pyStr (normalizeJ url (some base)))
      (recordRegister aid s)).known_ids := h2.2.1 _ h1.2
  have h3 := recordUrlMap_growOK aid (pyStr (normalizeJ url (some base))) url
    (recordUrlRow aid (pyStr (normalizeJ url (some base))) (recordRegister aid s))
  have h4 := recordExtHint_growOK aid (derive_asset_ext (pyStr url))
    (recordUrlMap aid (pyStr (normalizeJ url (some base))) url
      (recordUrlRow aid (pyStr (normalizeJ url (some base))) (recordRegister aid s)))
  have h5 := recordLabel_growOK aid role
    (recordExtHint aid (derive_asset_ext (pyStr url))
      (recordUrlMap aid (pyStr (normalizeJ url (some base))) url
        (recordUrlRow aid (pyStr (normalizeJ url (some base)))
          (recordRegister aid s))))
  refine ⟨growOK_trans h1.1 (growOK_trans h2 (growOK_trans h3
      (growOK_trans h4 h5))), ?_, rfl⟩
  exact h5.2.1 _ (h4.2.1 _ (h3.2.1 _ hmem2))

/-- Invariant of a parent scan: the state has only grown, and every asset in
the encounter order is known. -/
def ScanInv (s0 : TState) (stpp : TState × PerParent) : Prop :=
  GrowOK s0 stpp.1 ∧ ∀ a ∈ stpp.2.order, a ∈ stpp.1.known_ids

theorem record_asset_scanInv {s0 : TState} {stpp : TState × PerParent}
    (base : String) (aid : String) (url : JVal) (role : Option Nat)
    (h : ScanInv s0 stpp) :
    ScanInv s0 (_record_asset base stpp.1 stpp.2 aid url role) := by
  obtain ⟨hg, ho⟩ := h
  obtain ⟨hg2, hmem, hord⟩ := record_asset_growOK base stpp.1 stpp.2 aid url role
  refine ⟨growOK_trans hg hg2, ?_⟩
  intro a ha
  rw [hord] at ha
  rcases List.mem_append.mp ha with hm | hm
  · exact hg2.2.1 _ (ho a hm)
  · rw [List.mem_singleton.mp hm]
    exact hmem

theorem scanGenericImage_scanInv {s0 : TState} (base : String)
    (pdata : List (String × JVal)) (stpp : TState × PerParent)
    (h : ScanInv s0 stpp) : ScanInv s0 (scanGenericImage base pdata stpp) := by
  unfold scanGenericImage
  split
  · split
    · split
      · split
        · exact record_asset_scanInv base _ _ _ h
        · exact h
      · exact h
    · exact h
  · exact h

theorem scanImageKeys_scanInv {s0 : TState} (base : String)
    (pdata : List (String × JVal)) (stpp : TState × PerParent)
    (h : ScanInv s0 stpp) : ScanInv s0 (scanImageKeys base pdata stpp) := by
  unfold scanImageKeys
  refine foldl_induct _ IMAGE_URL_KEYS stpp h ?_
  intro sp key _ hp
  split
  · split
    · split
      · split
        · exact record_asset_scanInv base _ _ _ hp
        · exact hp
      · exact hp
    · exact hp
  · exact hp

theorem scanImagesList_scanInv {s0 : TState} (base : String)
    (pdata : List (String × JVal)) (stpp : TState × PerParent)
    (h : ScanInv s0 stpp) : ScanInv s0 (scanImagesList base pdata stpp) := by
  unfold scanImagesList
  split
  · refine foldl_induct _ _ stpp h ?_
    intro sp v _ hp
    split
    · split
      · split
        · exact record_asset_scanInv base _ _ _ hp
        · exact hp
      · exact hp
    · exact hp
  · exact h

theorem scanParentImages_scanInv (base : String)
    (pdata : List (String × JVal)) (stpp : TState × PerParent)
    (hord : ∀ a ∈ stpp.2.order, a ∈ stpp.1.known_ids) :
    ScanInv stpp.1 (scanParentImages base pdata stpp) :=
  scanImagesList_scanInv base pdata _
    (scanImageKeys_scanInv base pdata _
      (scanGenericImage_scanInv base pdata stpp ⟨growOK_refl _, hord⟩))

/-- Edge emission only appends edges from a known parent to known assets. -/
theorem emitAssetEdges_growOK (pid : String) (dr : List (Option Nat))
    (pp : PerParent) (s : TState)
    (hpid : pid ∈ s.known_ids) (hord : ∀ a ∈ pp.order, a ∈ s.known_ids) :
    GrowOK s (emitAssetEdges pid dr pp s) := by
  unfold emitAssetEdges
  refine growOK_foldl _ _ s ?_
  intro sI aid haid hg
  refine growOK_foldl _ _ sI ?_
  intro sJ role _ hg2
  have hAll : GrowOK s sJ := growOK_trans hg hg2
  exact growOK_addCtc _ (fun hi => hi.known _ (hAll.2.1 _ hpid))
    (fun hi => hi.known _ (hAll.2.1 _ (hord aid haid)))

theorem ensure_answer_growOK (s : TState) (aid : String) :
    GrowOK s (_ensure_answer_content s aid) ∧
    (aid ≠ "" → aid ∈ (_ensure_answer_content s aid).known_ids) := by
  unfold _ensure_answer_content
  split
  case isTrue h => exact ⟨growOK_register _ h.2, fun _ => mem_setAdd_self _ _⟩
  case isFalse h =>
    refine ⟨growOK_refl s, fun hne => ?_⟩
    by_cases hk : aid ∈ s.known_ids
    · exact hk
    · exact absurd ⟨hne, hk⟩ h

theorem answersPotBlock_growOK {s sI : TState} (qid : String)
    (data : List (String × JVal)) (hqid : qid ∈ s.known_ids)
    (hgrow : GrowOK s sI) : GrowOK s (answersPotBlock qid data sI) := by
  unfold answersPotBlock
  split
  · split
    · refine growOK_trans hgrow (growOK_foldl_pair _ _ (sI, 0) ?_)
      intro sb ref _ hg2
      dsimp only
      split
      · exact growOK_refl sb.1
      case isFalse hne =>
        have he := ensure_answer_growOK sb.1 (_extract_answer_id ref)
        refine growOK_trans he.1 (growOK_addCtc _ ?_ ?_)
        · intro hi
          exact hi.known _ (he.1.2.1 _
            ((growOK_trans hgrow hg2).2.1 _ hqid))
        · intro hi
          exact hi.known _ (he.2 hne)
    · exact hgrow
  · exact hgrow

theorem answersCorrBlock_growOK {s sI : TState} (qid : String)
    (data : List (String × JVal)) (itemsIndex : List (String × Item))
    (ansIdx : List (String × String)) (hqid : qid ∈ s.known_ids)
    (hgrow : GrowOK s sI) :
    GrowOK s (answersCorrBlock qid data itemsIndex ansIdx sI) := by
  unfold answersCorrBlock
  split
  · split
    · refine growOK_trans hgrow (growOK_foldl_pair _ _ (sI, 0) ?_)
      intro sb ref _ hg2
      dsimp only
      split
      · exact growOK_refl sb.1
      case isFalse hne =>
        have he := ensure_answer_growOK sb.1 (_extract_answer_id ref)
        have hqmem : qid ∈ sb.1.known_ids := (growOK_trans hgrow hg2).2.1 _ hqid
        have hedge : GrowOK sb.1 { _ensure_answer_content sb.1 (_extract_answer_id ref) with
            ctc := (_ensure_answer_content sb.1 (_extract_answer_id ref)).ctc ++
              [⟨qid, _extract_answer_id ref, some 502, sb.2⟩] } :=
          growOK_trans he.1 (growOK_addCtc _
            (fun hi => hi.known _ (he.1.2.1 _ hqmem))
            (fun hi => hi.known _ (he.2 hne)))
        split
        · refine growOK_trans hedge (growOK_addCtt _ ?_)
          intro hi
          exact hi.known _ (hedge.2.1 _ hqmem)
        · exact hedge
    · exact hgrow
  · exact hgrow

theorem answersStep_growOK (c : InclCtx) (itemsIndex : List (String × Item))
    (ansIdx : List (String × String)) {s : TState} (it : Item)
    (hn : (itemNameOk it && maskOf c it.name) = true →
      it.name.getD "" ∈ s.known_ids) :
    GrowOK s (answersStep c itemsIndex ansIdx s it) := by
  simp only [answersStep]
  split
  case isTrue hc =>
    split
    · exact answersCorrBlock_growOK _ _ _ _ (hn hc)
        (answersPotBlock_growOK _ _ (hn hc) (growOK_refl s))
    · exact growOK_refl s
  case isFalse => exact growOK_refl s

theorem nonPageAssetStep_growOK (c : InclCtx) (base : String) {s : TState}
    (it : Item)
    (hn : (itemNameOk it && maskOf c it.name) = true →
      it.name.getD "" ∈ s.known_ids) :
    GrowOK s (nonPageAssetStep c base s it) := by
  simp only [nonPageAssetStep]
  split
  case isTrue hc =>
    split
    · exact growOK_refl s
    · have hscan := scanParentImages_scanInv base it.data (s, ⟨[], []⟩)
        (by intro a ha; simp [PerParent.order] at ha)
      exact growOK_trans hscan.1
        (emitAssetEdges_growOK _ _ _ _ (hscan.1.2.1 _ (hn hc)) hscan.2)
  case isFalse => exact growOK_refl s

theorem pageAssetStep_growOK (c : InclCtx) (base : String) {s : TState}
    (kv : String × Item) (hinv : InvFK s) (hkv : kv ∈ s.pages) :
    GrowOK s (pageAssetStep c base s kv) := by
  simp only [pageAssetStep]
  split
  · have hpid : kv.1 ∈ s.known_ids := hinv.pagesB kv hkv
    have hscan := scanParentImages_scanInv base kv.2.data (s, ⟨[], []⟩)
      (by intro a ha; simp [PerParent.order] at ha)
    exact growOK_trans hscan.1
      (emitAssetEdges_growOK _ _ _ _ (hscan.1.2.1 _ hpid) hscan.2)
  · exact growOK_refl s

theorem mem_insertStr {x a : String} : ∀ {l : List String},
    a ∈ insertStr x l → a = x ∨ a ∈ l := by
  intro l
  induction l with
  | nil => intro h; simpa [insertStr] using h
  | cons y ys ih =>
    intro h
    simp only [insertStr] at h
    split at h
    · rcases List.mem_cons.mp h with hm | hm
      · exact Or.inl hm
      · exact Or.inr hm
    · rcases List.mem_cons.mp h with hm | hm
      · exact Or.inr (by simp [hm])
      · rcases ih hm with hm2 | hm2
        · exact Or.inl hm2
        · exact Or.inr (List.mem_cons_of_mem _ hm2)

theorem mem_sortStr {a : String} : ∀ {l : List String}, a ∈ sortStr l → a ∈ l := by
  intro l
  induction l with
  | nil => intro h; simpa [sortStr] using h
  | cons y ys ih =>
    intro h
    simp only [sortStr, List.foldr_cons] at h
    rcases mem_insertStr h with hm | hm
    · simp [hm]
    · exact List.mem_cons_of_mem _ (ih hm)

theorem mem_urlAssets {a : String} : ∀ (l : List CttRow) (acc : List String),
    a ∈ l.foldl (fun acc row =>
      if row.text_type_id = 18 ∧ row.content_cms_id ≠ "" then
        setAdd acc row.content_cms_id
      else acc) acc →
    a ∈ acc ∨ ∃ r ∈ l, r.content_cms_id = a := by
  intro l
  induction l with
  | nil => intro acc h; exact Or.inl (by simpa using h)
  | cons row rest ih =>
    intro acc h
    simp only [List.foldl_cons] at h
    rcases ih _ h with hm | hm
    · split at hm
      · rcases mem_setAdd_iff.mp hm with hm2 | hm2
        · exact Or.inl hm2
        · exact Or.inr ⟨row, by simp, hm2.symm⟩
      · exact Or.inl hm
    · rcases hm with ⟨r, hr, he⟩
      exact Or.inr ⟨r, List.mem_cons_of_mem _ hr, he⟩

theorem enrichStep_growOK (oracle : String → Option JVal)
    (base : Option String) {s : TState} (aid : String)
    (hmem : aid ∈ idsOf s) :
    GrowOK s (_enrich_asset_ctt_rows_for oracle base s aid) := by
  have happ : ∀ (sM : TState) (row : CttRow), row.content_cms_id = aid →
      GrowOK s sM → ∀ (b : Prop) (_ : Decidable b),
        GrowOK s (if b then { sM with ctt := sM.ctt ++ [row] } else sM) := by
    intro sM row hrow hg b hb
    split
    · refine growOK_trans hg (growOK_addCtt row ?_)
      intro _
      rw [hrow]
      exact hg.2.2.1 _ hmem
    · exact hg
  have hfetch : GrowOK s (enrichFetch oracle base aid s).1 := by
    simp only [enrichFetch]
    split
    · split
      · exact growOK_of_projections rfl rfl rfl rfl rfl rfl rfl rfl rfl
      · exact growOK_refl s
    · exact growOK_refl s
  have happend : ∀ (existing : List Nat) (meta : Option AssetMeta)
      (sM : TState), GrowOK s sM →
      GrowOK s (enrichAppend aid existing meta sM) := by
    intro existing meta sM hg
    unfold enrichAppend
    exact happ _ _ rfl (happ _ _ rfl (happ _ _ rfl (happ _ _ rfl hg _
      inferInstance) _ inferInstance) _ inferInstance) _ inferInstance
  simp only [_enrich_asset_ctt_rows_for]
  split
  · exact growOK_refl s
  · split
    · exact growOK_refl s
    · exact happend _ _ _ hfetch

theorem dedup_growOK (s : TState) :
    GrowOK s { s with ctt := dedupCtt s.ctt } :=
  ⟨fun hi => ⟨hi.known, fun r hr => hi.cttFK r (mem_of_mem_dedupGo hr),
    hi.ctcFK, hi.ctaFK, hi.currB, hi.unitsB, hi.pagesB, hi.termsB⟩,
   fun _ h => h, fun _ h => h, rfl, rfl, rfl, rfl, id⟩

theorem initState_invFK : InvFK initState := by
  refine ⟨?_, ?_, ?_, ?_, ?_, ?_, ?_, ?_⟩ <;> intro x hx <;>
    simp [initState] at hx

theorem stText_growOK (c : InclCtx) (items : List Item) :
    GrowOK (stContent c items) (stText c items) :=
  growOK_foldl _ items _ (fun s it hit hg =>
    textStep_growOK c s it
      (fun hc => hg.2.1 _ (contentPass_names c items initState it hit hc)))

theorem stCta_growOK (c : InclCtx) (items : List Item) :
    GrowOK (stText c items) (stCta c items) :=
  growOK_foldl _ items _ (fun s it hit hg =>
    ctaStep_growOK c s it
      (fun hc => hg.2.1 _ ((stText_growOK c items).2.1 _
        (contentPass_names c items initState it hit hc))))

theorem stCurr_growOK (c : InclCtx) (items : List Item) :
    GrowOK (stCta c items) (stCurr c items) :=
  growOK_foldl _ _ _ (fun s kv hkv hg => currUnitStep_growOK kv hkv hg)

/-- Names of included records are known from the content pass on. -/
theorem namesVia {c : InclCtx} {items : List Item} {s : TState}
    (hg : GrowOK (stContent c items) s) :
    ∀ it ∈ items, (itemNameOk it && maskOf c it.name) = true →
      it.name.getD "" ∈ s.known_ids :=
  fun it hit hc => hg.2.1 _ (contentPass_names c items initState it hit hc)

theorem stUL_growOK (c : InclCtx) (items : List Item) :
    GrowOK (stCurr c items) (stUL c items) :=
  growOK_foldl _ items _ (fun s it hit hg =>
    unitLessonStep_growOK c it
      (namesVia (growOK_trans (growOK_trans (growOK_trans
        (stText_growOK c items) (stCta_growOK c items))
        (stCurr_growOK c items)) hg) it hit))

theorem stLP_growOK (c : InclCtx) (items : List Item) :
    GrowOK (stUL c items) (stLP c items) :=
  growOK_foldl _ items _ (fun s it hit hg =>
    lessonPageStep_growOK c it
      (namesVia (growOK_trans (growOK_trans (growOK_trans (growOK_trans
        (stText_growOK c items) (stCta_growOK c items))
        (stCurr_growOK c items)) (stUL_growOK c items)) hg) it hit))

theorem stTerm_growOK (c : InclCtx) (items : List Item) :
    GrowOK (stLP c items) (stTerm c items) :=
  growOK_foldl_pair _ _ (stLP c items, [])
    (fun sb kv hkv hg => termStep_growOK c sb kv hkv hg)

/-- Growth from the content pass to the term pass, composed. -/
theorem upToTerm_growOK (c : InclCtx) (items : List Item) :
    GrowOK (stContent c items) (stTerm c items) :=
  growOK_trans (growOK_trans (growOK_trans (growOK_trans (growOK_trans
    (stText_growOK c items) (stCta_growOK c items)) (stCurr_growOK c items))
    (stUL_growOK c items)) (stLP_growOK c items)) (stTerm_growOK c items)

theorem stNPA_growOK (c : InclCtx) (base' : String) (items : List Item) :
    GrowOK (stTerm c items) (stNPA c base' items) :=
  growOK_foldl _ items _ (fun s it hit hg =>
    nonPageAssetStep_growOK c base' it
      (namesVia (growOK_trans (upToTerm_growOK c items) hg) it hit))

theorem stPA_growOK (c : InclCtx) (base' : String) (items : List Item) :
    GrowOK (stNPA c base' items) (stPA c base' items) :=
  growOK_foldl _ _ _ (fun s kv hkv hg =>
    pageAssetStep_growOK c base' kv
      (hg.1 ((growOK_trans (upToTerm_growOK c items)
        (stNPA_growOK c base' items)).1
          (contentPass_invFK c items initState_invFK)))
      (hg.2.2.2.2.2.1.symm ▸ hkv))

theorem stAns_growOK (c : InclCtx) (base' : String) (items : List Item) :
    GrowOK (stPA c base' items) (stAns c base' items) :=
  growOK_foldl _ items _ (fun s it hit hg =>
    answersStep_growOK c c.items_index (ansIdxOf c items) it
      (namesVia (growOK_trans (growOK_trans (upToTerm_growOK c items)
        (growOK_trans (stNPA_growOK c base' items)
          (stPA_growOK c base' items))) hg) it hit))

theorem stAns_invFK (c : InclCtx) (base' : String) (items : List Item) :
    InvFK (stAns c base' items) :=
  (growOK_trans (growOK_trans (upToTerm_growOK c items)
    (growOK_trans (stNPA_growOK c base' items) (stPA_growOK c base' items)))
    (stAns_growOK c base' items)).1
      (contentPass_invFK c items initState_invFK)

theorem stEnrich_growOK (oracle : String → Option JVal) (c : InclCtx)
    (base' : String) (items : List Item) :
    GrowOK (stAns c base' items) (stEnrich oracle c base' items) := by
  unfold stEnrich enrichPass
  refine growOK_foldl _ _ _ ?_
  intro s aid haid hg
  refine enrichStep_growOK oracle _ aid ?_
  have h1 := mem_sortStr haid
  rcases mem_urlAssets _ [] h1 with hc | ⟨r, hr, he⟩
  · simp at hc
  · exact hg.2.2.1 _ (he ▸ (stAns_invFK c base' items).cttFK r hr)

theorem stEnrich_invFK (oracle : String → Option JVal) (c : InclCtx)
    (base' : String) (items : List Item) :
    InvFK (stEnrich oracle c base' items) :=
  (stEnrich_growOK oracle c base' items).1 (stAns_invFK c base' items)

theorem transformFull_invFK (oracle : String → Option JVal) (lla : Bool)
    (base : Option String) (items : List Item) :
    InvFK (transformFull oracle lla base items) := by
  simp only [transformFull]
  exact (dedup_growOK _).1
    (stEnrich_invFK oracle (inclPass items) (resolvedBase items base) items)

-- ==================== C1: foreign keys resolve ====================

/-- C1: for every input record list, every foreign-key identifier appearing
in the output (`content_cms_id` in a text or attribute row, `parent_cms_id`
and `child_cms_id` in an edge row) equals the `cms_id` of some row of the
output content table. -/
theorem claim_C1_foreign_keys (oracle : String → Option JVal) (lla : Bool)
    (base : Option String) (items : List Item) :
    (∀ r ∈ (transform oracle lla base items).content_to_text,
       r.content_cms_id ∈
         (transform oracle lla base items).content.map ContentRow.cms_id) ∧
    (∀ r ∈ (transform oracle lla base items).content_to_content,
       r.parent_cms_id ∈
         (transform oracle lla base items).content.map ContentRow.cms_id ∧
       r.child_cms_id ∈
         (transform oracle lla base items).content.map ContentRow.cms_id) ∧
    (∀ r ∈ (transform oracle lla base items).content_to_attribute,
       r.content_cms_id ∈
         (transform oracle lla base items).content.map ContentRow.cms_id) := by
  have h := transformFull_invFK oracle lla base items
  exact ⟨h.cttFK, h.ctcFK, h.ctaFK⟩

/-- Witness for C1 at a concrete run: the edge `c → u` of the example input
refers to registered content rows. -/
theorem claim_C1_foreign_keys_witness :
    ("c" : String) ∈ (transform oracleNone true none
      [itCurr, itUnit, itLessonImg]).content.map ContentRow.cms_id ∧
    ("u" : String) ∈ (transform oracleNone true none
      [itCurr, itUnit, itLessonImg]).content.map ContentRow.cms_id :=
  (claim_C1_foreign_keys oracleNone true none
    [itCurr, itUnit, itLessonImg]).2.1 ⟨"c", "u", none, 0⟩ (by decide)

-- ==================== C2 machinery: uniqueness ====================

/-- The names of the records that the content pass registers, in order. -/
def includedNames (c : InclCtx) (items : List Item) : List String :=
  items.filterMap
    (fun it => if itemNameOk it && maskOf c it.name then
      some (it.name.getD "") else none)

/-- The names of the truthy-named input records, in order. -/
def truthyNames (items : List Item) : List String :=
  items.filterMap
    (fun it => if itemNameOk it then some (it.name.getD "") else none)

theorem contentStep_ids (c : InclCtx) (st : TState) (it : Item) :
    idsOf (contentStep c st it) = idsOf st ++
      (if (itemNameOk it && maskOf c it.name) = true
       then [it.name.getD ""] else []) := by
  simp only [contentStep]
  split
  case isTrue hc =>
    split
    · simp [idsOf, hc]
    · split
      · simp [idsOf, hc]
      · split
        · simp [idsOf, hc]
        · split
          · simp [idsOf, hc]
          · split
            · simp [idsOf, hc]
            · simp [idsOf, hc]
  case isFalse hc =>
    have hcf : (itemNameOk it && maskOf c it.name) = false := by simpa using hc
    simp [hcf]

theorem contentStep_known_iff (c : InclCtx) (st : TState) (it : Item)
    (x : String) :
    x ∈ (contentStep c st it).known_ids ↔ x ∈ st.known_ids ∨
      x ∈ (if (itemNameOk it && maskOf c it.name) = true
           then [it.name.getD ""] else []) := by
  simp only [contentStep]
  split
  case isTrue hc =>
    have base : x ∈ setAdd st.known_ids (it.name.getD "") ↔
        x ∈ st.known_ids ∨ x ∈ [it.name.getD ""] := by
      rw [mem_setAdd_iff]
      simp
    split
    · simpa [hc] using base
    · split
      · simpa [hc] using base
      · split
        · simpa [hc] using base
        · split
          · simpa [hc] using base
          · split
            · simpa [hc] using base
            · simpa [hc] using base
  case isFalse hc =>
    have hcf : (itemNameOk it && maskOf c it.name) = false := by simpa using hc
    simp [hcf]

theorem includedNames_cons (c : InclCtx) (it : Item) (rest : List Item) :
    includedNames c (it :: rest) =
      (if (itemNameOk it && maskOf c it.name) = true
       then [it.name.getD ""] else []) ++ includedNames c rest := by
  simp only [includedNames, List.filterMap_cons]
  by_cases hc : (itemNameOk it && maskOf c it.name) = true
  · rw [if_pos hc, if_pos hc]
    rfl
  · rw [if_neg hc, if_neg hc]
    rfl

theorem truthyNames_cons (it : Item) (rest : List Item) :
    truthyNames (it :: rest) =
      (if itemNameOk it = true then [it.name.getD ""] else []) ++
        truthyNames rest := by
  simp only [truthyNames, List.filterMap_cons]
  by_cases hc : itemNameOk it = true
  · rw [if_pos hc, if_pos hc]
    rfl
  · rw [if_neg hc, if_neg hc]
    rfl

theorem contentPass_ids (c : InclCtx) :
    ∀ (l : List Item) (st : TState),
      idsOf (l.foldl (contentStep c) st) = idsOf st ++ includedNames c l := by
  intro l
  induction l with
  | nil => intro st; simp [includedNames]
  | cons it rest ih =>
    intro st
    simp only [List.foldl_cons]
    rw [ih, contentStep_ids, includedNames_cons, List.append_assoc]

theorem contentPass_known_iff (c : InclCtx) :
    ∀ (l : List Item) (st : TState) (x : String),
      x ∈ (l.foldl (contentStep c) st).known_ids ↔
        x ∈ st.known_ids ∨ x ∈ includedNames c l := by
  intro l
  induction l with
  | nil => intro st x; simp [includedNames]
  | cons it rest ih =>
    intro st x
    simp only [List.foldl_cons]
    rw [ih, contentStep_known_iff, includedNames_cons]
    constructor
    · rintro ((h | h) | h)
      · exact Or.inl h
      · exact Or.inr (List.mem_append_left _ h)
      · exact Or.inr (List.mem_append_right _ h)
    · rintro (h | h)
      · exact Or.inl (Or.inl h)
      · rcases List.mem_append.mp h with h2 | h2
        · exact Or.inl (Or.inr h2)
        · exact Or.inr h2

theorem includedNames_sublist_truthy (c : InclCtx) (items : List Item) :
    (includedNames c items).Sublist (truthyNames items) := by
  induction items with
  | nil => simp [includedNames, truthyNames]
  | cons it rest ih =>
    rw [includedNames_cons, truthyNames_cons]
    by_cases hok : itemNameOk it = true
    · by_cases hm : maskOf c it.name = true
      · have hc : (itemNameOk it && maskOf c it.name) = true := by
          simp [hok, hm]
        rw [if_pos hc, if_pos hok]
        exact List.Sublist.cons₂ _ ih
      · have hcf : ¬ (itemNameOk it && maskOf c it.name) = true := by
          simp [hok]
          simpa using hm
        rw [if_neg hcf, if_pos hok]
        simpa using List.Sublist.cons _ ih
    · have hcf : ¬ (itemNameOk it && maskOf c it.name) = true := by
        intro h
        exact hok ((Bool.and_eq_true _ _).mp h).1
      rw [if_neg hcf, if_neg hok]
      simpa using ih

theorem stContent_invUniq (c : InclCtx) (items : List Item)
    (h : (includedNames c items).Nodup) : InvUniq (stContent c items) := by
  constructor
  · rw [stContent, contentPass_ids]
    simpa [initState, idsOf] using h
  · intro x hx
    rw [stContent, contentPass_known_iff]
    rw [stContent, contentPass_ids] at hx
    simp only [initState, idsOf] at hx ⊢
    right
    simpa using hx

/-- Growth from the content pass all the way to the enrichment pass. -/
theorem upToEnrich_growOK (oracle : String → Option JVal) (c : InclCtx)
    (base' : String) (items : List Item) :
    GrowOK (stContent c items) (stEnrich oracle c base' items) :=
  growOK_trans (upToTerm_growOK c items)
    (growOK_trans (stNPA_growOK c base' items)
      (growOK_trans (stPA_growOK c base' items)
        (growOK_trans (stAns_growOK c base' items)
          (stEnrich_growOK oracle c base' items))))

-- ==================== C2: uniqueness of cms_id (amended) ====================

/-- C2 (amended): provided no two truthy-named input records share a name,
`cms_id` is unique in the output content table; and every included record is
indeed registered.  (The unamended claim is refuted by
`claim_C2_counterexample`: a repeated input name is registered once per
record carrying it.) -/
theorem claim_C2_amended (oracle : String → Option JVal) (lla : Bool)
    (base : Option String) (items : List Item)
    (h : (truthyNames items).Nodup) :
    ((transform oracle lla base items).content.map ContentRow.cms_id).Nodup ∧
    (∀ it ∈ items,
      (itemNameOk it && maskOf (inclPass items) it.name) = true →
      it.name.getD "" ∈
        (transform oracle lla base items).content.map ContentRow.cms_id) := by
  have hinc : (includedNames (inclPass items) items).Nodup :=
    List.Nodup.sublist (includedNames_sublist_truthy (inclPass items) items) h
  have h0 : InvUniq (stContent (inclPass items) items) :=
    stContent_invUniq (inclPass items) items hinc
  have hg := upToEnrich_growOK oracle (inclPass items)
    (resolvedBase items base) items
  constructor
  · have h1 : InvUniq (stEnrich oracle (inclPass items)
        (resolvedBase items base) items) := hg.2.2.2.2.2.2.2 h0
    exact (((dedup_growOK _).2.2.2.2.2.2.2 h1).1 :)
  · intro it hit hc
    have hknown : it.name.getD "" ∈
        (stContent (inclPass items) items).known_ids :=
      contentPass_names (inclPass items) items initState it hit hc
    have hid : it.name.getD "" ∈ idsOf (stContent (inclPass items) items) :=
      (contentPass_invFK (inclPass items) items initState_invFK).known _ hknown
    exact hg.2.2.1 _ hid

/-- Witness for C2 (amended) at a concrete distinct-name input. -/
theorem claim_C2_amended_witness :
    ((transform oracleNone true none
      [itCurr, itUnit, itLessonImg]).content.map ContentRow.cms_id).Nodup :=
  (claim_C2_amended oracleNone true none [itCurr, itUnit, itLessonImg]
    (by decide)).1

-- ==================== Emission characterization (C3/C4/C5) ====================

/-- The block of edges emitted for one occurrence of an asset: one edge per
role, consecutive `child_index` values from `start`. -/
def edgeBlock (pid aid : String) : List (Option Nat) → Nat → List CtcRow
  | [], _ => []
  | r :: rest, start => ⟨pid, aid, r, start⟩ :: edgeBlock pid aid rest (start + 1)

/-- All edges emitted by one parent's emission loop, with running indices. -/
def edgeBlocks (pid : String) (dr : List (Option Nat))
    (roles : List (String × List (Option Nat))) :
    List String → Nat → List CtcRow
  | [], _ => []
  | aid :: rest, start =>
    edgeBlock pid aid (sortRolesDesc ((lookupA roles aid).getD dr)) start ++
      edgeBlocks pid dr roles rest
        (start + (edgeBlock pid aid (sortRolesDesc ((lookupA roles aid).getD dr)) start).length)

theorem edgeBlock_length (pid aid : String) (roles : List (Option Nat)) :
    ∀ start, (edgeBlock pid aid roles start).length = roles.length := by
  induction roles with
  | nil => intro start; rfl
  | cons r rest ih => intro start; simp [edgeBlock, ih]

theorem emit_inner_spec (pid aid : String) (roles : List (Option Nat)) :
    ∀ (st : TState),
      roles.foldl (fun st role =>
        { st with ctc := st.ctc ++ [⟨pid, aid, role, st.ctc.length⟩] }) st =
      { st with ctc := st.ctc ++ edgeBlock pid aid roles st.ctc.length } := by
  induction roles with
  | nil => intro st; simp [edgeBlock]
  | cons r rest ih =>
    intro st
    simp only [List.foldl_cons, edgeBlock]
    rw [ih]
    congr 1
    simp

theorem emitAssetEdges_spec (pid : String) (dr : List (Option Nat))
    (pp : PerParent) (st : TState) :
    emitAssetEdges pid dr pp st =
      { st with ctc := st.ctc ++
          edgeBlocks pid dr pp.roles pp.order st.ctc.length } := by
  unfold emitAssetEdges
  obtain ⟨order, roles⟩ := pp
  induction order generalizing st with
  | nil => simp [edgeBlocks]
  | cons aid rest ih =>
    simp only [List.foldl_cons, edgeBlocks]
    rw [emit_inner_spec, ih]
    congr 1
    simp

theorem edgeBlock_indices (pid aid : String) (roles : List (Option Nat)) :
    ∀ start, (edgeBlock pid aid roles start).map CtcRow.child_index =
      List.range' start roles.length := by
  induction roles with
  | nil => intro start; rfl
  | cons r rest ih =>
    intro start
    simp only [edgeBlock, List.map_cons, List.range']
    rw [ih]

theorem range'_append_one (m : Nat) :
    ∀ (s n : Nat), List.range' s m ++ List.range' (s + m) n =
      List.range' s (m + n) := by
  induction m with
  | zero => intro s n; simp
  | succ k ih =>
    intro s n
    have h1 : List.range' s (k + 1) = s :: List.range' (s + 1) k := by
      simp [List.range'_succ]
    have h2 : List.range' s (k + 1 + n) = s :: List.range' (s + 1) (k + n) := by
      have : k + 1 + n = (k + n) + 1 := by omega
      rw [this]
      simp [List.range'_succ]
    rw [h1, h2]
    have h3 : s + (k + 1) = (s + 1) + k := by omega
    rw [List.cons_append, h3, ih (s + 1) n]

theorem edgeBlocks_indices (pid : String) (dr : List (Option Nat))
    (roles : List (String × List (Option Nat))) :
    ∀ (order : List String) (start : Nat),
      (edgeBlocks pid dr roles order start).map CtcRow.child_index =
        List.range' start (edgeBlocks pid dr roles order start).length := by
  intro order
  induction order with
  | nil => intro start; rfl
  | cons aid rest ih =>
    intro start
    simp only [edgeBlocks, List.map_append, List.length_append]
    rw [edgeBlock_indices, ih,
      ← edgeBlock_length pid aid (sortRolesDesc ((lookupA roles aid).getD dr)) start]
    exact range'_append_one _ _ _

/-- C5 (amended): in the asset edge-emission passes, each emitted row's
`child_index` equals the length of the WHOLE accumulated edge table at the
moment the row is appended (`'child_index': len(ctc)`), so one parent's
block of edges carries the consecutive indices
`len(ctc), len(ctc)+1, …` — a counter that keeps increasing across parents
and across the two asset passes, not a per-parent ordinal restarting at 0.
(The per-scope `idx` counters of the reference/term/answer passes are a
separate mechanism; the claim's cited emission sites are the asset ones.) -/
theorem claim_C5_amended (pid : String) (dr : List (Option Nat))
    (pp : PerParent) (st : TState) :
    (emitAssetEdges pid dr pp st).ctc =
      st.ctc ++ edgeBlocks pid dr pp.roles pp.order st.ctc.length ∧
    (edgeBlocks pid dr pp.roles pp.order st.ctc.length).map CtcRow.child_index =
      List.range' st.ctc.length
        (edgeBlocks pid dr pp.roles pp.order st.ctc.length).length :=
  ⟨by rw [emitAssetEdges_spec], edgeBlocks_indices pid dr pp.roles pp.order st.ctc.length⟩

-- ==================== C3 machinery: labels of an emission block ====================

theorem edgeBlock_labels (pid aid : String) (roles : List (Option Nat)) :
    ∀ start, (edgeBlock pid aid roles start).map CtcRow.child_content_label_id =
      roles := by
  induction roles with
  | nil => intro start; rfl
  | cons r rest ih => intro start; simp [edgeBlock, ih]

theorem edgeBlock_filter_self (pid a : String) (roles : List (Option Nat)) :
    ∀ start, (edgeBlock pid a roles start).filter
        (fun e => e.child_cms_id == a) = edgeBlock pid a roles start := by
  induction roles with
  | nil => intro start; rfl
  | cons r rest ih => intro start; simp [edgeBlock, List.filter_cons, ih]

theorem edgeBlock_filter_other (pid a aid : String) (hne : a ≠ aid)
    (roles : List (Option Nat)) :
    ∀ start, (edgeBlock pid a roles start).filter
        (fun e => e.child_cms_id == aid) = [] := by
  induction roles with
  | nil => intro start; rfl
  | cons r rest ih => intro start; simp [edgeBlock, List.filter_cons, hne, ih]

theorem edgeBlocks_filter_labels (pid : String) (dr : List (Option Nat))
    (roles : List (String × List (Option Nat))) (aid : String) :
    ∀ (order : List String) (start : Nat),
      ((edgeBlocks pid dr roles order start).filter
          (fun e => e.child_cms_id == aid)).map CtcRow.child_content_label_id =
        (List.replicate (order.count aid)
          (sortRolesDesc ((lookupA roles aid).getD dr))).flatten := by
  intro order
  induction order with
  | nil => intro start; simp [edgeBlocks]
  | cons a rest ih =>
    intro start
    simp only [edgeBlocks, List.filter_append, List.map_append]
    by_cases h : a = aid
    · subst h
      rw [edgeBlock_filter_self, edgeBlock_labels, ih, List.count_cons_self,
        List.replicate_succ, List.flatten_cons]
    · rw [edgeBlock_filter_other pid a aid h, ih,
        List.count_cons_of_ne (fun hc => h hc.symm)]
      rfl

-- ==================== C3 machinery: the role sort ====================

theorem sortRolesInsert_perm (r : Option Nat) :
    ∀ l, List.Perm (sortRolesInsert r l) (r :: l) := by
  intro l
  induction l with
  | nil => exact List.Perm.refl _
  | cons x xs ih =>
    simp only [sortRolesInsert]
    split
    · exact List.Perm.refl _
    · exact (List.Perm.cons x ih).trans (List.Perm.swap r x xs)

theorem sortRolesDesc_perm (rs : List (Option Nat)) :
    List.Perm (sortRolesDesc rs) rs := by
  induction rs with
  | nil => exact List.Perm.refl _
  | cons r rest ih =>
    exact (sortRolesInsert_perm r _).trans (List.Perm.cons r ih)

theorem sortRolesDesc_nodup {rs : List (Option Nat)} (h : rs.Nodup) :
    (sortRolesDesc rs).Nodup := ((sortRolesDesc_perm rs).nodup_iff).mpr h

theorem sortRolesInsert_sorted (r : Option Nat) :
    ∀ {l : List (Option Nat)},
      l.Pairwise (fun a b => ROLE_PRIORITY b ≤ ROLE_PRIORITY a) →
      (sortRolesInsert r l).Pairwise
        (fun a b => ROLE_PRIORITY b ≤ ROLE_PRIORITY a) := by
  intro l
  induction l with
  | nil => intro _; exact List.pairwise_singleton _ _
  | cons x xs ih =>
    intro h
    simp only [sortRolesInsert]
    split
    · rename_i hge
      refine List.Pairwise.cons ?_ h
      intro b hb
      rcases List.mem_cons.mp hb with rfl | hb
      · exact hge
      · exact le_trans (List.rel_of_pairwise_cons h hb) hge
    · rename_i hlt
      push_neg at hlt
      have hx := List.pairwise_cons.mp h
      refine List.Pairwise.cons ?_ (ih hx.2)
      intro b hb
      have hbm : b = r ∨ b ∈ xs := by
        have := (sortRolesInsert_perm r xs).mem_iff.mp hb
        simpa using this
      rcases hbm with rfl | hbxs
      · exact le_of_lt hlt
      · exact hx.1 b hbxs

theorem sortRolesDesc_sorted (rs : List (Option Nat)) :
    (sortRolesDesc rs).Pairwise
      (fun a b => ROLE_PRIORITY b ≤ ROLE_PRIORITY a) := by
  induction rs with
  | nil => exact List.Pairwise.nil
  | cons r rest ih => exact sortRolesInsert_sorted r ih

-- ==================== C3 machinery: role sets stay duplicate-free ====================

/-- The per-parent role buckets are genuine sets (no duplicate role). -/
def RolesNodup (pp : PerParent) : Prop := ∀ p ∈ pp.roles, p.2.Nodup

theorem roleAdd_nodup {rs : List (Option Nat)} {r : Option Nat}
    (h : rs.Nodup) : (roleAdd rs r).Nodup := by
  unfold roleAdd
  split
  · exact h
  · rename_i hmem
    exact List.Nodup.append h (List.nodup_singleton r)
      (fun a ha hb => hmem (List.mem_singleton.mp hb ▸ ha))

theorem recordRoles_rolesNodup {pp : PerParent} (aid : String)
    (role : Option Nat) (h : RolesNodup pp) :
    RolesNodup (recordRoles aid role pp) := by
  intro p hp
  simp only [recordRoles] at hp
  split at hp
  · rcases List.mem_map.mp hp with ⟨q, hq, hqe⟩
    by_cases hqa : q.1 = aid
    · rw [if_pos hqa] at hqe
      rw [← hqe]
      exact roleAdd_nodup (h q hq)
    · rw [if_neg hqa] at hqe
      rw [← hqe]
      exact h q hq
  · rcases List.mem_append.mp hp with hp | hp
    · exact h p hp
    · rw [List.mem_singleton.mp hp]
      exact List.nodup_singleton role

theorem record_asset_rolesNodup {stpp : TState × PerParent}
    (base : String) (aid : String) (url : JVal) (role : Option Nat)
    (h : RolesNodup stpp.2) :
    RolesNodup (_record_asset base stpp.1 stpp.2 aid url role).2 :=
  recordRoles_rolesNodup aid role h

theorem scanGenericImage_rolesNodup (base : String)
    (pdata : List (String × JVal)) {stpp : TState × PerParent}
    (h : RolesNodup stpp.2) :
    RolesNodup (scanGenericImage base pdata stpp).2 := by
  unfold scanGenericImage
  split
  · split
    · split
      · split
        · exact record_asset_rolesNodup base _ _ _ h
        · exact h
      · exact h
    · exact h
  · exact h

theorem scanImageKeys_rolesNodup (base : String)
    (pdata : List (String × JVal)) {stpp : TState × PerParent}
    (h : RolesNodup stpp.2) :
    RolesNodup (scanImageKeys base pdata stpp).2 := by
  unfold scanImageKeys
  refine @foldl_induct _ _ (fun (sb : TState × PerParent) => RolesNodup sb.2) _ _ _ h ?_
  intro sb key _ hsb
  dsimp only
  split
  · split
    · split
      · split
        · exact record_asset_rolesNodup base _ _ _ hsb
        · exact hsb
      · exact hsb
    · exact hsb
  · exact hsb

theorem scanImagesList_rolesNodup (base : String)
    (pdata : List (String × JVal)) {stpp : TState × PerParent}
    (h : RolesNodup stpp.2) :
    RolesNodup (scanImagesList base pdata stpp).2 := by
  unfold scanImagesList
  split
  · refine @foldl_induct _ _ (fun (sb : TState × PerParent) => RolesNodup sb.2) _ _ _ h ?_
    intro sb v _ hsb
    dsimp only
    split
    · split
      · split
        · exact record_asset_rolesNodup base _ _ _ hsb
        · exact hsb
      · exact hsb
    · exact hsb
  · exact h

theorem scanParentImages_rolesNodup (base : String)
    (pdata : List (String × JVal)) {stpp : TState × PerParent}
    (h : RolesNodup stpp.2) :
    RolesNodup (scanParentImages base pdata stpp).2 :=
  scanImagesList_rolesNodup base pdata
    (scanImageKeys_rolesNodup base pdata
      (scanGenericImage_rolesNodup base pdata h))

-- ==================== C3 machinery: label replay ====================

/-- The roles recorded for `aid`, in recording order, read off the ghost
role trace. -/
def rolesOf (trace : List (String × Option Nat)) (aid : String) :
    List (Option Nat) :=
  trace.filterMap (fun p => if p.1 = aid then some p.2 else none)

/-- First row carrying `aid` (structural form of `next(... if ...)`). -/
def findRow (aid : String) : List ContentRow → Option ContentRow
  | [] => none
  | r :: rest => if r.cms_id = aid then some r else findRow aid rest

/-- The label of the LAST content row carrying `aid` (the row that
`content_index[aid]` aliases). -/
def lastLabelOf (content : List ContentRow) (aid : String) :
    Option (Option Nat) :=
  (findRow aid content.reverse).map ContentRow.content_label_id

/-- The "highest priority wins, ties favor the earlier role" fold. -/
def bestRole (cur : Option Nat) : List (Option Nat) → Option Nat
  | [] => cur
  | r :: rest =>
    bestRole (if ROLE_PRIORITY r > ROLE_PRIORITY cur then r else cur) rest

/-- One label-upgrade step (the final stage of `_record_asset` on the
current label value). -/
def applyLab (cur role : Option Nat) : Option Nat :=
  if cur = none ∨ ROLE_PRIORITY role > ROLE_PRIORITY cur then
    (if role ≠ none then role else cur)
  else cur

/-- First element of a role list satisfying `p`. -/
def firstWith (p : Option Nat → Bool) : List (Option Nat) → Option (Option Nat)
  | [] => none
  | r :: rest => if p r then some r else firstWith p rest

theorem rolesOf_append_other {b aid : String} (hne : b ≠ aid)
    (tr : List (String × Option Nat)) (r : Option Nat) :
    rolesOf (tr ++ [(b, r)]) aid = rolesOf tr aid := by
  simp [rolesOf, List.filterMap_append, hne]

theorem rolesOf_append_self (aid : String)
    (tr : List (String × Option Nat)) (r : Option Nat) :
    rolesOf (tr ++ [(aid, r)]) aid = rolesOf tr aid ++ [r] := by
  simp [rolesOf, List.filterMap_append]

theorem rolesOf_isSome {tr : List (String × Option Nat)}
    (h : ∀ p ∈ tr, p.2.isSome) {aid : String} :
    ∀ r ∈ rolesOf tr aid, r.isSome := by
  intro r hr
  rcases List.mem_filterMap.mp hr with ⟨p, hp, hpe⟩
  by_cases hc : p.1 = aid
  · rw [if_pos hc] at hpe
    cases hpe
    exact h p hp
  · rw [if_neg hc] at hpe
    cases hpe

theorem lastLabelOf_append_other {row : ContentRow} {aid : String}
    (hne : row.cms_id ≠ aid) (c : List ContentRow) :
    lastLabelOf (c ++ [row]) aid = lastLabelOf c aid := by
  unfold lastLabelOf
  rw [List.reverse_append]
  simp [findRow, hne]

theorem lastLabelOf_append_self {row : ContentRow} {aid : String}
    (heq : row.cms_id = aid) (c : List ContentRow) :
    lastLabelOf (c ++ [row]) aid = some row.content_label_id := by
  unfold lastLabelOf
  rw [List.reverse_append]
  simp [findRow, heq]

theorem upgradeRow_cms (role : Option Nat) (row : ContentRow) :
    (upgradeRow role row).cms_id = row.cms_id := by
  unfold upgradeRow
  split
  · split <;> rfl
  · rfl

theorem upgradeRow_label (role : Option Nat) (row : ContentRow) :
    (upgradeRow role row).content_label_id =
      applyLab row.content_label_id role := by
  unfold upgradeRow applyLab
  by_cases h1 : row.content_label_id = none ∨
      ROLE_PRIORITY role > ROLE_PRIORITY row.content_label_id
  · rw [if_pos h1, if_pos h1]
    by_cases h2 : role ≠ none
    · rw [if_pos h2, if_pos h2]
    · rw [if_neg h2, if_neg h2]
  · rw [if_neg h1, if_neg h1]

theorem findRow_upgrade_self (aid : String) (role : Option Nat) :
    ∀ l, findRow aid (upgradeFirstLabel l aid role) =
      (findRow aid l).map (upgradeRow role) := by
  intro l
  induction l with
  | nil => rfl
  | cons row rest ih =>
    simp only [upgradeFirstLabel]
    by_cases hc : row.cms_id = aid
    · rw [if_pos hc]
      simp [findRow, upgradeRow_cms, hc]
    · rw [if_neg hc]
      simp [findRow, hc, ih]

theorem findRow_upgrade_other {a aid : String} (hne : a ≠ aid)
    (role : Option Nat) :
    ∀ l, findRow aid (upgradeFirstLabel l a role) = findRow aid l := by
  intro l
  induction l with
  | nil => rfl
  | cons row rest ih =>
    simp only [upgradeFirstLabel]
    by_cases hc : row.cms_id = a
    · rw [if_pos hc]
      have h1 : (upgradeRow role row).cms_id ≠ aid := by
        rw [upgradeRow_cms, hc]; exact hne
      have h2 : row.cms_id ≠ aid := by rw [hc]; exact hne
      simp [findRow, h1, h2]
    · rw [if_neg hc]
      by_cases hd : row.cms_id = aid
      · simp [findRow, hd]
      · simp [findRow, hd, ih]

theorem lastLabelOf_update_self (c : List ContentRow) (aid : String)
    (role : Option Nat) :
    lastLabelOf (content_index_update c aid role) aid =
      (lastLabelOf c aid).map (fun lab => applyLab lab role) := by
  unfold lastLabelOf content_index_update
  rw [List.reverse_reverse, findRow_upgrade_self]
  cases findRow aid c.reverse with
  | none => rfl
  | some row => simp [upgradeRow_label]

theorem lastLabelOf_update_other {a aid : String} (hne : a ≠ aid)
    (c : List ContentRow) (role : Option Nat) :
    lastLabelOf (content_index_update c a role) aid = lastLabelOf c aid := by
  unfold lastLabelOf content_index_update
  rw [List.reverse_reverse, findRow_upgrade_other hne]

theorem bestRole_snoc (l : List (Option Nat)) :
    ∀ (cur r : Option Nat),
      bestRole cur (l ++ [r]) =
        if ROLE_PRIORITY r > ROLE_PRIORITY (bestRole cur l) then r
        else bestRole cur l := by
  induction l with
  | nil => intro cur r; rfl
  | cons x xs ih =>
    intro cur r
    simp only [List.cons_append, bestRole]
    exact ih _ r

theorem bestRole_ge (l : List (Option Nat)) :
    ∀ cur, ROLE_PRIORITY cur ≤ ROLE_PRIORITY (bestRole cur l) := by
  induction l with
  | nil => intro cur; exact le_refl _
  | cons r rest ih =>
    intro cur
    simp only [bestRole]
    by_cases h : ROLE_PRIORITY r > ROLE_PRIORITY cur
    · rw [if_pos h]
      exact le_trans (le_of_lt h) (ih r)
    · rw [if_neg h]
      exact ih cur

theorem bestRole_ge_mem (l : List (Option Nat)) :
    ∀ cur, ∀ r ∈ l, ROLE_PRIORITY r ≤ ROLE_PRIORITY (bestRole cur l) := by
  induction l with
  | nil => intro cur r hr; cases hr
  | cons x xs ih =>
    intro cur r hr
    simp only [bestRole]
    rcases List.mem_cons.mp hr with rfl | hr
    · by_cases h : ROLE_PRIORITY r > ROLE_PRIORITY cur
      · rw [if_pos h]; exact bestRole_ge xs r
      · rw [if_neg h]
        exact le_trans (le_of_not_lt h) (bestRole_ge xs cur)
    · split
      · exact ih x r hr
      · exact ih cur r hr

theorem bestRole_mem (l : List (Option Nat)) :
    ∀ cur, bestRole cur l = cur ∨ bestRole cur l ∈ l := by
  induction l with
  | nil => intro cur; exact Or.inl rfl
  | cons r rest ih =>
    intro cur
    simp only [bestRole]
    split
    · rcases ih r with h | h
      · exact Or.inr (by rw [h]; exact List.mem_cons_self r rest)
      · exact Or.inr (List.mem_cons_of_mem r h)
    · rcases ih cur with h | h
      · exact Or.inl h
      · exact Or.inr (List.mem_cons_of_mem r h)

theorem bestRole_isSome (l : List (Option Nat)) :
    ∀ {cur}, cur.isSome → (bestRole cur l).isSome := by
  induction l with
  | nil => intro cur h; exact h
  | cons r rest ih =>
    intro cur h
    simp only [bestRole]
    by_cases hc : ROLE_PRIORITY r > ROLE_PRIORITY cur
    · rw [if_pos hc]
      refine ih ?_
      cases r with
      | none => simp [ROLE_PRIORITY] at hc
      | some x => rfl
    · rw [if_neg hc]
      exact ih h

theorem applyLab_none {role : Option Nat} (hr : role.isSome) :
    applyLab none role = role := by
  unfold applyLab
  rw [if_pos (Or.inl rfl)]
  cases role with
  | none => cases hr
  | some x => rfl

theorem applyLab_some {cur role : Option Nat} (hc : cur.isSome)
    (hr : role.isSome) :
    applyLab cur role =
      if ROLE_PRIORITY role > ROLE_PRIORITY cur then role else cur := by
  unfold applyLab
  cases cur with
  | none => cases hc
  | some c =>
    cases role with
    | none => cases hr
    | some r =>
      by_cases h : ROLE_PRIORITY (some r) > ROLE_PRIORITY (some c)
      · rw [if_pos (Or.inr h), if_pos h, if_pos (by simp)]
      · rw [if_neg ?_, if_neg h]
        rintro (h1 | h2)
        · cases h1
        · exact h h2

theorem firstWith_cons (p : Option Nat → Bool) (x : Option Nat)
    (l : List (Option Nat)) :
    firstWith p (x :: l) = if p x then some x else firstWith p l := rfl

theorem firstWith_best (l : List (Option Nat)) :
    ∀ cur, firstWith
        (fun r => decide (ROLE_PRIORITY (bestRole cur l) ≤ ROLE_PRIORITY r))
        (cur :: l) = some (bestRole cur l) := by
  induction l with
  | nil =>
    intro cur
    simp [firstWith, bestRole]
  | cons r rest ih =>
    intro cur
    simp only [bestRole]
    by_cases h : ROLE_PRIORITY r > ROLE_PRIORITY cur
    · simp only [if_pos h]
      have hb := bestRole_ge rest r
      have hcur : ¬ ROLE_PRIORITY (bestRole r rest) ≤ ROLE_PRIORITY cur := by
        omega
      rw [firstWith_cons, if_neg (by simpa using hcur)]
      exact ih r
    · simp only [if_neg h]
      have hihc := ih cur
      rw [firstWith_cons] at hihc
      rw [firstWith_cons]
      by_cases hc : ROLE_PRIORITY (bestRole cur rest) ≤ ROLE_PRIORITY cur
      · rw [if_pos (by simpa using hc)] at hihc
        rw [if_pos (by simpa using hc)]
        exact hihc
      · rw [if_neg (by simpa using hc)] at hihc
        rw [if_neg (by simpa using hc)]
        have hr : ¬ ROLE_PRIORITY (bestRole cur rest) ≤ ROLE_PRIORITY r := by
          push_neg at h
          omega
        rw [firstWith_cons, if_neg (by simpa using hr)]
        exact hihc

-- ==================== C3 machinery: the label invariant ====================

/-- All ghost-traced roles are concrete label ids (every recording site of
the scans passes `404` or an `IMAGE_ROLE_LABEL` value). -/
def TraceSome (st : TState) : Prop := ∀ p ∈ st.roleTrace, p.2.isSome

/-- The label invariant for one asset id: before any role is recorded the id
is absent from the registry and the known set; afterwards the id is known
and the LAST content row carrying it holds the replayed best role. -/
def LabInv (aid : String) (st : TState) : Prop :=
  TraceSome st ∧
  (rolesOf st.roleTrace aid = [] → aid ∉ idsOf st ∧ aid ∉ st.known_ids) ∧
  (∀ r1 rest, rolesOf st.roleTrace aid = r1 :: rest →
     aid ∈ st.known_ids ∧ lastLabelOf st.content aid = some (bestRole r1 rest))

theorem labInv_congr {aid : String} {s s' : TState}
    (hc : s'.content = s.content) (hk : s'.known_ids = s.known_ids)
    (ht : s'.roleTrace = s.roleTrace) (h : LabInv aid s) : LabInv aid s' := by
  unfold LabInv TraceSome idsOf at h ⊢
  rw [hc, hk, ht]
  exact h

theorem labInv_register_other {aid b : String} (hne : b ≠ aid) {s : TState}
    (h : LabInv aid s) : LabInv aid (recordRegister b s) := by
  unfold recordRegister
  split
  · exact h
  · obtain ⟨hts, h1, h2⟩ := h
    refine ⟨hts, ?_, ?_⟩
    · intro he
      obtain ⟨hi, hk⟩ := h1 he
      constructor
      · intro hmem
        simp only [idsOf, List.map_append, List.mem_append] at hmem
        rcases hmem with hm | hm
        · exact hi hm
        · simp at hm
          exact hne hm.symm
      · intro hmem
        rcases mem_setAdd_iff.mp hmem with hm | hm
        · exact hk hm
        · exact hne hm.symm
    · intro r1 rest hr
      obtain ⟨hk, hl⟩ := h2 r1 rest hr
      refine ⟨mem_setAdd_of_mem _ hk, ?_⟩
      rw [lastLabelOf_append_other
        (show (⟨b, 1, some typeAsset, none⟩ : ContentRow).cms_id ≠ aid from hne)]
      exact hl

theorem midStages_proj (b n ext : String) (url : JVal) (s : TState) :
    (recordExtHint b ext (recordUrlMap b n url (recordUrlRow b n s))).content
        = s.content ∧
    (recordExtHint b ext (recordUrlMap b n url (recordUrlRow b n s))).known_ids
        = s.known_ids ∧
    (recordExtHint b ext (recordUrlMap b n url (recordUrlRow b n s))).roleTrace
        = s.roleTrace := by
  unfold recordExtHint recordUrlMap recordUrlRow
  split <;> split <;> exact ⟨rfl, rfl, rfl⟩

theorem recordRegister_roleTrace (b : String) (s : TState) :
    (recordRegister b s).roleTrace = s.roleTrace := by
  unfold recordRegister
  split <;> rfl

theorem labInv_recordLabel_other {aid b : String} (hne : b ≠ aid)
    (role : Option Nat) (hrole : role.isSome) {s : TState}
    (h : LabInv aid s) : LabInv aid (recordLabel b role s) := by
  obtain ⟨hts, h1, h2⟩ := h
  refine ⟨?_, ?_, ?_⟩
  · intro p hp
    rcases List.mem_append.mp hp with hm | hm
    · exact hts p hm
    · rw [List.mem_singleton.mp hm]
      exact hrole
  · intro he
    rw [show (recordLabel b role s).roleTrace = s.roleTrace ++ [(b, role)]
        from rfl, rolesOf_append_other hne] at he
    obtain ⟨hi, hk⟩ := h1 he
    refine ⟨?_, hk⟩
    intro hmem
    apply hi
    simp only [idsOf] at hmem ⊢
    rw [show (recordLabel b role s).content =
        content_index_update s.content b role from rfl,
      content_index_update_map_cms] at hmem
    exact hmem
  · intro r1 rest hr
    rw [show (recordLabel b role s).roleTrace = s.roleTrace ++ [(b, role)]
        from rfl, rolesOf_append_other hne] at hr
    obtain ⟨hk, hl⟩ := h2 r1 rest hr
    refine ⟨hk, ?_⟩
    rw [show (recordLabel b role s).content =
        content_index_update s.content b role from rfl,
      lastLabelOf_update_other hne]
    exact hl

theorem labInv_record {aid : String} (base : String) {st : TState}
    (pp : PerParent) (b : String) (url : JVal) {role : Option Nat}
    (hrole : role.isSome) (h : LabInv aid st) :
    LabInv aid (_record_asset base st pp b url role).1 := by
  have hm := midStages_proj b (pyStr (normalizeJ url (some base)))
    (derive_asset_ext (pyStr url)) url (recordRegister b st)
  by_cases hba : b = aid
  case neg =>
    exact labInv_recordLabel_other hba role hrole
      (labInv_congr hm.1 hm.2.1 hm.2.2 (labInv_register_other hba h))
  case pos =>
    subst hba
    obtain ⟨hts, h1, h2⟩ := h
    have hFc : (_record_asset base st pp b url role).1.content =
        content_index_update (recordRegister b st).content b role := by
      show (content_index_update (recordExtHint b (derive_asset_ext (pyStr url))
        (recordUrlMap b (pyStr (normalizeJ url (some base))) url
          (recordUrlRow b (pyStr (normalizeJ url (some base)))
            (recordRegister b st)))).content b role) = _
      rw [hm.1]
    have hFk : (_record_asset base st pp b url role).1.known_ids =
        (recordRegister b st).known_ids := hm.2.1
    have hFt : (_record_asset base st pp b url role).1.roleTrace =
        st.roleTrace ++ [(b, role)] := by
      show ((recordExtHint b (derive_asset_ext (pyStr url))
        (recordUrlMap b (pyStr (normalizeJ url (some base))) url
          (recordUrlRow b (pyStr (normalizeJ url (some base)))
            (recordRegister b st)))).roleTrace ++ [(b, role)]) = _
      rw [hm.2.2, recordRegister_roleTrace]
    refine ⟨?_, ?_, ?_⟩
    · intro p hp
      rw [hFt] at hp
      rcases List.mem_append.mp hp with hm' | hm'
      · exact hts p hm'
      · rw [List.mem_singleton.mp hm']
        exact hrole
    · intro he
      rw [hFt, rolesOf_append_self] at he
      simp at he
    · intro r1 rest hr
      rw [hFt, rolesOf_append_self] at hr
      cases hcase : rolesOf st.roleTrace b with
      | nil =>
        obtain ⟨hi, hk⟩ := h1 hcase
        have hreg : recordRegister b st =
            { st with content := st.content ++ [⟨b, 1, some typeAsset, none⟩],
                      known_ids := setAdd st.known_ids b } := by
          unfold recordRegister
          rw [if_neg hk]
        rw [hcase, List.nil_append] at hr
        injection hr with he1 he2
        constructor
        · rw [hFk, hreg]
          exact mem_setAdd_self _ _
        · rw [hFc, hreg, ← he1, ← he2]
          rw [lastLabelOf_update_self,
            lastLabelOf_append_self (show (⟨b, 1, some typeAsset, none⟩ :
              ContentRow).cms_id = b from rfl)]
          show some (applyLab none role) = _
          rw [applyLab_none hrole]
          rfl
      | cons r1' rest' =>
        obtain ⟨hk2, hl⟩ := h2 r1' rest' hcase
        have hreg : recordRegister b st = st := by
          unfold recordRegister
          rw [if_pos hk2]
        rw [hcase, List.cons_append] at hr
        injection hr with he1 he2
        have hr1some : r1'.isSome :=
          rolesOf_isSome hts r1' (by rw [hcase]; exact List.mem_cons_self _ _)
        constructor
        · rw [hFk, hreg]
          exact hk2
        · rw [hFc, hreg, ← he1, ← he2, lastLabelOf_update_self, hl]
          show some (applyLab (bestRole r1' rest') role) = _
          rw [applyLab_some (bestRole_isSome rest' hr1some) hrole,
            ← bestRole_snoc]

theorem image_role_label_some :
    ∀ k ∈ IMAGE_URL_KEYS, (IMAGE_ROLE_LABEL k).isSome = true := by decide

theorem labInv_scanGenericImage {aid : String} (base : String)
    (pdata : List (String × JVal)) {stpp : TState × PerParent}
    (h : LabInv aid stpp.1) : LabInv aid (scanGenericImage base pdata stpp).1 := by
  unfold scanGenericImage
  split
  · split
    · split
      · split
        · exact labInv_record base _ _ _ rfl h
        · exact h
      · exact h
    · exact h
  · exact h

theorem labInv_scanImageKeys {aid : String} (base : String)
    (pdata : List (String × JVal)) {stpp : TState × PerParent}
    (h : LabInv aid stpp.1) : LabInv aid (scanImageKeys base pdata stpp).1 := by
  unfold scanImageKeys
  refine @foldl_induct _ _ (fun (sb : TState × PerParent) => LabInv aid sb.1)
    _ _ _ h ?_
  intro sb key hkey hsb
  dsimp only
  split
  · split
    · split
      · split
        · exact labInv_record base _ _ _ (image_role_label_some key hkey) hsb
        · exact hsb
      · exact hsb
    · exact hsb
  · exact hsb

theorem labInv_scanImagesList {aid : String} (base : String)
    (pdata : List (String × JVal)) {stpp : TState × PerParent}
    (h : LabInv aid stpp.1) : LabInv aid (scanImagesList base pdata stpp).1 := by
  unfold scanImagesList
  split
  · refine @foldl_induct _ _ (fun (sb : TState × PerParent) => LabInv aid sb.1)
      _ _ _ h ?_
    intro sb v _ hsb
    dsimp only
    split
    · split
      · split
        · exact labInv_record base _ _ _ rfl hsb
        · exact hsb
      · exact hsb
    · exact hsb
  · exact h

theorem labInv_scanParentImages {aid : String} (base : String)
    (pdata : List (String × JVal)) {stpp : TState × PerParent}
    (h : LabInv aid stpp.1) :
    LabInv aid (scanParentImages base pdata stpp).1 :=
  labInv_scanImagesList base pdata
    (labInv_scanImageKeys base pdata (labInv_scanGenericImage base pdata h))

theorem labInv_emit {aid pid : String} (dr : List (Option Nat))
    (pp : PerParent) {st : TState} (h : LabInv aid st) :
    LabInv aid (emitAssetEdges pid dr pp st) := by
  refine labInv_congr ?_ ?_ ?_ h <;> rw [emitAssetEdges_spec]

theorem labInv_nonPageAssetStep {aid : String} (c : InclCtx) (base : String)
    {st : TState} (it : Item) (h : LabInv aid st) :
    LabInv aid (nonPageAssetStep c base st it) := by
  unfold nonPageAssetStep
  split
  · dsimp only
    split
    · exact h
    · exact labInv_emit _ _ (labInv_scanParentImages base _ h)
  · exact h

theorem labInv_pageAssetStep {aid : String} (c : InclCtx) (base : String)
    {st : TState} (kv : String × Item) (h : LabInv aid st) :
    LabInv aid (pageAssetStep c base st kv) := by
  unfold pageAssetStep
  split
  · exact labInv_emit _ _ (labInv_scanParentImages base _ h)
  · exact h

-- ==================== C3 machinery: quiet passes ====================

/-- A fold whose every step leaves the registry, known-id set and role trace
unchanged leaves them unchanged. -/
theorem proj_foldl {α : Type} (f : TState → α → TState) (l : List α)
    (s0 : TState)
    (h : ∀ s a, a ∈ l → (f s a).content = s.content ∧
      (f s a).known_ids = s.known_ids ∧ (f s a).roleTrace = s.roleTrace) :
    (l.foldl f s0).content = s0.content ∧
    (l.foldl f s0).known_ids = s0.known_ids ∧
    (l.foldl f s0).roleTrace = s0.roleTrace := by
  refine @foldl_induct _ _ (fun s => s.content = s0.content ∧
    s.known_ids = s0.known_ids ∧ s.roleTrace = s0.roleTrace) f l s0
    ⟨rfl, rfl, rfl⟩ ?_
  intro s a ha hs
  obtain ⟨h1, h2, h3⟩ := h s a ha
  exact ⟨h1.trans hs.1, h2.trans hs.2.1, h3.trans hs.2.2⟩

theorem proj_foldl_pair {α β : Type} (f : TState × β → α → TState × β)
    (l : List α) (sb0 : TState × β)
    (h : ∀ sb a, a ∈ l → (f sb a).1.content = sb.1.content ∧
      (f sb a).1.known_ids = sb.1.known_ids ∧
      (f sb a).1.roleTrace = sb.1.roleTrace) :
    (l.foldl f sb0).1.content = sb0.1.content ∧
    (l.foldl f sb0).1.known_ids = sb0.1.known_ids ∧
    (l.foldl f sb0).1.roleTrace = sb0.1.roleTrace := by
  refine @foldl_induct _ _ (fun (sb : TState × β) => sb.1.content = sb0.1.content ∧
    sb.1.known_ids = sb0.1.known_ids ∧ sb.1.roleTrace = sb0.1.roleTrace) f l sb0
    ⟨rfl, rfl, rfl⟩ ?_
  intro sb a ha hs
  obtain ⟨h1, h2, h3⟩ := h sb a ha
  exact ⟨h1.trans hs.1, h2.trans hs.2.1, h3.trans hs.2.2⟩

theorem textStep_proj (c : InclCtx) (st : TState) (it : Item) :
    (textStep c st it).content = st.content ∧
    (textStep c st it).known_ids = st.known_ids ∧
    (textStep c st it).roleTrace = st.roleTrace := by
  unfold textStep
  split
  · dsimp only
    refine @foldl_induct _ _ (fun (s' : TState) => s'.content = st.content ∧
      s'.known_ids = st.known_ids ∧ s'.roleTrace = st.roleTrace) _ _ _ ?_ ?_
    · refine proj_foldl _ _ _ ?_
      intro s kv _
      dsimp only
      split
      · split <;> exact ⟨rfl, rfl, rfl⟩
      · exact ⟨rfl, rfl, rfl⟩
    · intro s kv _ hs
      dsimp only
      split
      · split <;> exact hs
      · exact hs
  · exact ⟨rfl, rfl, rfl⟩

theorem ctaCatBlock_proj (name : String) (data : List (String × JVal))
    (st : TState) :
    (ctaCatBlock name data st).content = st.content ∧
    (ctaCatBlock name data st).known_ids = st.known_ids ∧
    (ctaCatBlock name data st).roleTrace = st.roleTrace := by
  unfold ctaCatBlock
  split
  · refine proj_foldl _ _ _ ?_
    intro s cv _
    dsimp only
    split <;> exact ⟨rfl, rfl, rfl⟩
  · exact ⟨rfl, rfl, rfl⟩

theorem ctaCadBlock_proj (name : String) (data : List (String × JVal))
    (st : TState) :
    (ctaCadBlock name data st).content = st.content ∧
    (ctaCadBlock name data st).known_ids = st.known_ids ∧
    (ctaCadBlock name data st).roleTrace = st.roleTrace := by
  unfold ctaCadBlock
  split
  · split
    · split <;> exact ⟨rfl, rfl, rfl⟩
    · exact ⟨rfl, rfl, rfl⟩
  · exact ⟨rfl, rfl, rfl⟩

theorem ctaTagBlock_proj (name : String) (data : List (String × JVal))
    (st : TState) :
    (ctaTagBlock name data st).content = st.content ∧
    (ctaTagBlock name data st).known_ids = st.known_ids ∧
    (ctaTagBlock name data st).roleTrace = st.roleTrace := by
  unfold ctaTagBlock
  split
  · refine proj_foldl _ _ _ ?_
    intro s tv _
    dsimp only
    split <;> exact ⟨rfl, rfl, rfl⟩
  · exact ⟨rfl, rfl, rfl⟩

theorem ctaStep_proj (c : InclCtx) (st : TState) (it : Item) :
    (ctaStep c st it).content = st.content ∧
    (ctaStep c st it).known_ids = st.known_ids ∧
    (ctaStep c st it).roleTrace = st.roleTrace := by
  unfold ctaStep
  split
  · dsimp only
    have h1 := ctaCatBlock_proj (it.name.getD "") it.data st
    have h2 := ctaCadBlock_proj (it.name.getD "") it.data
      (ctaCatBlock (it.name.getD "") it.data st)
    have h3 := ctaTagBlock_proj (it.name.getD "") it.data
      (ctaCadBlock (it.name.getD "") it.data
        (ctaCatBlock (it.name.getD "") it.data st))
    exact ⟨h3.1.trans (h2.1.trans h1.1),
      h3.2.1.trans (h2.2.1.trans h1.2.1),
      h3.2.2.trans (h2.2.2.trans h1.2.2)⟩
  · exact ⟨rfl, rfl, rfl⟩

theorem currUnitStep_proj (st : TState) (kv : String × Item) :
    (currUnitStep st kv).content = st.content ∧
    (currUnitStep st kv).known_ids = st.known_ids ∧
    (currUnitStep st kv).roleTrace = st.roleTrace := by
  unfold currUnitStep
  dsimp only
  split
  · refine proj_foldl _ _ _ ?_
    intro s p _
    dsimp only
    split
    · split <;> exact ⟨rfl, rfl, rfl⟩
    · exact ⟨rfl, rfl, rfl⟩
  · refine proj_foldl_pair _ _ _ ?_
    intro sb ukv _
    dsimp only
    split <;> exact ⟨rfl, rfl, rfl⟩

theorem unitLessonStep_proj (c : InclCtx) (st : TState) (it : Item) :
    (unitLessonStep c st it).content = st.content ∧
    (unitLessonStep c st it).known_ids = st.known_ids ∧
    (unitLessonStep c st it).roleTrace = st.roleTrace := by
  unfold unitLessonStep
  split
  · dsimp only
    split
    · refine proj_foldl _ _ _ ?_
      intro s p _
      dsimp only
      split
      · split <;> exact ⟨rfl, rfl, rfl⟩
      · exact ⟨rfl, rfl, rfl⟩
    · exact ⟨rfl, rfl, rfl⟩
  · exact ⟨rfl, rfl, rfl⟩

theorem lessonPageStep_proj (c : InclCtx) (st : TState) (it : Item) :
    (lessonPageStep c st it).content = st.content ∧
    (lessonPageStep c st it).known_ids = st.known_ids ∧
    (lessonPageStep c st it).roleTrace = st.roleTrace := by
  unfold lessonPageStep
  split
  · dsimp only
    split
    · refine proj_foldl _ _ _ ?_
      intro s p _
      dsimp only
      repeat' split
      all_goals exact ⟨rfl, rfl, rfl⟩
    · exact ⟨rfl, rfl, rfl⟩
  · exact ⟨rfl, rfl, rfl⟩

theorem termStep_proj (c : InclCtx) (acc : TState × List (String × Nat))
    (kv : String × Item) :
    (termStep c acc kv).1.content = acc.1.content ∧
    (termStep c acc kv).1.known_ids = acc.1.known_ids ∧
    (termStep c acc kv).1.roleTrace = acc.1.roleTrace := by
  unfold termStep
  split
  · exact ⟨rfl, rfl, rfl⟩
  · refine proj_foldl_pair _ _ _ ?_
    intro sb ref _
    dsimp only
    repeat' split
    all_goals exact ⟨rfl, rfl, rfl⟩

theorem contentStep_roleTrace (c : InclCtx) (st : TState) (it : Item) :
    (contentStep c st it).roleTrace = st.roleTrace := by
  unfold contentStep
  split
  · dsimp only
    repeat' split
    all_goals rfl
  · rfl

theorem stContent_roleTrace (c : InclCtx) (items : List Item) :
    (stContent c items).roleTrace = [] := by
  unfold stContent
  refine @foldl_induct _ _ (fun (s : TState) => s.roleTrace = []) _ _ _ rfl ?_
  intro s it _ hs
  rw [contentStep_roleTrace]
  exact hs

theorem stTerm_proj (c : InclCtx) (items : List Item) :
    (stTerm c items).content = (stContent c items).content ∧
    (stTerm c items).known_ids = (stContent c items).known_ids ∧
    (stTerm c items).roleTrace = (stContent c items).roleTrace := by
  have h1 : (stText c items).content = (stContent c items).content ∧
      (stText c items).known_ids = (stContent c items).known_ids ∧
      (stText c items).roleTrace = (stContent c items).roleTrace := by
    unfold stText
    exact proj_foldl _ _ _ (fun s it _ => textStep_proj c s it)
  have h2 : (stCta c items).content = (stText c items).content ∧
      (stCta c items).known_ids = (stText c items).known_ids ∧
      (stCta c items).roleTrace = (stText c items).roleTrace := by
    unfold stCta
    exact proj_foldl _ _ _ (fun s it _ => ctaStep_proj c s it)
  have h3 : (stCurr c items).content = (stCta c items).content ∧
      (stCurr c items).known_ids = (stCta c items).known_ids ∧
      (stCurr c items).roleTrace = (stCta c items).roleTrace := by
    unfold stCurr
    exact proj_foldl _ _ _ (fun s kv _ => currUnitStep_proj s kv)
  have h4 : (stUL c items).content = (stCurr c items).content ∧
      (stUL c items).known_ids = (stCurr c items).known_ids ∧
      (stUL c items).roleTrace = (stCurr c items).roleTrace := by
    unfold stUL
    exact proj_foldl _ _ _ (fun s it _ => unitLessonStep_proj c s it)
  have h5 : (stLP c items).content = (stUL c items).content ∧
      (stLP c items).known_ids = (stUL c items).known_ids ∧
      (stLP c items).roleTrace = (stUL c items).roleTrace := by
    unfold stLP
    exact proj_foldl _ _ _ (fun s it _ => lessonPageStep_proj c s it)
  have h6 : (stTerm c items).content = (stLP c items).content ∧
      (stTerm c items).known_ids = (stLP c items).known_ids ∧
      (stTerm c items).roleTrace = (stLP c items).roleTrace := by
    unfold stTerm
    exact proj_foldl_pair _ _ _ (fun sb kv _ => termStep_proj c sb kv)
  exact ⟨h6.1.trans (h5.1.trans (h4.1.trans (h3.1.trans (h2.1.trans h1.1)))),
    h6.2.1.trans (h5.2.1.trans (h4.2.1.trans (h3.2.1.trans
      (h2.2.1.trans h1.2.1)))),
    h6.2.2.trans (h5.2.2.trans (h4.2.2.trans (h3.2.2.trans
      (h2.2.2.trans h1.2.2))))⟩

theorem labInv_stTerm (c : InclCtx) (items : List Item) {aid : String}
    (h : aid ∉ includedNames c items) : LabInv aid (stTerm c items) := by
  have hp := stTerm_proj c items
  have htr : (stTerm c items).roleTrace = [] :=
    hp.2.2.trans (stContent_roleTrace c items)
  refine ⟨?_, ?_, ?_⟩
  · intro p hpm
    rw [htr] at hpm
    cases hpm
  · intro _
    constructor
    · intro hmem
      apply h
      unfold idsOf at hmem
      rw [hp.1] at hmem
      have : aid ∈ idsOf (stContent c items) := hmem
      rw [stContent, contentPass_ids] at this
      simpa [initState, idsOf] using this
    · intro hmem
      apply h
      rw [hp.2.1] at hmem
      rw [stContent, contentPass_known_iff] at hmem
      rcases hmem with hm | hm
      · simp [initState] at hm
      · exact hm
  · intro r1 rest hr
    rw [htr] at hr
    simp [rolesOf] at hr

theorem labInv_stPA (c : InclCtx) (base' : String) (items : List Item)
    {aid : String} (h : aid ∉ includedNames c items) :
    LabInv aid (stPA c base' items) := by
  have h1 : LabInv aid (stNPA c base' items) := by
    unfold stNPA
    refine @foldl_induct _ _ (fun (s : TState) => LabInv aid s) _ _ _
      (labInv_stTerm c items h) ?_
    intro s it _ hs
    exact labInv_nonPageAssetStep c base' it hs
  unfold stPA
  refine @foldl_induct _ _ (fun (s : TState) => LabInv aid s) _ _ _ h1 ?_
  intro s kv _ hs
  exact labInv_pageAssetStep c base' kv hs

/-- The label half of the invariant alone (enough once the role trace is
complete: the passes after the asset scans never record a role). -/
def WLabel (aid : String) (st : TState) : Prop :=
  ∀ r1 rest, rolesOf st.roleTrace aid = r1 :: rest →
    aid ∈ st.known_ids ∧ lastLabelOf st.content aid = some (bestRole r1 rest)

theorem wLabel_congr {aid : String} {s s' : TState}
    (hc : s'.content = s.content) (hk : s'.known_ids = s.known_ids)
    (ht : s'.roleTrace = s.roleTrace) (h : WLabel aid s) : WLabel aid s' := by
  unfold WLabel at h ⊢
  rw [hc, hk, ht]
  exact h

theorem wLabel_ensure {aid : String} (ansId : String) {s : TState}
    (h : WLabel aid s) : WLabel aid (_ensure_answer_content s ansId) := by
  unfold _ensure_answer_content
  split
  · rename_i hcond
    intro r1 rest hr
    obtain ⟨hk, hl⟩ := h r1 rest hr
    have hne : ansId ≠ aid := fun he => hcond.2 (he ▸ hk)
    refine ⟨mem_setAdd_of_mem _ hk, ?_⟩
    show lastLabelOf (s.content ++ [⟨ansId, 1, some typeAnswer, none⟩]) aid = _
    rw [lastLabelOf_append_other
      (show (⟨ansId, 1, some typeAnswer, none⟩ : ContentRow).cms_id ≠ aid
        from hne)]
    exact hl
  · exact h

theorem wLabel_potBlock {aid : String} (qid : String)
    (data : List (String × JVal)) {s : TState} (h : WLabel aid s) :
    WLabel aid (answersPotBlock qid data s) := by
  unfold answersPotBlock
  split
  · split
    · refine @foldl_induct _ _ (fun (sb : TState × Nat) => WLabel aid sb.1)
        _ _ _ h ?_
      intro sb ref _ hsb
      dsimp only
      split
      · exact hsb
      · exact wLabel_ensure _ hsb
    · exact h
  · exact h

theorem wLabel_corrBlock {aid : String} (qid : String)
    (data : List (String × JVal)) (itemsIndex : List (String × Item))
    (ansIdx : List (String × String)) {s : TState} (h : WLabel aid s) :
    WLabel aid (answersCorrBlock qid data itemsIndex ansIdx s) := by
  unfold answersCorrBlock
  split
  · split
    · refine @foldl_induct _ _ (fun (sb : TState × Nat) => WLabel aid sb.1)
        _ _ _ h ?_
      intro sb ref _ hsb
      dsimp only
      split
      · exact hsb
      · split
        · exact wLabel_ensure _ hsb
        · exact wLabel_ensure _ hsb
    · exact h
  · exact h

theorem wLabel_answersStep {aid : String} (c : InclCtx)
    (itemsIndex : List (String × Item)) (ansIdx : List (String × String))
    {s : TState} (it : Item) (h : WLabel aid s) :
    WLabel aid (answersStep c itemsIndex ansIdx s it) := by
  unfold answersStep
  split
  · dsimp only
    split
    · exact wLabel_corrBlock _ _ _ _ (wLabel_potBlock _ _ h)
    · exact h
  · exact h

theorem enrichFetch_proj (oracle : String → Option JVal)
    (base : Option String) (aid : String) (st : TState) :
    (enrichFetch oracle base aid st).1.content = st.content ∧
    (enrichFetch oracle base aid st).1.known_ids = st.known_ids ∧
    (enrichFetch oracle base aid st).1.roleTrace = st.roleTrace := by
  unfold enrichFetch
  dsimp only
  repeat' split
  all_goals exact ⟨rfl, rfl, rfl⟩

theorem enrichAppend_proj (aid : String) (existing : List Nat)
    (meta : Option AssetMeta) (st : TState) :
    (enrichAppend aid existing meta st).content = st.content ∧
    (enrichAppend aid existing meta st).known_ids = st.known_ids ∧
    (enrichAppend aid existing meta st).roleTrace = st.roleTrace := by
  unfold enrichAppend
  dsimp only
  repeat' split
  all_goals exact ⟨rfl, rfl, rfl⟩

theorem enrichFor_proj (oracle : String → Option JVal) (base : Option String)
    (st : TState) (aid : String) :
    (_enrich_asset_ctt_rows_for oracle base st aid).content = st.content ∧
    (_enrich_asset_ctt_rows_for oracle base st aid).known_ids = st.known_ids ∧
    (_enrich_asset_ctt_rows_for oracle base st aid).roleTrace = st.roleTrace := by
  unfold _enrich_asset_ctt_rows_for
  split
  · exact ⟨rfl, rfl, rfl⟩
  · dsimp only
    split
    · exact ⟨rfl, rfl, rfl⟩
    · have hf := enrichFetch_proj oracle base aid st
      have ha := enrichAppend_proj aid (existingTypesFor aid st.ctt)
        (enrichFetch oracle base aid st).2 (enrichFetch oracle base aid st).1
      exact ⟨ha.1.trans hf.1, ha.2.1.trans hf.2.1, ha.2.2.trans hf.2.2⟩

theorem enrichPass_proj (oracle : String → Option JVal) (base : Option String)
    (st : TState) :
    (enrichPass oracle base st).content = st.content ∧
    (enrichPass oracle base st).known_ids = st.known_ids ∧
    (enrichPass oracle base st).roleTrace = st.roleTrace := by
  unfold enrichPass
  exact proj_foldl _ _ _ (fun s aid _ => enrichFor_proj oracle base s aid)

theorem wLabel_transformFull (oracle : String → Option JVal) (lla : Bool)
    (base_url : Option String) (items : List Item) {aid : String}
    (h : aid ∉ includedNames (inclPass items) items) :
    WLabel aid (transformFull oracle lla base_url items) := by
  have hPA := labInv_stPA (inclPass items) (resolvedBase items base_url) items h
  have hAns : WLabel aid (stAns (inclPass items)
      (resolvedBase items base_url) items) := by
    unfold stAns
    refine @foldl_induct _ _ (fun (s : TState) => WLabel aid s) _ _ _
      hPA.2.2 ?_
    intro s it _ hs
    exact wLabel_answersStep _ _ _ it hs
  have hEn : WLabel aid (stEnrich oracle (inclPass items)
      (resolvedBase items base_url) items) := by
    unfold stEnrich
    have hp := enrichPass_proj oracle (some (resolvedBase items base_url))
      (stAns (inclPass items) (resolvedBase items base_url) items)
    exact wLabel_congr hp.1 hp.2.1 hp.2.2 hAns
  exact wLabel_congr rfl rfl rfl hEn

/-- C3 (amended): the emission loop iterates the ENCOUNTER ORDER, which
records one entry per reference occurrence, and emits the parent's full
distinct-role set each time; so an asset referenced K times under one parent
with N distinct roles yields K·N edges from that parent (K blocks, each
listing the N distinct roles sorted by strictly descending fixed priority) —
exactly N only when K = 1.  The label half of the claim is right: role sets
stay duplicate-free, each emitted block is the duplicate-free role set in
descending priority, and (for an id the content pass did not register) the
asset's final `content_label_id` is the highest-priority role seen across
ALL parents, ties favoring the first role seen. -/
theorem claim_C3_amended :
    (∀ (pid : String) (dr : List (Option Nat)) (pp : PerParent) (st : TState)
       (aid : String),
       (emitAssetEdges pid dr pp st).ctc =
         st.ctc ++ edgeBlocks pid dr pp.roles pp.order st.ctc.length ∧
       ((edgeBlocks pid dr pp.roles pp.order st.ctc.length).filter
           (fun e => e.child_cms_id == aid)).map CtcRow.child_content_label_id =
         (List.replicate (pp.order.count aid)
           (sortRolesDesc ((lookupA pp.roles aid).getD dr))).flatten) ∧
    (∀ rs : List (Option Nat),
       (sortRolesDesc rs).Pairwise
         (fun a b => ROLE_PRIORITY b ≤ ROLE_PRIORITY a) ∧
       (rs.Nodup → (sortRolesDesc rs).Nodup)) ∧
    (∀ (base : String) (pdata : List (String × JVal))
       (stpp : TState × PerParent),
       RolesNodup stpp.2 → RolesNodup (scanParentImages base pdata stpp).2) ∧
    (∀ (oracle : String → Option JVal) (lla : Bool)
       (base_url : Option String) (items : List Item) (aid : String)
       (r1 : Option Nat) (rest : List (Option Nat)),
       aid ∉ includedNames (inclPass items) items →
       rolesOf (transformFull oracle lla base_url items).roleTrace aid =
         r1 :: rest →
       lastLabelOf (transformFull oracle lla base_url items).content aid =
         some (bestRole r1 rest) ∧
       (bestRole r1 rest = r1 ∨ bestRole r1 rest ∈ rest) ∧
       (∀ r ∈ r1 :: rest,
         ROLE_PRIORITY r ≤ ROLE_PRIORITY (bestRole r1 rest)) ∧
       firstWith
         (fun r => decide (ROLE_PRIORITY (bestRole r1 rest) ≤ ROLE_PRIORITY r))
         (r1 :: rest) = some (bestRole r1 rest)) := by
  refine ⟨?_, ?_, ?_, ?_⟩
  · intro pid dr pp st aid
    exact ⟨by rw [emitAssetEdges_spec],
      edgeBlocks_filter_labels pid dr pp.roles aid pp.order st.ctc.length⟩
  · intro rs
    exact ⟨sortRolesDesc_sorted rs, fun h => sortRolesDesc_nodup h⟩
  · intro base pdata stpp h
    exact scanParentImages_rolesNodup base pdata h
  · intro oracle lla base_url items aid r1 rest hnot htr
    obtain ⟨hk, hl⟩ := wLabel_transformFull oracle lla base_url items hnot
      r1 rest htr
    refine ⟨hl, bestRole_mem rest r1, ?_, firstWith_best rest r1⟩
    intro r hr
    rcases List.mem_cons.mp hr with rfl | hr
    · exact bestRole_ge rest r
    · exact bestRole_ge_mem rest r1 r hr

/-- Witness for C3 (amended): a lesson referencing one asset under
`heroImage` then `icon` — the final label is the higher-priority 404. -/
theorem claim_C3_amended_witness :
    ("u" ∉ includedNames (inclPass [itLessonTwoRoles]) [itLessonTwoRoles] ∧
     rolesOf (transformFull oracleNone true none
        [itLessonTwoRoles]).roleTrace "u" = [some 404, some 401]) ∧
    lastLabelOf (transformFull oracleNone true none
        [itLessonTwoRoles]).content "u" =
      some (bestRole (some 404) [some 401]) ∧
    bestRole (some 404) [some 401] = some 404 :=
  ⟨⟨by decide, by rfl⟩,
   (claim_C3_amended.2.2.2 oracleNone true none [itLessonTwoRoles] "u"
      (some 404) [some 401] (by decide) (by rfl)).1,
   by rfl⟩

-- ==================== C6 machinery: the memoized fetch ====================

theorem lookupA_append_other {β : Type} {a k : String} (hne : k ≠ a) (v : β) :
    ∀ (m : List (String × β)), lookupA (m ++ [(k, v)]) a = lookupA m a := by
  intro m
  induction m with
  | nil => simp [lookupA, hne]
  | cons p rest ih =>
    obtain ⟨pk, pv⟩ := p
    simp only [List.cons_append, lookupA]
    by_cases hp : pk = a
    · rw [if_pos hp, if_pos hp]
    · rw [if_neg hp, if_neg hp]
      exact ih

theorem lookupA_dictSet_self {β : Type} (k : String) (v : β) :
    ∀ (m : List (String × β)), lookupA (dictSet m k v) k = some v := by
  intro m
  unfold dictSet
  split
  · rename_i hs
    induction m with
    | nil => simp [lookupA] at hs
    | cons p rest ih =>
      obtain ⟨pk, pv⟩ := p
      dsimp only [List.map_cons]
      by_cases hp : pk = k
      · rw [if_pos hp]
        simp [lookupA]
      · rw [if_neg hp]
        simp only [lookupA, if_neg hp]
        rw [lookupA, if_neg hp] at hs
        exact ih hs
  · induction m with
    | nil => simp [lookupA]
    | cons p rest ih =>
      rename_i hs
      obtain ⟨pk, pv⟩ := p
      simp only [List.cons_append, lookupA]
      rw [lookupA] at hs
      by_cases hp : pk = k
      · rw [if_pos hp] at hs
        simp at hs
      · rw [if_neg hp] at hs
        rw [if_neg hp]
        exact ih hs

theorem lookupA_dictSet_other {β : Type} {a k : String} (hne : a ≠ k) (v : β) :
    ∀ (m : List (String × β)), lookupA (dictSet m k v) a = lookupA m a := by
  intro m
  unfold dictSet
  split
  · rename_i hs
    clear hs
    induction m with
    | nil => rfl
    | cons p rest ih =>
      obtain ⟨pk, pv⟩ := p
      dsimp only [List.map_cons]
      by_cases hp : pk = k
      · rw [if_pos hp]
        simp only [lookupA, if_neg (Ne.symm hne), if_neg (hp ▸ Ne.symm hne)]
        exact ih
      · rw [if_neg hp]
        simp only [lookupA]
        by_cases hpa : pk = a
        · rw [if_pos hpa, if_pos hpa]
        · rw [if_neg hpa, if_neg hpa]
          exact ih
  · exact lookupA_append_other (Ne.symm hne) v m

/-- A fold whose steps leave the fetch trace and the metadata cache
unchanged leaves them unchanged. -/
theorem quietF_foldl {α : Type} (f : TState → α → TState) (l : List α)
    (s0 : TState)
    (h : ∀ s a, a ∈ l → (f s a).fetchTrace = s.fetchTrace ∧
      (f s a).asset_meta_cache = s.asset_meta_cache) :
    (l.foldl f s0).fetchTrace = s0.fetchTrace ∧
    (l.foldl f s0).asset_meta_cache = s0.asset_meta_cache := by
  refine @foldl_induct _ _ (fun (s : TState) => s.fetchTrace = s0.fetchTrace ∧
    s.asset_meta_cache = s0.asset_meta_cache) f l s0 ⟨rfl, rfl⟩ ?_
  intro s a ha hs
  obtain ⟨h1, h2⟩ := h s a ha
  exact ⟨h1.trans hs.1, h2.trans hs.2⟩

theorem quietF_foldl_pair {α β : Type} (f : TState × β → α → TState × β)
    (l : List α) (sb0 : TState × β)
    (h : ∀ sb a, a ∈ l → (f sb a).1.fetchTrace = sb.1.fetchTrace ∧
      (f sb a).1.asset_meta_cache = sb.1.asset_meta_cache) :
    (l.foldl f sb0).1.fetchTrace = sb0.1.fetchTrace ∧
    (l.foldl f sb0).1.asset_meta_cache = sb0.1.asset_meta_cache := by
  refine @foldl_induct _ _
    (fun (sb : TState × β) => sb.1.fetchTrace = sb0.1.fetchTrace ∧
      sb.1.asset_meta_cache = sb0.1.asset_meta_cache) f l sb0 ⟨rfl, rfl⟩ ?_
  intro sb a ha hs
  obtain ⟨h1, h2⟩ := h sb a ha
  exact ⟨h1.trans hs.1, h2.trans hs.2⟩

theorem contentStep_quietF (c : InclCtx) (st : TState) (it : Item) :
    (contentStep c st it).fetchTrace = st.fetchTrace ∧
    (contentStep c st it).asset_meta_cache = st.asset_meta_cache := by
  unfold contentStep
  split
  · dsimp only
    repeat' split
    all_goals exact ⟨rfl, rfl⟩
  · exact ⟨rfl, rfl⟩

theorem textStep_quietF (c : InclCtx) (st : TState) (it : Item) :
    (textStep c st it).fetchTrace = st.fetchTrace ∧
    (textStep c st it).asset_meta_cache = st.asset_meta_cache := by
  unfold textStep
  split
  · dsimp only
    refine @foldl_induct _ _ (fun (s' : TState) =>
      s'.fetchTrace = st.fetchTrace ∧
      s'.asset_meta_cache = st.asset_meta_cache) _ _ _ ?_ ?_
    · refine quietF_foldl _ _ _ ?_
      intro s kv _
      dsimp only
      repeat' split
      all_goals exact ⟨rfl, rfl⟩
    · intro s kv _ hs
      dsimp only
      repeat' split
      all_goals exact hs
  · exact ⟨rfl, rfl⟩

theorem ctaStep_quietF (c : InclCtx) (st : TState) (it : Item) :
    (ctaStep c st it).fetchTrace = st.fetchTrace ∧
    (ctaStep c st it).asset_meta_cache = st.asset_meta_cache := by
  have hcat : ∀ (n : String) (d : List (String × JVal)) (s : TState),
      (ctaCatBlock n d s).fetchTrace = s.fetchTrace ∧
      (ctaCatBlock n d s).asset_meta_cache = s.asset_meta_cache := by
    intro n d s
    unfold ctaCatBlock
    split
    · refine quietF_foldl _ _ _ ?_
      intro s' cv _
      dsimp only
      repeat' split
      all_goals exact ⟨rfl, rfl⟩
    · exact ⟨rfl, rfl⟩
  have hcad : ∀ (n : String) (d : List (String × JVal)) (s : TState),
      (ctaCadBlock n d s).fetchTrace = s.fetchTrace ∧
      (ctaCadBlock n d s).asset_meta_cache = s.asset_meta_cache := by
    intro n d s
    unfold ctaCadBlock
    repeat' split
    all_goals exact ⟨rfl, rfl⟩
  have htag : ∀ (n : String) (d : List (String × JVal)) (s : TState),
      (ctaTagBlock n d s).fetchTrace = s.fetchTrace ∧
      (ctaTagBlock n d s).asset_meta_cache = s.asset_meta_cache := by
    intro n d s
    unfold ctaTagBlock
    split
    · refine quietF_foldl _ _ _ ?_
      intro s' tv _
      dsimp only
      repeat' split
      all_goals exact ⟨rfl, rfl⟩
    · exact ⟨rfl, rfl⟩
  unfold ctaStep
  split
  · dsimp only
    have h1 := hcat (it.name.getD "") it.data st
    have h2 := hcad (it.name.getD "") it.data
      (ctaCatBlock (it.name.getD "") it.data st)
    have h3 := htag (it.name.getD "") it.data
      (ctaCadBlock (it.name.getD "") it.data
        (ctaCatBlock (it.name.getD "") it.data st))
    exact ⟨h3.1.trans (h2.1.trans h1.1), h3.2.trans (h2.2.trans h1.2)⟩
  · exact ⟨rfl, rfl⟩

theorem currUnitStep_quietF (st : TState) (kv : String × Item) :
    (currUnitStep st kv).fetchTrace = st.fetchTrace ∧
    (currUnitStep st kv).asset_meta_cache = st.asset_meta_cache := by
  unfold currUnitStep
  dsimp only
  split
  · refine quietF_foldl _ _ _ ?_
    intro s p _
    dsimp only
    repeat' split
    all_goals exact ⟨rfl, rfl⟩
  · refine quietF_foldl_pair _ _ _ ?_
    intro sb ukv _
    dsimp only
    repeat' split
    all_goals exact ⟨rfl, rfl⟩

theorem unitLessonStep_quietF (c : InclCtx) (st : TState) (it : Item) :
    (unitLessonStep c st it).fetchTrace = st.fetchTrace ∧
    (unitLessonStep c st it).asset_meta_cache = st.asset_meta_cache := by
  unfold unitLessonStep
  split
  · dsimp only
    split
    · refine quietF_foldl _ _ _ ?_
      intro s p _
      dsimp only
      repeat' split
      all_goals exact ⟨rfl, rfl⟩
    · exact ⟨rfl, rfl⟩
  · exact ⟨rfl, rfl⟩

theorem lessonPageStep_quietF (c : InclCtx) (st : TState) (it : Item) :
    (lessonPageStep c st it).fetchTrace = st.fetchTrace ∧
    (lessonPageStep c st it).asset_meta_cache = st.asset_meta_cache := by
  unfold lessonPageStep
  split
  · dsimp only
    split
    · refine quietF_foldl _ _ _ ?_
      intro s p _
      dsimp only
      repeat' split
      all_goals exact ⟨rfl, rfl⟩
    · exact ⟨rfl, rfl⟩
  · exact ⟨rfl, rfl⟩

theorem termStep_quietF (c : InclCtx) (acc : TState × List (String × Nat))
    (kv : String × Item) :
    (termStep c acc kv).1.fetchTrace = acc.1.fetchTrace ∧
    (termStep c acc kv).1.asset_meta_cache = acc.1.asset_meta_cache := by
  unfold termStep
  split
  · exact ⟨rfl, rfl⟩
  · refine quietF_foldl_pair _ _ _ ?_
    intro sb ref _
    dsimp only
    repeat' split
    all_goals exact ⟨rfl, rfl⟩

theorem record_asset_quietF (base : String) (st : TState) (pp : PerParent)
    (aid : String) (url : JVal) (role : Option Nat) :
    (_record_asset base st pp aid url role).1.fetchTrace = st.fetchTrace ∧
    (_record_asset base st pp aid url role).1.asset_meta_cache =
      st.asset_meta_cache := by
  unfold _record_asset recordLabel recordExtHint recordUrlMap recordUrlRow
    recordRegister
  dsimp only
  repeat' split
  all_goals exact ⟨rfl, rfl⟩

theorem scanParentImages_quietF (base : String)
    (pdata : List (String × JVal)) (stpp : TState × PerParent) :
    (scanParentImages base pdata stpp).1.fetchTrace = stpp.1.fetchTrace ∧
    (scanParentImages base pdata stpp).1.asset_meta_cache =
      stpp.1.asset_meta_cache := by
  have hgen : ∀ (sb : TState × PerParent),
      (scanGenericImage base pdata sb).1.fetchTrace = sb.1.fetchTrace ∧
      (scanGenericImage base pdata sb).1.asset_meta_cache =
        sb.1.asset_meta_cache := by
    intro sb
    unfold scanGenericImage
    repeat' split
    all_goals first
      | exact ⟨rfl, rfl⟩
      | exact record_asset_quietF base sb.1 sb.2 _ _ _
  have hkeys : ∀ (sb : TState × PerParent),
      (scanImageKeys base pdata sb).1.fetchTrace = sb.1.fetchTrace ∧
      (scanImageKeys base pdata sb).1.asset_meta_cache =
        sb.1.asset_meta_cache := by
    intro sb
    unfold scanImageKeys
    refine quietF_foldl_pair _ _ _ ?_
    intro sb' key _
    dsimp only
    repeat' split
    all_goals first
      | exact ⟨rfl, rfl⟩
      | exact record_asset_quietF base sb'.1 sb'.2 _ _ _
  have hlist : ∀ (sb : TState × PerParent),
      (scanImagesList base pdata sb).1.fetchTrace = sb.1.fetchTrace ∧
      (scanImagesList base pdata sb).1.asset_meta_cache =
        sb.1.asset_meta_cache := by
    intro sb
    unfold scanImagesList
    split
    · refine quietF_foldl_pair _ _ _ ?_
      intro sb' v _
      dsimp only
      repeat' split
      all_goals first
        | exact ⟨rfl, rfl⟩
        | exact record_asset_quietF base sb'.1 sb'.2 _ _ _
    · exact ⟨rfl, rfl⟩
  have h1 := hgen stpp
  have h2 := hkeys (scanGenericImage base pdata stpp)
  have h3 := hlist (scanImageKeys base pdata (scanGenericImage base pdata stpp))
  exact ⟨h3.1.trans (h2.1.trans h1.1), h3.2.trans (h2.2.trans h1.2)⟩

theorem nonPageAssetStep_quietF (c : InclCtx) (base : String) (st : TState)
    (it : Item) :
    (nonPageAssetStep c base st it).fetchTrace = st.fetchTrace ∧
    (nonPageAssetStep c base st it).asset_meta_cache = st.asset_meta_cache := by
  unfold nonPageAssetStep
  split
  · dsimp only
    split
    · exact ⟨rfl, rfl⟩
    · have hs := scanParentImages_quietF base it.data (st, ⟨[], []⟩)
      have he : ∀ (s' : TState),
          (emitAssetEdges (it.name.getD "") [none]
            (scanParentImages base it.data (st, ⟨[], []⟩)).2 s').fetchTrace =
            s'.fetchTrace ∧
          (emitAssetEdges (it.name.getD "") [none]
            (scanParentImages base it.data (st, ⟨[], []⟩)).2 s').asset_meta_cache =
            s'.asset_meta_cache := by
        intro s'
        rw [emitAssetEdges_spec]
        exact ⟨rfl, rfl⟩
      have h2 := he (scanParentImages base it.data (st, ⟨[], []⟩)).1
      exact ⟨h2.1.trans hs.1, h2.2.trans hs.2⟩
  · exact ⟨rfl, rfl⟩

theorem pageAssetStep_quietF (c : InclCtx) (base : String) (st : TState)
    (kv : String × Item) :
    (pageAssetStep c base st kv).fetchTrace = st.fetchTrace ∧
    (pageAssetStep c base st kv).asset_meta_cache = st.asset_meta_cache := by
  unfold pageAssetStep
  split
  · have hs := scanParentImages_quietF base kv.2.data (st, ⟨[], []⟩)
    have he : ∀ (s' : TState),
        (emitAssetEdges kv.1 []
          (scanParentImages base kv.2.data (st, ⟨[], []⟩)).2 s').fetchTrace =
          s'.fetchTrace ∧
        (emitAssetEdges kv.1 []
          (scanParentImages base kv.2.data (st, ⟨[], []⟩)).2 s').asset_meta_cache =
          s'.asset_meta_cache := by
      intro s'
      rw [emitAssetEdges_spec]
      exact ⟨rfl, rfl⟩
    have h2 := he (scanParentImages base kv.2.data (st, ⟨[], []⟩)).1
    exact ⟨h2.1.trans hs.1, h2.2.trans hs.2⟩
  · exact ⟨rfl, rfl⟩

theorem answersStep_quietF (c : InclCtx) (itemsIndex : List (String × Item))
    (ansIdx : List (String × String)) (st : TState) (it : Item) :
    (answersStep c itemsIndex ansIdx st it).fetchTrace = st.fetchTrace ∧
    (answersStep c itemsIndex ansIdx st it).asset_meta_cache =
      st.asset_meta_cache := by
  have hpot : ∀ (q : String) (d : List (String × JVal)) (s : TState),
      (answersPotBlock q d s).fetchTrace = s.fetchTrace ∧
      (answersPotBlock q d s).asset_meta_cache = s.asset_meta_cache := by
    intro q d s
    unfold answersPotBlock
    repeat' split
    all_goals try exact ⟨rfl, rfl⟩
    refine quietF_foldl_pair _ _ _ ?_
    intro sb ref _
    dsimp only
    unfold _ensure_answer_content
    repeat' split
    all_goals exact ⟨rfl, rfl⟩
  have hcorr : ∀ (q : String) (d : List (String × JVal)) (s : TState),
      (answersCorrBlock q d itemsIndex ansIdx s).fetchTrace = s.fetchTrace ∧
      (answersCorrBlock q d itemsIndex ansIdx s).asset_meta_cache =
        s.asset_meta_cache := by
    intro q d s
    unfold answersCorrBlock
    repeat' split
    all_goals try exact ⟨rfl, rfl⟩
    refine quietF_foldl_pair _ _ _ ?_
    intro sb ref _
    dsimp only
    unfold _ensure_answer_content
    repeat' split
    all_goals exact ⟨rfl, rfl⟩
  unfold answersStep
  split
  · dsimp only
    split
    · have h1 := hpot (it.name.getD "") it.data st
      have h2 := hcorr (it.name.getD "") it.data
        (answersPotBlock (it.name.getD "") it.data st)
      exact ⟨h2.1.trans h1.1, h2.2.trans h1.2⟩
    · exact ⟨rfl, rfl⟩
  · exact ⟨rfl, rfl⟩

theorem stAns_quietF (c : InclCtx) (base' : String) (items : List Item) :
    (stAns c base' items).fetchTrace = [] ∧
    (stAns c base' items).asset_meta_cache = [] := by
  have h1 : (stContent c items).fetchTrace = [] ∧
      (stContent c items).asset_meta_cache = [] := by
    unfold stContent
    exact quietF_foldl _ _ _ (fun s it _ => contentStep_quietF c s it)
  have h2 : (stText c items).fetchTrace = (stContent c items).fetchTrace ∧
      (stText c items).asset_meta_cache = (stContent c items).asset_meta_cache := by
    unfold stText
    exact quietF_foldl _ _ _ (fun s it _ => textStep_quietF c s it)
  have h3 : (stCta c items).fetchTrace = (stText c items).fetchTrace ∧
      (stCta c items).asset_meta_cache = (stText c items).asset_meta_cache := by
    unfold stCta
    exact quietF_foldl _ _ _ (fun s it _ => ctaStep_quietF c s it)
  have h4 : (stCurr c items).fetchTrace = (stCta c items).fetchTrace ∧
      (stCurr c items).asset_meta_cache = (stCta c items).asset_meta_cache := by
    unfold stCurr
    exact quietF_foldl _ _ _ (fun s kv _ => currUnitStep_quietF s kv)
  have h5 : (stUL c items).fetchTrace = (stCurr c items).fetchTrace ∧
      (stUL c items).asset_meta_cache = (stCurr c items).asset_meta_cache := by
    unfold stUL
    exact quietF_foldl _ _ _ (fun s it _ => unitLessonStep_quietF c s it)
  have h6 : (stLP c items).fetchTrace = (stUL c items).fetchTrace ∧
      (stLP c items).asset_meta_cache = (stUL c items).asset_meta_cache := by
    unfold stLP
    exact quietF_foldl _ _ _ (fun s it _ => lessonPageStep_quietF c s it)
  have h7 : (stTerm c items).fetchTrace = (stLP c items).fetchTrace ∧
      (stTerm c items).asset_meta_cache = (stLP c items).asset_meta_cache := by
    unfold stTerm
    exact quietF_foldl_pair _ _ _ (fun sb kv _ => termStep_quietF c sb kv)
  have h8 : (stNPA c base' items).fetchTrace = (stTerm c items).fetchTrace ∧
      (stNPA c base' items).asset_meta_cache =
        (stTerm c items).asset_meta_cache := by
    unfold stNPA
    exact quietF_foldl _ _ _ (fun s it _ => nonPageAssetStep_quietF c base' s it)
  have h9 : (stPA c base' items).fetchTrace = (stNPA c base' items).fetchTrace ∧
      (stPA c base' items).asset_meta_cache =
        (stNPA c base' items).asset_meta_cache := by
    unfold stPA
    exact quietF_foldl _ _ _ (fun s kv _ => pageAssetStep_quietF c base' s kv)
  have h10 : (stAns c base' items).fetchTrace = (stPA c base' items).fetchTrace ∧
      (stAns c base' items).asset_meta_cache =
        (stPA c base' items).asset_meta_cache := by
    unfold stAns
    exact quietF_foldl _ _ _
      (fun s it _ => answersStep_quietF c c.items_index (ansIdxOf c items) s it)
  exact ⟨h10.1.trans (h9.1.trans (h8.1.trans (h7.1.trans (h6.1.trans
      (h5.1.trans (h4.1.trans (h3.1.trans (h2.1.trans h1.1)))))))),
    h10.2.trans (h9.2.trans (h8.2.trans (h7.2.trans (h6.2.trans
      (h5.2.trans (h4.2.trans (h3.2.trans (h2.2.trans h1.2))))))))⟩

/-- The memoization invariant: every ghost-traced fetch is distinct, and
every fetched id has a cache entry (so a second fetch attempt is stopped by
the cache guard). -/
def FInv (st : TState) : Prop :=
  st.fetchTrace.Nodup ∧
  ∀ a ∈ st.fetchTrace, (lookupA st.asset_meta_cache a).isSome

theorem fInv_enrichFetch (oracle : String → Option JVal)
    (base : Option String) (aid : String) {st : TState} (h : FInv st) :
    FInv (enrichFetch oracle base aid st).1 := by
  unfold enrichFetch
  dsimp only
  split
  · split
    · rename_i hcache
      constructor
      · refine List.Nodup.append h.1 (List.nodup_singleton _) ?_
        intro a ha hb
        rw [List.mem_singleton.mp hb] at ha
        have hsome := h.2 aid ha
        rw [Option.isNone_iff_eq_none] at hcache
        rw [hcache] at hsome
        simp at hsome
      · intro a ha
        rcases List.mem_append.mp ha with hm | hm
        · by_cases hak : a = aid
          · subst hak
            rw [lookupA_dictSet_self]
            rfl
          · rw [lookupA_dictSet_other hak]
            exact h.2 a hm
        · rw [List.mem_singleton.mp hm, lookupA_dictSet_self]
          rfl
    · exact h
  · exact h

theorem fInv_enrichFor (oracle : String → Option JVal) (base : Option String)
    {st : TState} (aid : String) (h : FInv st) :
    FInv (_enrich_asset_ctt_rows_for oracle base st aid) := by
  unfold _enrich_asset_ctt_rows_for
  split
  · exact h
  · dsimp only
    split
    · exact h
    · have ha : ∀ (ex : List Nat) (meta : Option AssetMeta) (s : TState),
          (enrichAppend aid ex meta s).fetchTrace = s.fetchTrace ∧
          (enrichAppend aid ex meta s).asset_meta_cache =
            s.asset_meta_cache := by
        intro ex meta s
        unfold enrichAppend
        dsimp only
        repeat' split
        all_goals exact ⟨rfl, rfl⟩
      have hf := fInv_enrichFetch oracle base aid h
      have hp := ha (existingTypesFor aid st.ctt)
        (enrichFetch oracle base aid st).2 (enrichFetch oracle base aid st).1
      refine ⟨?_, ?_⟩
      · rw [hp.1]
        exact hf.1
      · intro a haa
        rw [hp.1] at haa
        rw [hp.2]
        exact hf.2 a haa

theorem fInv_transformFull (oracle : String → Option JVal) (lla : Bool)
    (base : Option String) (items : List Item) :
    FInv (transformFull oracle lla base items) := by
  have h0 := stAns_quietF (inclPass items) (resolvedBase items base) items
  have hA : FInv (stAns (inclPass items) (resolvedBase items base) items) := by
    constructor
    · rw [h0.1]
      exact List.nodup_nil
    · intro a ha
      rw [h0.1] at ha
      cases ha
  have hE : FInv (stEnrich oracle (inclPass items)
      (resolvedBase items base) items) := by
    unfold stEnrich enrichPass
    refine @foldl_induct _ _ (fun (s : TState) => FInv s) _ _ _ hA ?_
    intro s aid _ hs
    exact fInv_enrichFor oracle _ aid hs
  exact hE

theorem fetch_meta_none (oracle : String → Option JVal) (aid : String)
    (base : Option String) (eh : Option String)
    (hor : ∀ u, oracle u = none) :
    fetch_asset_metadata oracle aid base eh = none := by
  unfold fetch_asset_metadata
  cases eh with
  | none => rfl
  | some e =>
    dsimp only
    split
    · rfl
    · rw [hor]

theorem enrichAppend_none (aid : String) (s : TState) :
    enrichAppend aid [] none s =
      { s with ctt := s.ctt ++ [⟨aid, 1, 0, 1, .s aid⟩, ⟨aid, 1, 0, 19, .i 0⟩,
        ⟨aid, 1, 0, 20, .i 0⟩, ⟨aid, 1, 0, 21, .s "image/jpeg"⟩] } := by
  unfold enrichAppend
  dsimp only
  rw [if_pos (by simp), if_pos (by simp), if_pos (by simp), if_pos (by simp)]
  simp [List.append_assoc]

/-- C6: the metadata fetch for an asset id is attempted at most once per run
(the ghost `fetchTrace` records one entry per actual fetch attempt and stays
duplicate-free: the memo cache written at the first attempt stops every
later one); when all four enrichment text-kinds (1 title, 19 width,
20 height, 21 mime) already exist for the id, the enricher leaves the state
completely unchanged; a fetch failure (the oracle returns `none` — any
exception in the `try` block) never escapes: the fetch returns `None` and
the enricher appends exactly the placeholder rows
title = identifier, width = 0, height = 0, mime = `"image/jpeg"`. -/
theorem claim_C6_enrichment :
    (∀ (oracle : String → Option JVal) (lla : Bool) (base : Option String)
       (items : List Item),
       (transformFull oracle lla base items).fetchTrace.Nodup) ∧
    (∀ (oracle : String → Option JVal) (base : Option String) (st : TState)
       (aid : String),
       1 ∈ existingTypesFor aid st.ctt → 19 ∈ existingTypesFor aid st.ctt →
       20 ∈ existingTypesFor aid st.ctt → 21 ∈ existingTypesFor aid st.ctt →
       _enrich_asset_ctt_rows_for oracle base st aid = st) ∧
    (∀ (oracle : String → Option JVal) (aid : String) (base : Option String)
       (eh : Option String), (∀ u, oracle u = none) →
       fetch_asset_metadata oracle aid base eh = none) ∧
    (∀ (oracle : String → Option JVal) (base : Option String) (st : TState)
       (aid : String), (∀ u, oracle u = none) → aid ≠ "" →
       existingTypesFor aid st.ctt = [] →
       lookupA st.asset_meta_cache aid = none →
       (_enrich_asset_ctt_rows_for oracle base st aid).ctt =
         st.ctt ++ [⟨aid, 1, 0, 1, .s aid⟩, ⟨aid, 1, 0, 19, .i 0⟩,
           ⟨aid, 1, 0, 20, .i 0⟩, ⟨aid, 1, 0, 21, .s "image/jpeg"⟩]) := by
  refine ⟨?_, ?_, ?_, ?_⟩
  · intro oracle lla base items
    exact (fInv_transformFull oracle lla base items).1
  · intro oracle base st aid h1 h19 h20 h21
    unfold _enrich_asset_ctt_rows_for
    split
    · rfl
    · dsimp only
      split
      · rfl
      · rename_i hcond
        exact absurd ⟨h1, h19, h20, h21⟩ hcond
  · intro oracle aid base eh hor
    exact fetch_meta_none oracle aid base eh hor
  · intro oracle base st aid hor hne hex hcache
    unfold _enrich_asset_ctt_rows_for
    rw [if_neg hne]
    dsimp only
    rw [hex, if_neg (by simp)]
    have hfet : (enrichFetch oracle base aid st).2 = none ∧
        (enrichFetch oracle base aid st).1.ctt = st.ctt := by
      unfold enrichFetch
      dsimp only
      split
      · rw [if_pos (show ((lookupA st.asset_meta_cache aid).isNone = true) by
          rw [hcache]; rfl)]
        dsimp only
        exact ⟨fetch_meta_none oracle aid base _ hor, rfl⟩
      · exact ⟨rfl, rfl⟩
    rw [hfet.1, enrichAppend_none]
    show (enrichFetch oracle base aid st).1.ctt ++ _ = _
    rw [hfet.2]

/-- Witness for C6 at concrete inputs. -/
theorem claim_C6_enrichment_witness :
    _enrich_asset_ctt_rows_for oracleNone none
        { initState with ctt := [⟨"a", 1, 0, 1, .s "t"⟩, ⟨"a", 1, 0, 19, .i 3⟩,
          ⟨"a", 1, 0, 20, .i 4⟩, ⟨"a", 1, 0, 21, .s "image/png"⟩] } "a" =
      { initState with ctt := [⟨"a", 1, 0, 1, .s "t"⟩, ⟨"a", 1, 0, 19, .i 3⟩,
          ⟨"a", 1, 0, 20, .i 4⟩, ⟨"a", 1, 0, 21, .s "image/png"⟩] } ∧
    fetch_asset_metadata oracleNone "a" none (some "png") = none ∧
    (_enrich_asset_ctt_rows_for oracleNone none initState "b").ctt =
      [⟨"b", 1, 0, 1, .s "b"⟩, ⟨"b", 1, 0, 19, .i 0⟩,
       ⟨"b", 1, 0, 20, .i 0⟩, ⟨"b", 1, 0, 21, .s "image/jpeg"⟩] :=
  ⟨claim_C6_enrichment.2.1 oracleNone none _ "a"
      (by decide) (by decide) (by decide) (by decide),
   claim_C6_enrichment.2.2.1 oracleNone "a" none (some "png")
      (fun u => rfl),
   claim_C6_enrichment.2.2.2 oracleNone none initState "b"
      (fun u => rfl) (by decide) (by rfl) (by rfl)⟩

-- ==================== C9 machinery: the single URL row ====================

/-- The type-18 (URL) text rows of an id. -/
def rows18 (aid : String) (ctt : List CttRow) : List CttRow :=
  ctt.filter (fun r => r.content_cms_id == aid && r.text_type_id == 18)

/-- The raw URLs recorded for `aid`, in recording order (ghost URL trace). -/
def urlsOf (trace : List (String × JVal)) (aid : String) : List JVal :=
  trace.filterMap (fun p => if p.1 = aid then some p.2 else none)

/-- Last element of a nonempty list given head/tail. -/
def lastOf : JVal → List JVal → JVal
  | x, [] => x
  | _, y :: ys => lastOf y ys

theorem urlsOf_append_other {b aid : String} (hne : b ≠ aid)
    (tr : List (String × JVal)) (u : JVal) :
    urlsOf (tr ++ [(b, u)]) aid = urlsOf tr aid := by
  simp [urlsOf, List.filterMap_append, hne]

theorem urlsOf_append_self (aid : String) (tr : List (String × JVal))
    (u : JVal) :
    urlsOf (tr ++ [(aid, u)]) aid = urlsOf tr aid ++ [u] := by
  simp [urlsOf, List.filterMap_append]

theorem lastOf_snoc : ∀ (rest : List JVal) (u1 u : JVal),
    lastOf u1 (rest ++ [u]) = u := by
  intro rest
  induction rest with
  | nil => intro u1 u; rfl
  | cons y ys ih => intro u1 u; exact ih y u

theorem rows18_append_skip {row : CttRow} {aid : String}
    (h : row.content_cms_id ≠ aid ∨ row.text_type_id ≠ 18)
    (l : List CttRow) : rows18 aid (l ++ [row]) = rows18 aid l := by
  unfold rows18
  rw [List.filter_append]
  have hc : (row.content_cms_id == aid && row.text_type_id == 18) = false := by
    rcases h with h | h
    · simp [h]
    · simp [h]
  simp [List.filter_cons, hc]

theorem rows18_append_hit {row : CttRow} {aid : String}
    (h1 : row.content_cms_id = aid) (h2 : row.text_type_id = 18)
    (l : List CttRow) : rows18 aid (l ++ [row]) = rows18 aid l ++ [row] := by
  unfold rows18
  rw [List.filter_append]
  have hc : (row.content_cms_id == aid && row.text_type_id == 18) = true := by
    simp [h1, h2]
  simp [List.filter_cons, hc]

/-- The URL-row invariant for one asset id at fixed resolved base: before
any URL is recorded nothing is written; afterwards exactly one type-18 row
exists (valued at the normalization of the FIRST recorded URL), the
written-guard is set, and `asset_url_map` holds the normalization of the
LAST recorded URL. -/
def UInv (base aid : String) (st : TState) : Prop :=
  (urlsOf st.urlTrace aid = [] → aid ∉ st.url_row_written ∧
     rows18 aid st.ctt = [] ∧ lookupA st.asset_url_map aid = none) ∧
  (∀ u1 rest, urlsOf st.urlTrace aid = u1 :: rest →
     aid ∈ st.url_row_written ∧
     rows18 aid st.ctt =
       [⟨aid, 1, 0, 18, .s (pyStr (normalizeJ u1 (some base)))⟩] ∧
     lookupA st.asset_url_map aid =
       some (pyStr (normalizeJ (lastOf u1 rest) (some base))))

theorem uInv_congr {base aid : String} {s s' : TState}
    (h1 : s'.ctt = s.ctt) (h2 : s'.url_row_written = s.url_row_written)
    (h3 : s'.asset_url_map = s.asset_url_map) (h4 : s'.urlTrace = s.urlTrace)
    (h : UInv base aid s) : UInv base aid s' := by
  unfold UInv at h ⊢
  rw [h1, h2, h3, h4]
  exact h

theorem uInv_record {base aid : String} {st : TState} (pp : PerParent)
    (b : String) (url : JVal) (role : Option Nat) (h : UInv base aid st) :
    UInv base aid (_record_asset base st pp b url role).1 := by
  have hreg4 : (recordRegister b st).ctt = st.ctt ∧
      (recordRegister b st).url_row_written = st.url_row_written ∧
      (recordRegister b st).asset_url_map = st.asset_url_map ∧
      (recordRegister b st).urlTrace = st.urlTrace := by
    unfold recordRegister
    split <;> exact ⟨rfl, rfl, rfl, rfl⟩
  have hext4 : ∀ (s : TState),
      (recordExtHint b (derive_asset_ext (pyStr url)) s).ctt = s.ctt ∧
      (recordExtHint b (derive_asset_ext (pyStr url)) s).url_row_written =
        s.url_row_written ∧
      (recordExtHint b (derive_asset_ext (pyStr url)) s).asset_url_map =
        s.asset_url_map ∧
      (recordExtHint b (derive_asset_ext (pyStr url)) s).urlTrace =
        s.urlTrace := by
    intro s
    unfold recordExtHint
    split <;> exact ⟨rfl, rfl, rfl, rfl⟩
  have hF_ctt : (_record_asset base st pp b url role).1.ctt =
      (recordUrlRow b (pyStr (normalizeJ url (some base)))
        (recordRegister b st)).ctt :=
    (hext4 _).1
  have hF_w : (_record_asset base st pp b url role).1.url_row_written =
      (recordUrlRow b (pyStr (normalizeJ url (some base)))
        (recordRegister b st)).url_row_written :=
    (hext4 _).2.1
  have hrow4 : ∀ (s : TState),
      (recordUrlRow b (pyStr (normalizeJ url (some base))) s).asset_url_map =
        s.asset_url_map ∧
      (recordUrlRow b (pyStr (normalizeJ url (some base))) s).urlTrace =
        s.urlTrace := by
    intro s
    unfold recordUrlRow
    split <;> exact ⟨rfl, rfl⟩
  have hF_m : (_record_asset base st pp b url role).1.asset_url_map =
      dictSet st.asset_url_map b (pyStr (normalizeJ url (some base))) := by
    refine ((hext4 _).2.2.1).trans ?_
    show dictSet (recordUrlRow b (pyStr (normalizeJ url (some base)))
      (recordRegister b st)).asset_url_map b _ = _
    rw [(hrow4 _).1, hreg4.2.2.1]
  have hF_t : (_record_asset base st pp b url role).1.urlTrace =
      st.urlTrace ++ [(b, url)] := by
    refine ((hext4 _).2.2.2).trans ?_
    show (recordUrlRow b (pyStr (normalizeJ url (some base)))
      (recordRegister b st)).urlTrace ++ [(b, url)] = _
    rw [(hrow4 _).2, hreg4.2.2.2]
  by_cases hba : b = aid
  case neg =>
    obtain ⟨h1, h2⟩ := h
    constructor
    · intro he
      rw [hF_t, urlsOf_append_other hba] at he
      obtain ⟨hw, hr, hm⟩ := h1 he
      refine ⟨?_, ?_, ?_⟩
      · rw [hF_w]
        unfold recordUrlRow
        split
        · rw [hreg4.2.1]
          exact hw
        · intro hmem
          rcases mem_setAdd_iff.mp hmem with hm' | hm'
          · rw [hreg4.2.1] at hm'
            exact hw hm'
          · exact hba hm'.symm
      · rw [hF_ctt]
        unfold recordUrlRow
        split
        · rw [hreg4.1]
          exact hr
        · rw [rows18_append_skip (Or.inl hba), hreg4.1]
          exact hr
      · rw [hF_m, lookupA_dictSet_other (fun hx => hba hx.symm)]
        exact hm
    · intro u1 rest hu
      rw [hF_t, urlsOf_append_other hba] at hu
      obtain ⟨hw, hr, hm⟩ := h2 u1 rest hu
      refine ⟨?_, ?_, ?_⟩
      · rw [hF_w]
        unfold recordUrlRow
        split
        · rw [hreg4.2.1]
          exact hw
        · exact mem_setAdd_of_mem _ (hreg4.2.1 ▸ hw)
      · rw [hF_ctt]
        unfold recordUrlRow
        split
        · rw [hreg4.1]
          exact hr
        · rw [rows18_append_skip (Or.inl hba), hreg4.1]
          exact hr
      · rw [hF_m, lookupA_dictSet_other (fun hx => hba hx.symm)]
        exact hm
  case pos =>
    subst hba
    obtain ⟨h1, h2⟩ := h
    cases hcase : urlsOf st.urlTrace b with
    | nil =>
      obtain ⟨hw, hr, hm⟩ := h1 hcase
      constructor
      · intro he
        rw [hF_t, urlsOf_append_self, hcase] at he
        simp at he
      · intro u1 rest hu
        rw [hF_t, urlsOf_append_self, hcase, List.nil_append] at hu
        injection hu with he1 he2
        refine ⟨?_, ?_, ?_⟩
        · rw [hF_w]
          unfold recordUrlRow
          split
          · rename_i hin
            rw [hreg4.2.1] at hin
            exact absurd hin hw
          · exact mem_setAdd_self _ _
        · rw [hF_ctt]
          unfold recordUrlRow
          split
          · rename_i hin
            rw [hreg4.2.1] at hin
            exact absurd hin hw
          · rw [← he1]
            dsimp only
            rw [@rows18_append_hit
                ⟨b, 1, 0, 18, TVal.s (pyStr (normalizeJ url (some base)))⟩ b
                rfl rfl ((recordRegister b st).ctt),
              hreg4.1, hr, List.nil_append]
        · rw [hF_m, lookupA_dictSet_self, ← he1, ← he2]
          rfl
    | cons u1' rest' =>
      obtain ⟨hw, hr, hm⟩ := h2 u1' rest' hcase
      constructor
      · intro he
        rw [hF_t, urlsOf_append_self, hcase] at he
        simp at he
      · intro u1 rest hu
        rw [hF_t, urlsOf_append_self, hcase, List.cons_append] at hu
        injection hu with he1 he2
        refine ⟨?_, ?_, ?_⟩
        · rw [hF_w]
          unfold recordUrlRow
          split
          · rw [hreg4.2.1]
            exact hw
          · exact mem_setAdd_of_mem _ (hreg4.2.1 ▸ hw)
        · rw [hF_ctt]
          unfold recordUrlRow
          split
          · rw [hreg4.1, ← he1]
            exact hr
          · rename_i hin
            rw [hreg4.2.1] at hin
            exact absurd hw hin
        · rw [hF_m, lookupA_dictSet_self, ← he1, ← he2, lastOf_snoc]

theorem uInv_congr2 {base aid : String} {s s' : TState}
    (h1 : rows18 aid s'.ctt = rows18 aid s.ctt)
    (h2 : s'.url_row_written = s.url_row_written)
    (h3 : s'.asset_url_map = s.asset_url_map)
    (h4 : s'.urlTrace = s.urlTrace)
    (h : UInv base aid s) : UInv base aid s' := by
  unfold UInv at h ⊢
  rw [h1, h2, h3, h4]
  exact h

theorem uInv_addCtt {base aid : String} {row : CttRow}
    (h18 : row.text_type_id ≠ 18) {s : TState} (h : UInv base aid s) :
    UInv base aid { s with ctt := s.ctt ++ [row] } :=
  uInv_congr2 (rows18_append_skip (Or.inr h18) _) rfl rfl rfl h

theorem text_fields_no18 : ∀ kv ∈ TEXT_FIELDS, kv.2 ≠ 18 := by decide

theorem special_no18 : ∀ kv ∈ SPECIAL_TO_TEXT, kv.2 ≠ 18 := by decide

theorem uInv_contentStep {base aid : String} (c : InclCtx) {st : TState}
    (it : Item) (h : UInv base aid st) : UInv base aid (contentStep c st it) := by
  unfold contentStep
  split
  · dsimp only
    repeat' split
    all_goals exact uInv_congr2 rfl rfl rfl rfl h
  · exact h

theorem uInv_textStep {base aid : String} (c : InclCtx) {st : TState}
    (it : Item) (h : UInv base aid st) : UInv base aid (textStep c st it) := by
  unfold textStep
  split
  · dsimp only
    refine @foldl_induct _ _ (fun (s' : TState) => UInv base aid s') _ _ _ ?_ ?_
    · refine @foldl_induct _ _ (fun (s' : TState) => UInv base aid s') _ _ _ h ?_
      intro s kv hkv hs
      dsimp only
      split
      · split
        · exact uInv_addCtt (text_fields_no18 kv hkv) hs
        · exact hs
      · exact hs
    · intro s kv hkv hs
      dsimp only
      split
      · split
        · exact uInv_addCtt (special_no18 kv hkv) hs
        · exact hs
      · exact hs
  · exact h

theorem uInv_ctaStep {base aid : String} (c : InclCtx) {st : TState}
    (it : Item) (h : UInv base aid st) : UInv base aid (ctaStep c st it) := by
  have hcat : ∀ (n : String) (d : List (String × JVal)) {s : TState},
      UInv base aid s → UInv base aid (ctaCatBlock n d s) := by
    intro n d s hs
    unfold ctaCatBlock
    split
    · refine @foldl_induct _ _ (fun (s' : TState) => UInv base aid s') _ _ _ hs ?_
      intro s' cv _ hs'
      dsimp only
      split
      · exact uInv_congr2 rfl rfl rfl rfl hs'
      · exact hs'
    · exact hs
  have hcad : ∀ (n : String) (d : List (String × JVal)) {s : TState},
      UInv base aid s → UInv base aid (ctaCadBlock n d s) := by
    intro n d s hs
    unfold ctaCadBlock
    repeat' split
    all_goals exact uInv_congr2 rfl rfl rfl rfl hs
  have htag : ∀ (n : String) (d : List (String × JVal)) {s : TState},
      UInv base aid s → UInv base aid (ctaTagBlock n d s) := by
    intro n d s hs
    unfold ctaTagBlock
    split
    · refine @foldl_induct _ _ (fun (s' : TState) => UInv base aid s') _ _ _ hs ?_
      intro s' tv _ hs'
      dsimp only
      split
      · exact uInv_congr2 rfl rfl rfl rfl hs'
      · exact hs'
    · exact hs
  unfold ctaStep
  split
  · dsimp only
    exact htag _ _ (hcad _ _ (hcat _ _ h))
  · exact h

theorem uInv_currUnitStep {base aid : String} {st : TState}
    (kv : String × Item) (h : UInv base aid st) :
    UInv base aid (currUnitStep st kv) := by
  unfold currUnitStep
  dsimp only
  split
  · refine @foldl_induct _ _ (fun (s' : TState) => UInv base aid s') _ _ _ h ?_
    intro s p _ hs
    dsimp only
    repeat' split
    all_goals first | exact hs | exact uInv_congr2 rfl rfl rfl rfl hs
  · refine @foldl_induct _ _
      (fun (sb : TState × Nat) => UInv base aid sb.1) _ _ _ h ?_
    intro sb ukv _ hs
    dsimp only
    split
    · exact uInv_congr2 rfl rfl rfl rfl hs
    · exact hs

theorem uInv_unitLessonStep {base aid : String} (c : InclCtx) {st : TState}
    (it : Item) (h : UInv base aid st) :
    UInv base aid (unitLessonStep c st it) := by
  unfold unitLessonStep
  split
  · dsimp only
    split
    · refine @foldl_induct _ _ (fun (s' : TState) => UInv base aid s') _ _ _ h ?_
      intro s p _ hs
      dsimp only
      repeat' split
      all_goals first | exact hs | exact uInv_congr2 rfl rfl rfl rfl hs
    · exact h
  · exact h

theorem uInv_lessonPageStep {base aid : String} (c : InclCtx) {st : TState}
    (it : Item) (h : UInv base aid st) :
    UInv base aid (lessonPageStep c st it) := by
  unfold lessonPageStep
  split
  · dsimp only
    split
    · refine @foldl_induct _ _ (fun (s' : TState) => UInv base aid s') _ _ _ h ?_
      intro s p _ hs
      dsimp only
      repeat' split
      all_goals first | exact hs | exact uInv_congr2 rfl rfl rfl rfl hs
    · exact h
  · exact h

theorem uInv_termStep {base aid : String} (c : InclCtx)
    {acc : TState × List (String × Nat)} (kv : String × Item)
    (h : UInv base aid acc.1) : UInv base aid (termStep c acc kv).1 := by
  unfold termStep
  split
  · exact h
  · refine @foldl_induct _ _
      (fun (sb : TState × List (String × Nat)) => UInv base aid sb.1) _ _ _ h ?_
    intro sb ref _ hs
    dsimp only
    repeat' split
    all_goals first | exact hs | exact uInv_congr2 rfl rfl rfl rfl hs

theorem uInv_scanParentImages {base aid : String}
    (pdata : List (String × JVal)) {stpp : TState × PerParent}
    (h : UInv base aid stpp.1) :
    UInv base aid (scanParentImages base pdata stpp).1 := by
  have hgen : ∀ {sb : TState × PerParent}, UInv base aid sb.1 →
      UInv base aid (scanGenericImage base pdata sb).1 := by
    intro sb hs
    unfold scanGenericImage
    repeat' split
    all_goals first | exact hs | exact uInv_record _ _ _ _ hs
  have hkeys : ∀ {sb : TState × PerParent}, UInv base aid sb.1 →
      UInv base aid (scanImageKeys base pdata sb).1 := by
    intro sb hs
    unfold scanImageKeys
    refine @foldl_induct _ _
      (fun (sb' : TState × PerParent) => UInv base aid sb'.1) _ _ _ hs ?_
    intro sb' key _ hs'
    dsimp only
    repeat' split
    all_goals first | exact hs' | exact uInv_record _ _ _ _ hs'
  have hlist : ∀ {sb : TState × PerParent}, UInv base aid sb.1 →
      UInv base aid (scanImagesList base pdata sb).1 := by
    intro sb hs
    unfold scanImagesList
    split
    · refine @foldl_induct _ _
        (fun (sb' : TState × PerParent) => UInv base aid sb'.1) _ _ _ hs ?_
      intro sb' v _ hs'
      dsimp only
      repeat' split
      all_goals first | exact hs' | exact uInv_record _ _ _ _ hs'
    · exact hs
  exact hlist (hkeys (hgen h))

theorem uInv_emit {base aid pid : String} (dr : List (Option Nat))
    (pp : PerParent) {st : TState} (h : UInv base aid st) :
    UInv base aid (emitAssetEdges pid dr pp st) := by
  refine uInv_congr2 ?_ ?_ ?_ ?_ h <;> rw [emitAssetEdges_spec]

theorem uInv_nonPageAssetStep {base aid : String} (c : InclCtx) {st : TState}
    (it : Item) (h : UInv base aid st) :
    UInv base aid (nonPageAssetStep c base st it) := by
  unfold nonPageAssetStep
  split
  · dsimp only
    split
    · exact h
    · exact uInv_emit _ _ (uInv_scanParentImages _ h)
  · exact h

theorem uInv_pageAssetStep {base aid : String} (c : InclCtx) {st : TState}
    (kv : String × Item) (h : UInv base aid st) :
    UInv base aid (pageAssetStep c base st kv) := by
  unfold pageAssetStep
  split
  · exact uInv_emit _ _ (uInv_scanParentImages _ h)
  · exact h

theorem uInv_ensure {base aid : String} (ansId : String) {s : TState}
    (h : UInv base aid s) : UInv base aid (_ensure_answer_content s ansId) := by
  unfold _ensure_answer_content
  split
  · exact uInv_congr2 rfl rfl rfl rfl h
  · exact h

theorem uInv_answersStep {base aid : String} (c : InclCtx)
    (itemsIndex : List (String × Item)) (ansIdx : List (String × String))
    {st : TState} (it : Item) (h : UInv base aid st) :
    UInv base aid (answersStep c itemsIndex ansIdx st it) := by
  have hpot : ∀ (q : String) (d : List (String × JVal)) {s : TState},
      UInv base aid s → UInv base aid (answersPotBlock q d s) := by
    intro q d s hs
    unfold answersPotBlock
    repeat' split
    all_goals try exact hs
    refine @foldl_induct _ _
      (fun (sb : TState × Nat) => UInv base aid sb.1) _ _ _ hs ?_
    intro sb ref _ hs'
    dsimp only
    split
    · exact hs'
    · exact uInv_congr2 rfl rfl rfl rfl (uInv_ensure _ hs')
  have hcorr : ∀ (q : String) (d : List (String × JVal)) {s : TState},
      UInv base aid s → UInv base aid (answersCorrBlock q d itemsIndex ansIdx s) := by
    intro q d s hs
    unfold answersCorrBlock
    repeat' split
    all_goals try exact hs
    refine @foldl_induct _ _
      (fun (sb : TState × Nat) => UInv base aid sb.1) _ _ _ hs ?_
    intro sb ref _ hs'
    dsimp only
    split
    · exact hs'
    · split
      · exact uInv_addCtt (by simp)
          (uInv_congr2 rfl rfl rfl rfl (uInv_ensure _ hs'))
      · exact uInv_congr2 rfl rfl rfl rfl (uInv_ensure _ hs')
  unfold answersStep
  split
  · dsimp only
    split
    · exact hcorr _ _ (hpot _ _ h)
    · exact h
  · exact h

theorem uInv_enrichFor {base aid : String} (oracle : String → Option JVal)
    (b : Option String) {st : TState} (x : String) (h : UInv base aid st) :
    UInv base aid (_enrich_asset_ctt_rows_for oracle b st x) := by
  unfold _enrich_asset_ctt_rows_for
  split
  · exact h
  · dsimp only
    split
    · exact h
    · have hf : UInv base aid (enrichFetch oracle b x st).1 := by
        unfold enrichFetch
        dsimp only
        repeat' split
        all_goals first | exact h | exact uInv_congr2 rfl rfl rfl rfl h
      unfold enrichAppend
      dsimp only
      repeat' split
      all_goals first
        | exact hf
        | exact uInv_addCtt (by simp) hf
        | exact uInv_addCtt (by simp) (uInv_addCtt (by simp) hf)
        | exact uInv_addCtt (by simp)
            (uInv_addCtt (by simp) (uInv_addCtt (by simp) hf))
        | exact uInv_addCtt (by simp) (uInv_addCtt (by simp)
            (uInv_addCtt (by simp) (uInv_addCtt (by simp) hf)))

theorem uInv_initState (base aid : String) : UInv base aid initState := by
  constructor
  · intro _
    exact ⟨(fun hx => by cases hx), rfl, rfl⟩
  · intro u1 rest hu
    simp [urlsOf, initState] at hu

theorem uInv_stEnrich (oracle : String → Option JVal) (lla : Bool)
    (base_url : Option String) (items : List Item) (aid : String) :
    UInv (resolvedBase items base_url) aid
      (stEnrich oracle (inclPass items) (resolvedBase items base_url) items) := by
  set base := resolvedBase items base_url with hbase
  set c := inclPass items with hc
  have h1 : UInv base aid (stContent c items) := by
    unfold stContent
    refine @foldl_induct _ _ (fun (s : TState) => UInv base aid s) _ _ _
      (uInv_initState base aid) ?_
    intro s it _ hs
    exact uInv_contentStep c it hs
  have h2 : UInv base aid (stText c items) := by
    unfold stText
    refine @foldl_induct _ _ (fun (s : TState) => UInv base aid s) _ _ _ h1 ?_
    intro s it _ hs
    exact uInv_textStep c it hs
  have h3 : UInv base aid (stCta c items) := by
    unfold stCta
    refine @foldl_induct _ _ (fun (s : TState) => UInv base aid s) _ _ _ h2 ?_
    intro s it _ hs
    exact uInv_ctaStep c it hs
  have h4 : UInv base aid (stCurr c items) := by
    unfold stCurr
    refine @foldl_induct _ _ (fun (s : TState) => UInv base aid s) _ _ _ h3 ?_
    intro s kv _ hs
    exact uInv_currUnitStep kv hs
  have h5 : UInv base aid (stUL c items) := by
    unfold stUL
    refine @foldl_induct _ _ (fun (s : TState) => UInv base aid s) _ _ _ h4 ?_
    intro s it _ hs
    exact uInv_unitLessonStep c it hs
  have h6 : UInv base aid (stLP c items) := by
    unfold stLP
    refine @foldl_induct _ _ (fun (s : TState) => UInv base aid s) _ _ _ h5 ?_
    intro s it _ hs
    exact uInv_lessonPageStep c it hs
  have h7 : UInv base aid (stTerm c items) := by
    unfold stTerm
    refine @foldl_induct _ _
      (fun (sb : TState × List (String × Nat)) => UInv base aid sb.1) _ _ _ h6 ?_
    intro sb kv _ hs
    exact uInv_termStep c kv hs
  have h8 : UInv base aid (stNPA c base items) := by
    unfold stNPA
    refine @foldl_induct _ _ (fun (s : TState) => UInv base aid s) _ _ _ h7 ?_
    intro s it _ hs
    exact uInv_nonPageAssetStep c it hs
  have h9 : UInv base aid (stPA c base items) := by
    unfold stPA
    refine @foldl_induct _ _ (fun (s : TState) => UInv base aid s) _ _ _ h8 ?_
    intro s kv _ hs
    exact uInv_pageAssetStep c kv hs
  have h10 : UInv base aid (stAns c base items) := by
    unfold stAns
    refine @foldl_induct _ _ (fun (s : TState) => UInv base aid s) _ _ _ h9 ?_
    intro s it _ hs
    exact uInv_answersStep c c.items_index (ansIdxOf c items) it hs
  unfold stEnrich enrichPass
  refine @foldl_induct _ _ (fun (s : TState) => UInv base aid s) _ _ _ h10 ?_
  intro s x _ hs
  exact uInv_enrichFor oracle (some base) x hs


/-- C9: for every asset id, at most one URL text row (`text_type_id = 18`)
exists in the whole run's output: before dedup the id's URL rows are exactly
one row valued at the normalization of the FIRST recorded URL (the
`url_row_written` guard blocks later rows even when later references carry a
different URL), and dedup can only keep a sub-list of them; whereas
`asset_url_map` — the map the enricher's namespace check reads — holds the
normalization of the LAST recorded URL. -/
theorem claim_C9_url_row (oracle : String → Option JVal) (lla : Bool)
    (base_url : Option String) (items : List Item) (aid : String) :
    (urlsOf (transformFull oracle lla base_url items).urlTrace aid = [] →
       rows18 aid (transformFull oracle lla base_url items).ctt = [] ∧
       lookupA (transformFull oracle lla base_url items).asset_url_map aid =
         none) ∧
    (∀ u1 rest,
       urlsOf (transformFull oracle lla base_url items).urlTrace aid =
         u1 :: rest →
       rows18 aid (stEnrich oracle (inclPass items)
           (resolvedBase items base_url) items).ctt =
         [⟨aid, 1, 0, 18,
           .s (pyStr (normalizeJ u1 (some (resolvedBase items base_url))))⟩] ∧
       (rows18 aid (transformFull oracle lla base_url items).ctt).Sublist
         [⟨aid, 1, 0, 18,
           .s (pyStr (normalizeJ u1 (some (resolvedBase items base_url))))⟩] ∧
       lookupA (transformFull oracle lla base_url items).asset_url_map aid =
         some (pyStr (normalizeJ (lastOf u1 rest)
           (some (resolvedBase items base_url))))) := by
  have hU := uInv_stEnrich oracle lla base_url items aid
  have htr : (transformFull oracle lla base_url items).urlTrace =
      (stEnrich oracle (inclPass items) (resolvedBase items base_url)
        items).urlTrace := rfl
  have hmap : (transformFull oracle lla base_url items).asset_url_map =
      (stEnrich oracle (inclPass items) (resolvedBase items base_url)
        items).asset_url_map := rfl
  have hsub : (rows18 aid (transformFull oracle lla base_url items).ctt).Sublist
      (rows18 aid (stEnrich oracle (inclPass items)
        (resolvedBase items base_url) items).ctt) :=
    List.Sublist.filter _ (dedupGo_sublist _ _)
  constructor
  · intro he
    rw [htr] at he
    obtain ⟨hw, hr, hm⟩ := hU.1 he
    refine ⟨?_, ?_⟩
    · rw [hr] at hsub
      exact List.sublist_nil.mp hsub
    · rw [hmap]
      exact hm
  · intro u1 rest hu
    rw [htr] at hu
    obtain ⟨hw, hr, hm⟩ := hU.2 u1 rest hu
    refine ⟨hr, ?_, ?_⟩
    · rw [hr] at hsub
      exact hsub
    · rw [hmap]
      exact hm

/-- Witness for C9 at a concrete run: one lesson with one relative image. -/
theorem claim_C9_url_row_witness :
    (urlsOf (transformFull oracleNone true none [itLessonImg]).urlTrace "a" =
      [.str "/content/dam/teladoc-headless/image/a.png"]) ∧
    rows18 "a" (stEnrich oracleNone (inclPass [itLessonImg])
        (resolvedBase [itLessonImg] none) [itLessonImg]).ctt =
      [⟨"a", 1, 0, 18, .s (pyStr (normalizeJ
        (.str "/content/dam/teladoc-headless/image/a.png")
        (some (resolvedBase [itLessonImg] none))))⟩] ∧
    lookupA (transformFull oracleNone true none
        [itLessonImg]).asset_url_map "a" =
      some (pyStr (normalizeJ (lastOf
        (.str "/content/dam/teladoc-headless/image/a.png") [])
        (some (resolvedBase [itLessonImg] none)))) :=
  ⟨by rfl,
   ((claim_C9_url_row oracleNone true none [itLessonImg] "a").2
      (.str "/content/dam/teladoc-headless/image/a.png") [] (by rfl)).1,
   ((claim_C9_url_row oracleNone true none [itLessonImg] "a").2
      (.str "/content/dam/teladoc-headless/image/a.png") [] (by rfl)).2.2⟩

-- ==================== C10 machinery: nameless records ====================

theorem lookupO_append_other {β : Type} {a k : Option String} (hne : k ≠ a)
    (v : β) : ∀ (m : List (Option String × β)),
    lookupO (m ++ [(k, v)]) a = lookupO m a := by
  intro m
  induction m with
  | nil => simp [lookupO, hne]
  | cons p rest ih =>
    obtain ⟨pk, pv⟩ := p
    simp only [List.cons_append, lookupO]
    by_cases hp : pk = a
    · rw [if_pos hp, if_pos hp]
    · rw [if_neg hp, if_neg hp]
      exact ih

theorem lookupO_dictSetO_self {β : Type} (k : Option String) (v : β) :
    ∀ (m : List (Option String × β)), lookupO (dictSetO m k v) k = some v := by
  intro m
  unfold dictSetO
  split
  · rename_i hs
    induction m with
    | nil => simp [lookupO] at hs
    | cons p rest ih =>
      obtain ⟨pk, pv⟩ := p
      dsimp only [List.map_cons]
      by_cases hp : pk = k
      · rw [if_pos hp]
        simp [lookupO]
      · rw [if_neg hp]
        simp only [lookupO, if_neg hp]
        rw [lookupO, if_neg hp] at hs
        exact ih hs
  · induction m with
    | nil => simp [lookupO]
    | cons p rest ih =>
      rename_i hs
      obtain ⟨pk, pv⟩ := p
      simp only [List.cons_append, lookupO]
      rw [lookupO] at hs
      by_cases hp : pk = k
      · rw [if_pos hp] at hs
        simp at hs
      · rw [if_neg hp] at hs
        rw [if_neg hp]
        exact ih hs

theorem lookupO_dictSetO_other {β : Type} {a k : Option String} (hne : a ≠ k)
    (v : β) : ∀ (m : List (Option String × β)),
    lookupO (dictSetO m k v) a = lookupO m a := by
  intro m
  unfold dictSetO
  split
  · rename_i hs
    clear hs
    induction m with
    | nil => rfl
    | cons p rest ih =>
      obtain ⟨pk, pv⟩ := p
      dsimp only [List.map_cons]
      by_cases hp : pk = k
      · rw [if_pos hp]
        simp only [lookupO, if_neg (Ne.symm hne), if_neg (hp ▸ Ne.symm hne)]
        exact ih
      · rw [if_neg hp]
        simp only [lookupO]
        by_cases hpa : pk = a
        · rw [if_pos hpa, if_pos hpa]
        · rw [if_neg hpa, if_neg hpa]
          exact ih
  · exact lookupO_append_other (Ne.symm hne) v m

/-- Agreement of two inclusion contexts on everything the passes read for a
truthy-named record: identical `items_index`, and identical type/mask
entries at every truthy name. -/
def CtxAgree (c1 c2 : InclCtx) : Prop :=
  c1.items_index = c2.items_index ∧
  ∀ s : String, s ≠ "" →
    lookupO c1.type_cache (some s) = lookupO c2.type_cache (some s) ∧
    lookupO c1.include_mask (some s) = lookupO c2.include_mask (some s)

theorem badName_key {it : Item} (hok : ¬ itemNameOk it = true) {s : String}
    (hs : s ≠ "") : it.name ≠ some s := by
  intro he
  unfold itemNameOk at hok
  rw [he] at hok
  simp at hok
  exact hs hok

theorem ctxAgree_step_good {c1 c2 : InclCtx} {it : Item}
    (hok : itemNameOk it = true) (h : CtxAgree c1 c2) :
    CtxAgree (inclStep c1 it) (inclStep c2 it) := by
  unfold inclStep
  rw [if_pos hok, if_pos hok]
  refine ⟨?_, ?_⟩
  · show dictSet c1.items_index (it.name.getD "") it =
      dictSet c2.items_index (it.name.getD "") it
    rw [h.1]
  · intro s hs
    by_cases hn : it.name = some s
    · constructor
      · show lookupO (dictSetO c1.type_cache it.name _) (some s) = _
        rw [← hn, lookupO_dictSetO_self, lookupO_dictSetO_self]
      · show lookupO (dictSetO c1.include_mask it.name _) (some s) = _
        rw [← hn, lookupO_dictSetO_self, lookupO_dictSetO_self]
    · have hne : (some s : Option String) ≠ it.name := fun he => hn he.symm
      constructor
      · show lookupO (dictSetO c1.type_cache it.name _) (some s) = _
        rw [lookupO_dictSetO_other hne, lookupO_dictSetO_other hne]
        exact (h.2 s hs).1
      · show lookupO (dictSetO c1.include_mask it.name _) (some s) = _
        rw [lookupO_dictSetO_other hne, lookupO_dictSetO_other hne]
        exact (h.2 s hs).2

theorem ctxAgree_step_bad {c1 c2 : InclCtx} {it : Item}
    (hok : ¬ itemNameOk it = true) (h : CtxAgree c1 c2) :
    CtxAgree (inclStep c1 it) c2 := by
  unfold inclStep
  rw [if_neg hok]
  refine ⟨h.1, ?_⟩
  intro s hs
  have hne : (some s : Option String) ≠ it.name :=
    fun he => badName_key hok hs he.symm
  constructor
  · show lookupO (dictSetO c1.type_cache it.name _) (some s) = _
    rw [lookupO_dictSetO_other hne]
    exact (h.2 s hs).1
  · show lookupO (dictSetO c1.include_mask it.name _) (some s) = _
    rw [lookupO_dictSetO_other hne]
    exact (h.2 s hs).2

theorem inclPass_agree_gen : ∀ (l : List Item) (c1 c2 : InclCtx),
    CtxAgree c1 c2 →
    CtxAgree (l.foldl inclStep c1) ((l.filter itemNameOk).foldl inclStep c2) := by
  intro l
  induction l with
  | nil => intro c1 c2 h; exact h
  | cons it rest ih =>
    intro c1 c2 h
    by_cases hok : itemNameOk it = true
    · rw [List.filter_cons_of_pos hok]
      simp only [List.foldl_cons]
      exact ih _ _ (ctxAgree_step_good hok h)
    · rw [List.filter_cons_of_neg hok]
      simp only [List.foldl_cons]
      exact ih _ _ (ctxAgree_step_bad hok h)

theorem inclPass_agree (items : List Item) :
    CtxAgree (inclPass items) (inclPass (items.filter itemNameOk)) :=
  inclPass_agree_gen items ⟨[], [], []⟩ ⟨[], [], []⟩
    ⟨rfl, fun _ _ => ⟨rfl, rfl⟩⟩

theorem goodName {it : Item} (hok : itemNameOk it = true) :
    ∃ s, it.name = some s ∧ s ≠ "" := by
  unfold itemNameOk at hok
  cases hname : it.name with
  | none => rw [hname] at hok; cases hok
  | some s =>
    refine ⟨s, rfl, ?_⟩
    rw [hname] at hok
    simpa using hok

theorem contentStep_agree {c1 c2 : InclCtx} (h : CtxAgree c1 c2)
    (st : TState) (it : Item) : contentStep c1 st it = contentStep c2 st it := by
  by_cases hok : itemNameOk it = true
  · obtain ⟨s, hn, hs⟩ := goodName hok
    unfold contentStep
    rw [show maskOf c1 it.name = maskOf c2 it.name by
        unfold maskOf; rw [hn, (h.2 s hs).2],
      show typeOf c1 it.name = typeOf c2 it.name by
        unfold typeOf; rw [hn, (h.2 s hs).1]]
  · have hf : itemNameOk it = false := by simpa using hok
    unfold contentStep
    rw [if_neg (by simp [hf]), if_neg (by simp [hf])]

theorem textStep_agree {c1 c2 : InclCtx} (h : CtxAgree c1 c2)
    (st : TState) (it : Item) : textStep c1 st it = textStep c2 st it := by
  by_cases hok : itemNameOk it = true
  · obtain ⟨s, hn, hs⟩ := goodName hok
    unfold textStep
    rw [show maskOf c1 it.name = maskOf c2 it.name by
        unfold maskOf; rw [hn, (h.2 s hs).2]]
  · have hf : itemNameOk it = false := by simpa using hok
    unfold textStep
    rw [if_neg (by simp [hf]), if_neg (by simp [hf])]

theorem ctaStep_agree {c1 c2 : InclCtx} (h : CtxAgree c1 c2)
    (st : TState) (it : Item) : ctaStep c1 st it = ctaStep c2 st it := by
  by_cases hok : itemNameOk it = true
  · obtain ⟨s, hn, hs⟩ := goodName hok
    unfold ctaStep
    rw [show maskOf c1 it.name = maskOf c2 it.name by
        unfold maskOf; rw [hn, (h.2 s hs).2]]
  · have hf : itemNameOk it = false := by simpa using hok
    unfold ctaStep
    rw [if_neg (by simp [hf]), if_neg (by simp [hf])]

theorem unitLessonStep_agree {c1 c2 : InclCtx} (h : CtxAgree c1 c2)
    (st : TState) (it : Item) :
    unitLessonStep c1 st it = unitLessonStep c2 st it := by
  by_cases hok : itemNameOk it = true
  · obtain ⟨s, hn, hs⟩ := goodName hok
    unfold unitLessonStep
    rw [show maskOf c1 it.name = maskOf c2 it.name by
        unfold maskOf; rw [hn, (h.2 s hs).2]]
  · have hf : itemNameOk it = false := by simpa using hok
    unfold unitLessonStep
    rw [if_neg (by simp [hf]), if_neg (by simp [hf])]

theorem lessonPageStep_agree {c1 c2 : InclCtx} (h : CtxAgree c1 c2)
    (st : TState) (it : Item) :
    lessonPageStep c1 st it = lessonPageStep c2 st it := by
  by_cases hok : itemNameOk it = true
  · obtain ⟨s, hn, hs⟩ := goodName hok
    unfold lessonPageStep
    rw [show maskOf c1 it.name = maskOf c2 it.name by
        unfold maskOf; rw [hn, (h.2 s hs).2]]
  · have hf : itemNameOk it = false := by simpa using hok
    unfold lessonPageStep
    rw [if_neg (by simp [hf]), if_neg (by simp [hf])]

theorem nonPageAssetStep_agree {c1 c2 : InclCtx} (h : CtxAgree c1 c2)
    (base : String) (st : TState) (it : Item) :
    nonPageAssetStep c1 base st it = nonPageAssetStep c2 base st it := by
  by_cases hok : itemNameOk it = true
  · obtain ⟨s, hn, hs⟩ := goodName hok
    unfold nonPageAssetStep
    rw [show maskOf c1 it.name = maskOf c2 it.name by
        unfold maskOf; rw [hn, (h.2 s hs).2],
      show typeOf c1 it.name = typeOf c2 it.name by
        unfold typeOf; rw [hn, (h.2 s hs).1]]
  · have hf : itemNameOk it = false := by simpa using hok
    unfold nonPageAssetStep
    rw [if_neg (by simp [hf]), if_neg (by simp [hf])]

theorem answersStep_agree {c1 c2 : InclCtx} (h : CtxAgree c1 c2)
    (ii : List (String × Item)) (ai : List (String × String))
    (st : TState) (it : Item) :
    answersStep c1 ii ai st it = answersStep c2 ii ai st it := by
  by_cases hok : itemNameOk it = true
  · obtain ⟨s, hn, hs⟩ := goodName hok
    unfold answersStep
    rw [show maskOf c1 it.name = maskOf c2 it.name by
        unfold maskOf; rw [hn, (h.2 s hs).2],
      show typeOf c1 it.name = typeOf c2 it.name by
        unfold typeOf; rw [hn, (h.2 s hs).1]]
  · have hf : itemNameOk it = false := by simpa using hok
    unfold answersStep
    rw [if_neg (by simp [hf]), if_neg (by simp [hf])]

theorem termStep_agree {c1 c2 : InclCtx} (h : CtxAgree c1 c2)
    (acc : TState × List (String × Nat)) (kv : String × Item) :
    termStep c1 acc kv = termStep c2 acc kv := by
  unfold termStep
  split
  · rfl
  · refine foldl_congr _ _ _ _ ?_
    intro acc' ref _
    dsimp only
    have hpid : (if termRefPath ref ≠ "" then pyBasename (termRefPath ref)
        else "") = pyBasename (termRefPath ref) := by
      by_cases hr : termRefPath ref ≠ ""
      · rw [if_pos hr]
      · rw [if_neg hr]
        push_neg at hr
        rw [hr]
        rfl
    rw [hpid]
    by_cases hg : pyBasename (termRefPath ref) ≠ "" ∧
        (lookupA acc'.1.pages (pyBasename (termRefPath ref))).isSome
    · rw [if_pos hg, if_pos hg,
        show typeOf c1 (some (pyBasename (termRefPath ref))) =
            typeOf c2 (some (pyBasename (termRefPath ref))) by
          unfold typeOf; rw [(h.2 _ hg.1).1]]
    · rw [if_neg hg, if_neg hg]

theorem pageAssetStep_agree {c1 c2 : InclCtx} (h : CtxAgree c1 c2)
    (base : String) (st : TState) {kv : String × Item} (hk : kv.1 ≠ "") :
    pageAssetStep c1 base st kv = pageAssetStep c2 base st kv := by
  unfold pageAssetStep
  rw [show maskOf c1 (some kv.1) = maskOf c2 (some kv.1) by
    unfold maskOf; rw [(h.2 kv.1 hk).2]]

/-- Every key of the Page bucket is a truthy name. -/
def PagesOk (st : TState) : Prop := ∀ y ∈ st.pages.map Prod.fst, y ≠ ""

theorem pagesOk_contentStep (c : InclCtx) {st : TState} (it : Item)
    (h : PagesOk st) : PagesOk (contentStep c st it) := by
  unfold contentStep
  split
  · rename_i hc
    have hok : itemNameOk it = true := ((Bool.and_eq_true _ _).mp hc).1
    obtain ⟨s, hn, hs⟩ := goodName hok
    dsimp only
    repeat' split
    all_goals try exact h
    intro y hy
    rcases dictSet_keys_sub hy with hm | he
    · exact h y hm
    · rw [he, hn]
      exact hs
  · exact h

theorem pagesOk_of_pages_eq {s s' : TState} (he : s'.pages = s.pages)
    (h : PagesOk s) : PagesOk s' := by
  unfold PagesOk at h ⊢
  rw [he]
  exact h

theorem textStep_pages (c : InclCtx) (st : TState) (it : Item) :
    (textStep c st it).pages = st.pages := by
  unfold textStep
  split
  · dsimp only
    refine @foldl_induct _ _ (fun (s' : TState) => s'.pages = st.pages) _ _ _ ?_ ?_
    · refine @foldl_induct _ _ (fun (s' : TState) => s'.pages = st.pages)
        _ _ _ rfl ?_
      intro s kv _ hs
      dsimp only
      repeat' split
      all_goals exact hs
    · intro s kv _ hs
      dsimp only
      repeat' split
      all_goals exact hs
  · rfl

theorem ctaStep_pages (c : InclCtx) (st : TState) (it : Item) :
    (ctaStep c st it).pages = st.pages := by
  have hcat : ∀ (n : String) (d : List (String × JVal)) (s : TState),
      (ctaCatBlock n d s).pages = s.pages := by
    intro n d s
    unfold ctaCatBlock
    split
    · refine @foldl_induct _ _ (fun (s' : TState) => s'.pages = s.pages)
        _ _ _ rfl ?_
      intro s' cv _ hs
      dsimp only
      repeat' split
      all_goals exact hs
    · rfl
  have hcad : ∀ (n : String) (d : List (String × JVal)) (s : TState),
      (ctaCadBlock n d s).pages = s.pages := by
    intro n d s
    unfold ctaCadBlock
    repeat' split
    all_goals rfl
  have htag : ∀ (n : String) (d : List (String × JVal)) (s : TState),
      (ctaTagBlock n d s).pages = s.pages := by
    intro n d s
    unfold ctaTagBlock
    split
    · refine @foldl_induct _ _ (fun (s' : TState) => s'.pages = s.pages)
        _ _ _ rfl ?_
      intro s' tv _ hs
      dsimp only
      repeat' split
      all_goals exact hs
    · rfl
  unfold ctaStep
  split
  · dsimp only
    rw [htag, hcad, hcat]
  · rfl

theorem currUnitStep_pages (st : TState) (kv : String × Item) :
    (currUnitStep st kv).pages = st.pages := by
  unfold currUnitStep
  dsimp only
  split
  · refine @foldl_induct _ _ (fun (s' : TState) => s'.pages = st.pages)
      _ _ _ rfl ?_
    intro s p _ hs
    dsimp only
    repeat' split
    all_goals exact hs
  · refine @foldl_induct _ _
      (fun (sb : TState × Nat) => sb.1.pages = st.pages) _ _ _ rfl ?_
    intro sb ukv _ hs
    dsimp only
    repeat' split
    all_goals exact hs

theorem unitLessonStep_pages (c : InclCtx) (st : TState) (it : Item) :
    (unitLessonStep c st it).pages = st.pages := by
  unfold unitLessonStep
  split
  · dsimp only
    split
    · refine @foldl_induct _ _ (fun (s' : TState) => s'.pages = st.pages)
        _ _ _ rfl ?_
      intro s p _ hs
      dsimp only
      repeat' split
      all_goals exact hs
    · rfl
  · rfl

theorem lessonPageStep_pages (c : InclCtx) (st : TState) (it : Item) :
    (lessonPageStep c st it).pages = st.pages := by
  unfold lessonPageStep
  split
  · dsimp only
    split
    · refine @foldl_induct _ _ (fun (s' : TState) => s'.pages = st.pages)
        _ _ _ rfl ?_
      intro s p _ hs
      dsimp only
      repeat' split
      all_goals exact hs
    · rfl
  · rfl

theorem termStep_pages (c : InclCtx) (acc : TState × List (String × Nat))
    (kv : String × Item) : (termStep c acc kv).1.pages = acc.1.pages := by
  unfold termStep
  split
  · rfl
  · refine @foldl_induct _ _
      (fun (sb : TState × List (String × Nat)) => sb.1.pages = acc.1.pages)
      _ _ _ rfl ?_
    intro sb ref _ hs
    dsimp only
    repeat' split
    all_goals exact hs

theorem record_asset_pages (base : String) (st : TState) (pp : PerParent)
    (aid : String) (url : JVal) (role : Option Nat) :
    (_record_asset base st pp aid url role).1.pages = st.pages := by
  unfold _record_asset recordLabel recordExtHint recordUrlMap recordUrlRow
    recordRegister
  dsimp only
  repeat' split
  all_goals rfl

theorem nonPageAssetStep_pages (c : InclCtx) (base : String) (st : TState)
    (it : Item) : (nonPageAssetStep c base st it).pages = st.pages := by
  have hscan : ∀ (pdata : List (String × JVal)) (sb : TState × PerParent),
      (scanParentImages base pdata sb).1.pages = sb.1.pages := by
    intro pdata sb
    have hgen : ∀ (sb' : TState × PerParent),
        (scanGenericImage base pdata sb').1.pages = sb'.1.pages := by
      intro sb'
      unfold scanGenericImage
      repeat' split
      all_goals first | rfl | exact record_asset_pages base sb'.1 sb'.2 _ _ _
    have hkeys : ∀ (sb' : TState × PerParent),
        (scanImageKeys base pdata sb').1.pages = sb'.1.pages := by
      intro sb'
      unfold scanImageKeys
      refine @foldl_induct _ _
        (fun (x : TState × PerParent) => x.1.pages = sb'.1.pages) _ _ _ rfl ?_
      intro x key _ hx
      dsimp only
      repeat' split
      all_goals
        first
        | exact hx
        | exact (record_asset_pages base x.1 x.2 _ _ _).trans hx
    have hlist : ∀ (sb' : TState × PerParent),
        (scanImagesList base pdata sb').1.pages = sb'.1.pages := by
      intro sb'
      unfold scanImagesList
      split
      · refine @foldl_induct _ _
          (fun (x : TState × PerParent) => x.1.pages = sb'.1.pages) _ _ _ rfl ?_
        intro x v _ hx
        dsimp only
        repeat' split
        all_goals
          first
          | exact hx
          | exact (record_asset_pages base x.1 x.2 _ _ _).trans hx
      · rfl
    exact (hlist _).trans ((hkeys _).trans (hgen sb))
  unfold nonPageAssetStep
  split
  · dsimp only
    split
    · rfl
    · rw [emitAssetEdges_spec]
      exact hscan it.data (st, ⟨[], []⟩)
  · rfl

theorem pagesOk_stNPA (c : InclCtx) (base' : String) (items : List Item) :
    PagesOk (stNPA c base' items) := by
  have h1 : PagesOk (stContent c items) := by
    unfold stContent
    refine @foldl_induct _ _ (fun (s : TState) => PagesOk s) _ _ _ ?_ ?_
    · intro y hy
      cases hy
    · intro s it _ hs
      exact pagesOk_contentStep c it hs
  have h2 : PagesOk (stText c items) := by
    unfold stText
    refine @foldl_induct _ _ (fun (s : TState) => PagesOk s) _ _ _ h1 ?_
    intro s it _ hs
    exact pagesOk_of_pages_eq (textStep_pages c s it) hs
  have h3 : PagesOk (stCta c items) := by
    unfold stCta
    refine @foldl_induct _ _ (fun (s : TState) => PagesOk s) _ _ _ h2 ?_
    intro s it _ hs
    exact pagesOk_of_pages_eq (ctaStep_pages c s it) hs
  have h4 : PagesOk (stCurr c items) := by
    unfold stCurr
    refine @foldl_induct _ _ (fun (s : TState) => PagesOk s) _ _ _ h3 ?_
    intro s kv _ hs
    exact pagesOk_of_pages_eq (currUnitStep_pages s kv) hs
  have h5 : PagesOk (stUL c items) := by
    unfold stUL
    refine @foldl_induct _ _ (fun (s : TState) => PagesOk s) _ _ _ h4 ?_
    intro s it _ hs
    exact pagesOk_of_pages_eq (unitLessonStep_pages c s it) hs
  have h6 : PagesOk (stLP c items) := by
    unfold stLP
    refine @foldl_induct _ _ (fun (s : TState) => PagesOk s) _ _ _ h5 ?_
    intro s it _ hs
    exact pagesOk_of_pages_eq (lessonPageStep_pages c s it) hs
  have h7 : PagesOk (stTerm c items) := by
    unfold stTerm
    refine @foldl_induct _ _
      (fun (sb : TState × List (String × Nat)) => PagesOk sb.1) _ _ _ h6 ?_
    intro sb kv _ hs
    exact pagesOk_of_pages_eq (termStep_pages c sb kv) hs
  unfold stNPA
  refine @foldl_induct _ _ (fun (s : TState) => PagesOk s) _ _ _ h7 ?_
  intro s it _ hs
  exact pagesOk_of_pages_eq (nonPageAssetStep_pages c base' s it) hs

theorem transformFull_filter (oracle : String → Option JVal) (lla : Bool)
    (b : String) (items : List Item) :
    transformFull oracle lla (some b) items =
      transformFull oracle lla (some b) (items.filter itemNameOk) := by
  have hag : CtxAgree (inclPass items) (inclPass (items.filter itemNameOk)) :=
    inclPass_agree items
  have hC : stContent (inclPass items) items =
      stContent (inclPass (items.filter itemNameOk))
        (items.filter itemNameOk) := by
    unfold stContent
    rw [← foldl_filter_id (contentStep (inclPass items)) itemNameOk items
      initState (fun s a _ hpa => by
        unfold contentStep
        rw [if_neg (by simp [hpa])])]
    exact foldl_congr _ _ _ _ (fun s a _ => contentStep_agree hag s a)
  have hT : stText (inclPass items) items =
      stText (inclPass (items.filter itemNameOk))
        (items.filter itemNameOk) := by
    unfold stText
    rw [hC]
    rw [← foldl_filter_id (textStep (inclPass items)) itemNameOk items
      _ (fun s a _ hpa => by
        unfold textStep
        rw [if_neg (by simp [hpa])])]
    exact foldl_congr _ _ _ _ (fun s a _ => textStep_agree hag s a)
  have hCta : stCta (inclPass items) items =
      stCta (inclPass (items.filter itemNameOk))
        (items.filter itemNameOk) := by
    unfold stCta
    rw [hT]
    rw [← foldl_filter_id (ctaStep (inclPass items)) itemNameOk items
      _ (fun s a _ hpa => by
        unfold ctaStep
        rw [if_neg (by simp [hpa])])]
    exact foldl_congr _ _ _ _ (fun s a _ => ctaStep_agree hag s a)
  have hCu : stCurr (inclPass items) items =
      stCurr (inclPass (items.filter itemNameOk))
        (items.filter itemNameOk) := by
    unfold stCurr
    rw [hCta]
  have hUL : stUL (inclPass items) items =
      stUL (inclPass (items.filter itemNameOk))
        (items.filter itemNameOk) := by
    unfold stUL
    rw [hCu]
    rw [← foldl_filter_id (unitLessonStep (inclPass items)) itemNameOk items
      _ (fun s a _ hpa => by
        unfold unitLessonStep
        rw [if_neg (by simp [hpa])])]
    exact foldl_congr _ _ _ _ (fun s a _ => unitLessonStep_agree hag s a)
  have hLP : stLP (inclPass items) items =
      stLP (inclPass (items.filter itemNameOk))
        (items.filter itemNameOk) := by
    unfold stLP
    rw [hUL]
    rw [← foldl_filter_id (lessonPageStep (inclPass items)) itemNameOk items
      _ (fun s a _ hpa => by
        unfold lessonPageStep
        rw [if_neg (by simp [hpa])])]
    exact foldl_congr _ _ _ _ (fun s a _ => lessonPageStep_agree hag s a)
  have hTm : stTerm (inclPass items) items =
      stTerm (inclPass (items.filter itemNameOk))
        (items.filter itemNameOk) := by
    unfold stTerm
    rw [hLP]
    exact congrArg Prod.fst
      (foldl_congr _ _ _ _ (fun acc kv _ => termStep_agree hag acc kv))
  have hNPA : stNPA (inclPass items) b items =
      stNPA (inclPass (items.filter itemNameOk)) b
        (items.filter itemNameOk) := by
    unfold stNPA
    rw [hTm]
    rw [← foldl_filter_id (nonPageAssetStep (inclPass items) b) itemNameOk
      items _ (fun s a _ hpa => by
        unfold nonPageAssetStep
        rw [if_neg (by simp [hpa])])]
    exact foldl_congr _ _ _ _
      (fun s a _ => nonPageAssetStep_agree hag b s a)
  have hPA : stPA (inclPass items) b items =
      stPA (inclPass (items.filter itemNameOk)) b
        (items.filter itemNameOk) := by
    unfold stPA
    rw [hNPA]
    refine foldl_congr _ _ _ _ ?_
    intro s kv hkv
    refine pageAssetStep_agree hag b s ?_
    exact pagesOk_stNPA (inclPass (items.filter itemNameOk)) b
      (items.filter itemNameOk) kv.1 (List.mem_map_of_mem Prod.fst hkv)
  have hAI : ansIdxOf (inclPass items) items =
      ansIdxOf (inclPass (items.filter itemNameOk))
        (items.filter itemNameOk) := by
    unfold ansIdxOf
    rw [hT]
  have hAns : stAns (inclPass items) b items =
      stAns (inclPass (items.filter itemNameOk)) b
        (items.filter itemNameOk) := by
    unfold stAns
    rw [hPA, hAI, hag.1]
    rw [← foldl_filter_id (answersStep (inclPass items)
      (inclPass (items.filter itemNameOk)).items_index
      (ansIdxOf (inclPass (items.filter itemNameOk))
        (items.filter itemNameOk))) itemNameOk items
      _ (fun s a _ hpa => by
        unfold answersStep
        rw [if_neg (by simp [hpa])])]
    exact foldl_congr _ _ _ _ (fun s a _ => answersStep_agree hag _ _ s a)
  have hEn : stEnrich oracle (inclPass items) b items =
      stEnrich oracle (inclPass (items.filter itemNameOk)) b
        (items.filter itemNameOk) := by
    unfold stEnrich
    rw [hAns]
  show { stEnrich oracle (inclPass items)
      (resolvedBase items (some b)) items with
    ctt := dedupCtt (stEnrich oracle (inclPass items)
      (resolvedBase items (some b)) items).ctt } = _
  rw [show resolvedBase items (some b) = b from rfl]
  rw [hEn]
  rfl

/-- C10 (amended): a record whose `name` is missing or empty produces no row
in any output table and originates no edge — with an explicit `base_url`
override the run is COMPLETELY unchanged by deleting all such records.  But
without an override the rest of the run is NOT unaffected: the nameless
record's data still participates in base-URL inference (`_pick_base_url`
scans every record), which changes the URL text rows written for other
records' assets. -/
theorem claim_C10_amended :
    (∀ (oracle : String → Option JVal) (lla : Bool) (b : String)
       (items : List Item),
       transform oracle lla (some b) items =
         transform oracle lla (some b) (items.filter itemNameOk)) ∧
    itemNameOk itNameless = false ∧
    _pick_base_url [itNameless, itLessonImg] = some "http://evil.example" ∧
    _pick_base_url [itLessonImg] = none := by
  refine ⟨?_, by rfl, by rfl, by rfl⟩
  intro oracle lla b items
  unfold transform
  rw [transformFull_filter]

-- ==================== C4 (amended): generic image and images list ====================

theorem record_asset_roleTrace (base : String) (st : TState) (pp : PerParent)
    (b : String) (url : JVal) (role : Option Nat) :
    (_record_asset base st pp b url role).1.roleTrace =
      st.roleTrace ++ [(b, role)] := by
  have hm := midStages_proj b (pyStr (normalizeJ url (some base)))
    (derive_asset_ext (pyStr url)) url (recordRegister b st)
  show ((recordExtHint b (derive_asset_ext (pyStr url))
    (recordUrlMap b (pyStr (normalizeJ url (some base))) url
      (recordUrlRow b (pyStr (normalizeJ url (some base)))
        (recordRegister b st)))).roleTrace ++ [(b, role)]) = _
  rw [hm.2.2, recordRegister_roleTrace]

theorem scanImagesList_single (base : String) (pdata : List (String × JVal))
    (stpp : TState × PerParent) (v : JVal) (aid : String)
    (h1 : lookupA pdata "images" = some (.list [v]))
    (h2 : pyTruthy v = true)
    (h3 : derive_asset_id (pyStr v) = some aid)
    (h4 : aid ≠ "") :
    scanImagesList base pdata stpp =
      _record_asset base stpp.1 stpp.2 aid v (some 404) := by
  simp only [scanImagesList, h1, List.foldl_cons, List.foldl_nil, h2, h3,
    if_pos h4, if_true]

theorem scanImagesList_roles404 (base : String) (pdata : List (String × JVal))
    (stpp : TState × PerParent) :
    ∀ p ∈ (scanImagesList base pdata stpp).1.roleTrace,
      p ∈ stpp.1.roleTrace ∨ p.2 = some 404 := by
  unfold scanImagesList
  split
  · refine @foldl_induct _ _
      (fun (sb : TState × PerParent) =>
        ∀ p ∈ sb.1.roleTrace, p ∈ stpp.1.roleTrace ∨ p.2 = some 404)
      _ _ _ (fun p hp => Or.inl hp) ?_
    intro sb v _ hsb
    dsimp only
    split
    · split
      · split
        · intro p hp
          rw [record_asset_roleTrace] at hp
          rcases List.mem_append.mp hp with hm | hm
          · exact hsb p hm
          · rw [List.mem_singleton.mp hm]
            exact Or.inr rfl
        · exact hsb
      · exact hsb
    · exact hsb
  · exact fun p hp => Or.inl hp

/-- C4 (amended): a reference in the generic `image` field AND each entry of
the generic `images` list is recorded with role 404 — the `heroImage` role,
whose fixed priority 4 is strictly BELOW the highest image-role priority
(405, `titleImage`): a one-entry list is recorded exactly like a single
generic image, and every role event the `images` scan appends to the ghost
role trace carries 404.  Consequently, for a page referencing the same image
URL under both `heroImage` and the generic `image` key, the asset is
registered once and two edges are emitted from that page, but BOTH carry
label 404: there is no distinct generic-image role and no
hero-first/generic-second label pair; likewise a two-entry `images` list
yields two edges both labeled 404, and each listed asset's recorded role
set is exactly `{404}`. -/
theorem claim_C4_amended :
    (∀ (base : String) (pdata : List (String × JVal))
       (stpp : TState × PerParent) (v : JVal) (u aid : String),
       lookupA pdata "image" = some v →
       _extract_image_url v = some u →
       derive_asset_id u = some aid →
       aid ≠ "" →
       scanGenericImage base pdata stpp =
         _record_asset base stpp.1 stpp.2 aid (.str u) (some 404)) ∧
    (∀ (base : String) (pdata : List (String × JVal))
       (stpp : TState × PerParent) (v : JVal) (aid : String),
       lookupA pdata "images" = some (.list [v]) →
       pyTruthy v = true →
       derive_asset_id (pyStr v) = some aid →
       aid ≠ "" →
       scanImagesList base pdata stpp =
         _record_asset base stpp.1 stpp.2 aid v (some 404)) ∧
    (∀ (base : String) (pdata : List (String × JVal))
       (stpp : TState × PerParent),
       ∀ p ∈ (scanImagesList base pdata stpp).1.roleTrace,
         p ∈ stpp.1.roleTrace ∨ p.2 = some 404) ∧
    IMAGE_ROLE_LABEL "heroImage" = some 404 ∧
    ROLE_PRIORITY (some 404) = 4 ∧
    ROLE_PRIORITY (IMAGE_ROLE_LABEL "titleImage") = 5 ∧
    ((transform oracleNone true none [itPageHeroGeneric]).content.filter
       (fun r => r.cms_id == "img1")).length = 1 ∧
    ((transform oracleNone true none [itPageHeroGeneric]).content_to_content.map
       (fun e => (e.parent_cms_id, e.child_cms_id, e.child_content_label_id))) =
      [("p1", "img1", some 404), ("p1", "img1", some 404)] ∧
    ((transform oracleNone true none
        [itLessonImagesList]).content_to_content.map
       (fun e => (e.parent_cms_id, e.child_cms_id, e.child_content_label_id))) =
      [("l3", "i1", some 404), ("l3", "i2", some 404)] ∧
    rolesOf (transformFull oracleNone true none
      [itLessonImagesList]).roleTrace "i1" = [some 404] ∧
    rolesOf (transformFull oracleNone true none
      [itLessonImagesList]).roleTrace "i2" = [some 404] := by
  refine ⟨?_, ?_, ?_, by decide, by decide, by decide, by rfl, by rfl,
    by rfl, by rfl, by rfl⟩
  · intro base pdata stpp v u aid h1 h2 h3 h4
    simp only [scanGenericImage, h1, h2, h3, if_pos h4]
  · intro base pdata stpp v aid h1 h2 h3 h4
    exact scanImagesList_single base pdata stpp v aid h1 h2 h3 h4
  · intro base pdata stpp
    exact scanImagesList_roles404 base pdata stpp

/-- Witness for C4 (amended): the generic `image` branch and a one-entry
generic `images` list at concrete parents. -/
theorem claim_C4_amended_witness :
    (scanGenericImage "https://b"
        [("image", .str "/content/dam/teladoc-headless/image/w.png")]
        (initState, ⟨[], []⟩) =
      _record_asset "https://b" initState ⟨[], []⟩ "w"
        (.str "/content/dam/teladoc-headless/image/w.png") (some 404)) ∧
    scanImagesList "https://b"
        [("images", .list [.str "/content/dam/teladoc-headless/image/w2.png"])]
        (initState, ⟨[], []⟩) =
      _record_asset "https://b" initState ⟨[], []⟩ "w2"
        (.str "/content/dam/teladoc-headless/image/w2.png") (some 404) :=
  ⟨claim_C4_amended.1 "https://b" _ _ _ _ _ rfl rfl rfl (by decide),
   claim_C4_amended.2.1 "https://b" _ _ _ _ rfl rfl rfl (by decide)⟩
